import Mathlib

/-!
# picfit `config` package: layered configuration loading

A shallow embedding of `config/config.go` and of the parts of the two libraries it drives:

* `config`  : the data model, `Logger.GetLevel`, `DefaultConfig`, `load`, `Load`,
  `LoadFromContent`, translated from `config/config.go`;
* `viper`   : the process-wide registry of `github.com/spf13/viper` (defaults, environment prefix,
  configuration file and type, parsed configuration) with its lookup order;
* `mapstructure` : the structural decoding of the merged settings into the typed `Config` tree.

Conventions.  Go pointers are `Option`, Go `int` is `Int`, Go slices are `List` (a nil slice and an
empty slice are both `[]`), Go maps are association lists read by their first matching entry,
a write leaving one entry for its key.
A multi-valued Go return `(*Config, error)` is kept as a pair of options, and a nil dereference is
an outcome of its own.  The process-wide viper instance is passed explicitly.

Scope of the library model.  viper and mapstructure are libraries outside the repository; their
model follows their behaviour as far as `load` exercises it:

* a lookup goes through the layers by decreasing priority, environment, parsed configuration,
  defaults, and the environment is consulted only once `AutomaticEnv` has switched it on
  (`SetEnvPrefix` alone only records the prefix);
* a configuration type set with `SetConfigType` takes precedence over the extension of the
  configuration file; `SetConfigFile`, `SetConfigType` and `SetEnvPrefix` ignore an empty string;
* `Unmarshal` decodes the map of `AllSettings`: every key of `AllKeys` set to its `Get` value;
* a struct is decoded from a map field by field (exact name, else case-insensitive match),
  absent or nil data leave a field as it is, a value of the very type of the target is copied,
  a pointer is set to a freshly decoded element.

Text parsers (JSON, YAML, TOML, ...), the file system, the process environment and the weakly
typed conversions of mapstructure are parameters gathered in `World`.  A key path is the list of
its segments: keys are taken not to contain viper's key delimiter `.`.  A JSON number is held
by the integer it is written as; Go holds it as a float64, and it is decoded into an `int`
through `Go.float64` and `Go.int64`.  Go's map iteration order is not modelled: the entries of
a map are visited in the order of the list, and the keys of `AllKeys` are taken in the order
parsed configuration, then defaults.  The viper layers that no call of this package
ever writes (explicit overrides, flags, bound environment keys, key/value store, aliases) are
left out; the automatic environment layer is kept, with the switch that enables it.
-/

set_option autoImplicit false

/-! ## Strings -/

/-- ASCII lower-casing, standing for Go's `strings.ToLower`. -/
def ToLower (s : String) : String := String.mk (s.data.map Char.toLower)

/-- ASCII upper-casing, standing for Go's `strings.ToUpper`. -/
def ToUpper (s : String) : String := String.mk (s.data.map Char.toUpper)

/-- Joining of path segments with a delimiter, Go's `strings.Join`. -/
def Join (path : List String) (sep : String) : String := sep.intercalate path

/-! ## Numbers -/

/-- Number of binary digits of `a`, by successive halving (`fuel` bounds the rounds). -/
def Go.bitLen : Nat → Nat → Nat
  | 0, _ => 0
  | fuel + 1, a => if a = 0 then 0 else Go.bitLen fuel (a / 2) + 1

/-- The float64 nearest to an integer (ties to the even mantissa): the value Go holds for a JSON
number written as that integer.  Integers below `2 ^ 53` in absolute value are exact; a larger
one keeps its 53 leading binary digits. -/
def Go.float64 (n : Int) : Int :=
  if n.natAbs < 2 ^ 53 then n
  else
    let shift := Go.bitLen n.natAbs n.natAbs - 53
    let q := n.natAbs / 2 ^ shift
    let r := n.natAbs % 2 ^ shift
    let half := 2 ^ (shift - 1)
    let q := if r > half ∨ (r = half ∧ q % 2 = 1) then q + 1 else q
    Int.sign n * (q * 2 ^ shift : Nat)

/-- Go's conversion `int64(f)` of an integral float64, as amd64 performs it: the value itself
when it fits in 64 bits, the least int64 otherwise. -/
def Go.int64 (f : Int) : Int :=
  if -(2 ^ 63) ≤ f ∧ f < 2 ^ 63 then f else -(2 ^ 63)

namespace config

/-! ## Constants of the repository declared outside `config.go` -/

/-- Package-level constants used by `config.go` and declared in other files of the repository
(`DefaultFormat`, `DefaultQuality`, ... in package `config`, `Version` in package `constants`).
Their values are parameters of the development. -/
structure Constants where
  DefaultFormat : String
  DefaultQuality : Int
  DefaultPort : Int
  DefaultShardWidth : Int
  DefaultShardDepth : Int
  DefaultShardRestOnly : Bool
  DefaultUserAgent : String
  DefaultMimetypeDetector : String
  DefaultLoggerLevel : String
  Version : String

/-! ## Data model (`config.go`, lines 10-90) -/

/-- Shard is a struct to allow shard location when files are uploaded. -/
structure Shard where
  Depth : Int := 0
  Width : Int := 0
  RestOnly : Bool := false
  deriving DecidableEq, Repr

/-- AllowedSize is a struct used in the allowed_sizes option. -/
structure AllowedSize where
  Height : Int := 0
  Width : Int := 0
  deriving DecidableEq, Repr

/-- Options is a struct to add options to the application. -/
structure Options where
  EnableUpload : Bool := false
  EnableDelete : Bool := false
  EnableStats : Bool := false
  DefaultFormat : String := ""
  Format : String := ""
  Quality : Int := 0
  AllowedSizes : List AllowedSize := []
  DefaultUserAgent : String := ""
  MimetypeDetector : String := ""
  deriving DecidableEq, Repr

/-- KVStore is a struct to represent a key/value store (redis, cache); `Type_` is the Go field
`Type`. -/
structure KVStore where
  Type_ : String := ""
  Host : String := ""
  Port : Int := 0
  Password : String := ""
  Db : Int := 0
  Prefix : String := ""
  MaxEntries : Int := 0
  deriving DecidableEq, Repr

/-- Storage is a struct to represent a Storage (fs, s3); `Type_` is the Go field `Type`. -/
structure Storage where
  Type_ : String := ""
  Location : String := ""
  BaseURL : String := ""
  Region : String := ""
  ACL : String := ""
  AccessKeyID : String := ""
  BucketName : String := ""
  SecretAccessKey : String := ""
  deriving DecidableEq, Repr

/-- Storages is a struct to represent a section of storage (src, dst). -/
structure Storages where
  Src : Option Storage := none
  Dst : Option Storage := none
  deriving DecidableEq, Repr

/-- Sentry is a struct to configure sentry using a dsn. -/
structure Sentry where
  DSN : String := ""
  Tags : List (String × String) := []
  deriving DecidableEq, Repr

/-- Logger is a struct to configure logger. -/
structure Logger where
  Level : String := ""
  deriving DecidableEq, Repr

/-- Config is a struct to load configuration flags.  The defaults of the fields are the Go zero
values, so that `{}` is the `&Config{}` of `load`. -/
structure Config where
  Debug : Bool := false
  Sentry : Option Sentry := none
  SecretKey : String := ""
  Shard : Option Shard := none
  Port : Int := 0
  Options : Option Options := none
  AllowedOrigins : List String := []
  AllowedMethods : List String := []
  AllowedHeaders : List String := []
  Storage : Option Storages := none
  KVStore : Option KVStore := none
  Logger : Logger := {}
  deriving DecidableEq, Repr

/-- GetLevel returns the level of the logger (`config.go`, lines 92-99).  The receiver is a
pointer: the logger as it stands when the method returns is the second component. -/
def Logger.GetLevel (k : Constants) (l : Logger) : String × Logger :=
  if l.Level = "" then
    (k.DefaultLoggerLevel, l)
  else
    (l.Level, l)

/-- DefaultConfig returns a default config instance (`config.go`, lines 101-123). -/
def DefaultConfig (k : Constants) : Config :=
  { Options := some
      { EnableDelete := false
        EnableUpload := false
        DefaultFormat := k.DefaultFormat
        Quality := k.DefaultQuality
        Format := ""
        DefaultUserAgent := k.DefaultUserAgent ++ "/" ++ k.Version
        MimetypeDetector := k.DefaultMimetypeDetector }
    Port := k.DefaultPort
    KVStore := some { Type_ := "dummy" }
    Shard := some
      { Width := k.DefaultShardWidth
        Depth := k.DefaultShardDepth
        RestOnly := k.DefaultShardRestOnly } }

end config

/-! ## Untyped values -/

/-- Values held in viper's maps: what a parser produces (`null`, booleans, numbers, strings,
arrays, objects) and the Go values that `load` registers as defaults (an `int` and pointers to
`Options`, `Shard` and `KVStore`; `nilptr` is a nil pointer). -/
inductive Value where
  | null
  | bool (b : Bool)
  | num (n : Int)
  | str (s : String)
  | arr (xs : List Value)
  | obj (kvs : List (String × Value))
  | int (n : Int)
  | options (o : config.Options)
  | shard (s : config.Shard)
  | kvstore (s : config.KVStore)
  | nilptr
  deriving Repr

/-- Errors returned by the load operations. -/
inductive Error where
  | configFileNotFound
  | unsupportedConfig (configType : String)
  | read (msg : String)
  | parse (msg : String)
  | decode
  deriving DecidableEq, Repr

/-- Weakly typed conversions of mapstructure (`WeaklyTypedInput`, decode hooks), applied when the
kind of the data differs from the kind of the target; `none` is a conversion error. -/
structure Weak where
  toBool : Value → Option Bool
  toInt : Value → Option Int
  toStr : Value → Option String
  toStrings : Value → Option (List String)
  toSizes : Value → Option (List config.AllowedSize)
  toTags : Value → Option (List (String × String))

/-- Everything outside the process that a load reads: the environment (`os.Getenv`, empty when
the variable is unset), the file system, the parser selected by a configuration type, the search
for a configuration file when none was set, and the weak conversions. -/
structure World where
  Getenv : String → String
  ReadFile : String → Except String String
  unmarshal : String → String → Except String (List (String × Value))
  findConfigFile : Option String
  weak : Weak

/-- Map read, Go's `m[k]` with its presence flag. -/
def Value.lookup (k : String) : List (String × Value) → Option Value
  | [] => none
  | (k', x) :: rest => if k' = k then some x else Value.lookup k rest

/-- Map delete, Go's `delete(m, k)`. -/
def Value.erase (k : String) (m : List (String × Value)) : List (String × Value) :=
  m.filter (fun kv => kv.1 != k)

/-- Map write, Go's `m[k] = x`: the entry of the key is replaced, a map holding one entry for a
key, or the entry is added. -/
def Value.insert (k : String) (x : Value) : List (String × Value) → List (String × Value)
  | [] => [(k, x)]
  | (k', x') :: rest =>
    if k' = k then (k, x) :: Value.erase k rest else (k', x') :: Value.insert k x rest

/-- Go's `v == nil` on an interface value. -/
def Value.isNil : Value → Bool
  | .null => true
  | _ => false

/-- The Go `int` that a number of the source is decoded to: a JSON number goes through
float64 and `int64(f)`, a number that the parser already holds as an `int` is taken as it is. -/
def Value.asInt : Value → Option Int
  | .num n => some (Go.int64 (Go.float64 n))
  | .int n => some n
  | _ => none

mutual
/-- All keys of the maps of a value are in lower case, arrays apart. -/
def Value.lowerKeys : Value → Prop
  | .obj m => Value.lowerKeysMap m
  | _ => True
/-- All keys of a map and of its nested maps are in lower case. -/
def Value.lowerKeysMap : List (String × Value) → Prop
  | [] => True
  | (k, x) :: rest => ToLower k = k ∧ Value.lowerKeys x ∧ Value.lowerKeysMap rest
end

/-! ## The viper registry -/

namespace viper

/-- The process-wide viper instance, restricted to the layers this package can reach. -/
structure Viper where
  configFile : String := ""
  configType : String := ""
  envPrefix : String := ""
  automaticEnvApplied : Bool := false
  config : List (String × Value) := []
  defaults : List (String × Value) := []

/-- The instance viper creates at start-up (`viper.New()`). -/
def New : Viper := {}

/-- File extensions (and configuration types) viper accepts in `ReadInConfig`. -/
def SupportedExts : List String :=
  ["json", "toml", "yaml", "yml", "properties", "props", "prop", "hcl"]

/-- Reading of a nested key in a map (`searchMap`): a missing key, or a plain value met where a
nested map is expected, gives nil. -/
def searchMap : List (String × Value) → List String → Value
  | source, [] => .obj source
  | source, [k] => (Value.lookup k source).getD .null
  | source, k :: rest =>
    match Value.lookup k source with
    | some (.obj next) => searchMap next rest
    | _ => .null

/-- Writing of a nested key: `deepSearch(m, path[0:len(path)-1])[lastKey] = value`.  An
intermediate key that is missing, or that holds a plain value, is replaced by a new map. -/
def deepSet : List (String × Value) → List String → Value → List (String × Value)
  | m, [], _ => m
  | m, [lastKey], value => Value.insert lastKey value m
  | m, k :: rest, value =>
    match Value.lookup k m with
    | some (.obj m3) => Value.insert k (.obj (deepSet m3 rest value)) m
    | _ => Value.insert k (.obj (deepSet [] rest value)) m

/-- SetDefault registers the default value of a key. -/
def SetDefault (v : Viper) (key : List String) (value : Value) : Viper :=
  { v with defaults := deepSet v.defaults (key.map ToLower) value }

/-- SetEnvPrefix defines the prefix that environment variables will use. -/
def SetEnvPrefix (v : Viper) (s : String) : Viper :=
  if s ≠ "" then { v with envPrefix := s } else v

/-- AutomaticEnv makes every `Get` check the environment.  No function of package `config`
calls it. -/
def AutomaticEnv (v : Viper) : Viper :=
  { v with automaticEnvApplied := true }

/-- SetConfigFile explicitly defines the path of the configuration file. -/
def SetConfigFile (v : Viper) (s : String) : Viper :=
  if s ≠ "" then { v with configFile := s } else v

/-- SetConfigType sets the type of the configuration returned by a remote source or a buffer. -/
def SetConfigType (v : Viper) (s : String) : Viper :=
  if s ≠ "" then { v with configType := s } else v

/-- Name of the environment variable of a key (`mergeWithEnvPrefix`). -/
def mergeWithEnvPrefix (v : Viper) (s : String) : String :=
  if v.envPrefix ≠ "" then ToUpper (v.envPrefix ++ "_" ++ s) else ToUpper s

/-- Reading of an environment variable (`getEnv`; no key replacer is ever installed). -/
def getEnv (w : World) (key : String) : String := w.Getenv key

/-- Loop of `isPathShadowedInDeepMap`, from index `i`, for `fuel` more rounds. -/
def isPathShadowedInDeepMap.loop (path : List String) (m : List (String × Value)) :
    Nat → Nat → String
  | 0, _ => ""
  | fuel + 1, i =>
    match searchMap m (path.take i) with
    | .null => ""
    | .obj _ => isPathShadowedInDeepMap.loop path m fuel (i + 1)
    | _ => Join (path.take i) "."

/-- The prefix of `path` that holds a plain value in `m`, shadowing the path, or `""`. -/
def isPathShadowedInDeepMap (path : List String) (m : List (String × Value)) : String :=
  isPathShadowedInDeepMap.loop path m (path.length - 1) 1

/-- Loop of `isPathShadowedInAutoEnv`, from index `i`, for `fuel` more rounds. -/
def isPathShadowedInAutoEnv.loop (w : World) (v : Viper) (path : List String) :
    Nat → Nat → String
  | 0, _ => ""
  | fuel + 1, i =>
    if getEnv w (mergeWithEnvPrefix v (Join (path.take i) ".")) ≠ "" then
      Join (path.take i) "."
    else
      isPathShadowedInAutoEnv.loop w v path fuel (i + 1)

/-- The prefix of `path` that is set in the environment, shadowing the path, or `""`. -/
def isPathShadowedInAutoEnv (w : World) (v : Viper) (path : List String) : String :=
  isPathShadowedInAutoEnv.loop w v path (path.length - 1) 1

/-- Lookup of a lower-cased key through the layers, by decreasing priority: automatic
environment (only when switched on), parsed configuration, registered defaults. -/
def find (w : World) (v : Viper) (path : List String) : Value :=
  let lcaseKey := Join path "."
  let nested := decide (path.length > 1)
  if v.automaticEnvApplied && getEnv w (mergeWithEnvPrefix v lcaseKey) != "" then
    .str (getEnv w (mergeWithEnvPrefix v lcaseKey))
  else if v.automaticEnvApplied && nested && isPathShadowedInAutoEnv w v path != "" then
    .null
  else if !(searchMap v.config path).isNil then
    searchMap v.config path
  else if nested && isPathShadowedInDeepMap path v.config != "" then
    .null
  else if !(searchMap v.defaults path).isNil then
    searchMap v.defaults path
  else
    .null

/-- Get returns the value of a key, case-insensitively. -/
def Get (w : World) (v : Viper) (key : List String) : Value :=
  find w v (key.map ToLower)

mutual
/-- One entry of `flattenAndMergeMap`: a nested map is flattened unless its key is already
shadowed, any other value makes its key a leaf. -/
def flattenAndMergeValue (shadow : List (List String)) (fullKey : List String) :
    Value → List (List String)
  | .obj m2 => if shadow.contains fullKey then shadow else flattenAndMergeMap shadow fullKey m2
  | _ => if shadow.contains (fullKey.map ToLower) then shadow else shadow ++ [fullKey.map ToLower]
/-- The set of leaf keys of a map, merged into `shadow` (`flattenAndMergeMap`). -/
def flattenAndMergeMap (shadow : List (List String)) (pre : List String) :
    List (String × Value) → List (List String)
  | [] => shadow
  | (k, val) :: rest => flattenAndMergeMap (flattenAndMergeValue shadow (pre ++ [k]) val) pre rest
end

/-- AllKeys returns all keys holding a value, nested keys as paths. -/
def AllKeys (v : Viper) : List (List String) :=
  flattenAndMergeMap (flattenAndMergeMap [] [] v.config) [] v.defaults

/-- AllSettings merges all settings into one map: each key of `AllKeys` is set to its `Get`
value, nil values being skipped. -/
def AllSettings (w : World) (v : Viper) : List (String × Value) :=
  (AllKeys v).foldl
    (fun m k => if (Get w v k).isNil then m else deepSet m (k.map ToLower) (Get w v k)) []

mutual
/-- Lower-casing of the keys of a nested value: a nested map is replaced by its lower-cased
copy. -/
def insensitiviseValue : Value → Value
  | .obj m => .obj (copyAndInsensitiviseMap [] m)
  | x => x
/-- Lower-cased copy of a map (`copyAndInsensitiviseMap`): the entries are written one after
the other into the new map `nm`, under their key in lower case. -/
def copyAndInsensitiviseMap (nm : List (String × Value)) :
    List (String × Value) → List (String × Value)
  | [] => nm
  | (key, val) :: rest =>
    copyAndInsensitiviseMap (Value.insert (ToLower key) (insensitiviseValue val) nm) rest
end

/-- One round of the loop of `insensitiviseMap` on the map `m`, at the entry of key `key`: the
value of the entry is lower-cased, the entry is deleted when its key is not in lower case, and
the value is written under the key in lower case.  An entry deleted by an earlier round is
not visited. -/
def insensitiviseMap.step (m : List (String × Value)) (key : String) : List (String × Value) :=
  match Value.lookup key m with
  | none => m
  | some val =>
    if key ≠ ToLower key then
      Value.insert (ToLower key) (insensitiviseValue val) (Value.erase key m)
    else
      Value.insert (ToLower key) (insensitiviseValue val) m

/-- Lower-casing of all keys of a map, in place (`insensitiviseMap`): the loop visits the
entries of the map one after the other.  An entry whose key is not in lower case so replaces
the entry under the same key in lower case. -/
def insensitiviseMap (m : List (String × Value)) : List (String × Value) :=
  (m.map Prod.fst).foldl insensitiviseMap.step m

/-- Loop of Go's `filepath.Ext`, scanning the path from its end. -/
def Ext.loop : List Char → List Char → String
  | [], _ => ""
  | c :: rest, acc =>
    if c = '/' then ""
    else if c = '.' then String.mk ('.' :: acc)
    else Ext.loop rest (c :: acc)

/-- Go's `filepath.Ext`: the suffix beginning at the final dot of the final path element. -/
def Ext (path : String) : String := Ext.loop path.data.reverse []

/-- The configuration file: the one set with `SetConfigFile`, else the one found by search
(which is then remembered). -/
def getConfigFile (w : World) (v : Viper) : Except Error String × Viper :=
  if v.configFile = "" then
    match w.findConfigFile with
    | none => (.error .configFileNotFound, v)
    | some cf => (.ok cf, { v with configFile := cf })
  else
    (.ok v.configFile, v)

/-- The configuration type: the one set with `SetConfigType` when there is one, else the
extension of the configuration file. -/
def getConfigType (w : World) (v : Viper) : String :=
  if v.configType ≠ "" then v.configType
  else
    match (getConfigFile w v).1 with
    | .error _ => ""
    | .ok cf =>
      if (Ext cf).data.length > 1 then String.mk ((Ext cf).data.drop 1) else ""

/-- Parsing of a buffer in the current configuration type, keys lower-cased
(`unmarshalReader`). -/
def unmarshalReader (w : World) (v : Viper) (content : String) :
    Except Error (List (String × Value)) :=
  match w.unmarshal (ToLower (getConfigType w v)) content with
  | .error e => .error (.parse e)
  | .ok c => .ok (insensitiviseMap c)

/-- ReadInConfig discovers and loads the configuration file from disk. -/
def ReadInConfig (w : World) (v : Viper) : Option Error × Viper :=
  match getConfigFile w v with
  | (.error e, v) => (some e, v)
  | (.ok filename, v) =>
    if ¬ SupportedExts.contains (getConfigType w v) then
      (some (.unsupportedConfig (getConfigType w v)), v)
    else
      match w.ReadFile filename with
      | .error e => (some (.read e), v)
      | .ok file =>
        match unmarshalReader w v file with
        | .error e => (some e, v)
        | .ok config => (none, { v with config := config })

/-- ReadConfig reads a new configuration from a buffer, replacing the previous one. -/
def ReadConfig (w : World) (v : Viper) (content : String) : Option Error × Viper :=
  match unmarshalReader w v content with
  | .error e => (some e, { v with config := [] })
  | .ok config => (none, { v with config := config })

end viper

/-! ## Structural decoding (mapstructure) -/

namespace mapstructure

open config

/-- Case-insensitive comparison of two keys, standing for Go's `strings.EqualFold`. -/
def EqualFold (s t : String) : Bool := ToLower s == ToLower t

/-- The data of a struct field in a map: the entry under the exact field name, else the first
entry whose key matches case-insensitively; nil when there is none (the field is then left as
it is, as for nil data). -/
def fieldData (fieldName : String) (m : List (String × Value)) : Value :=
  match Value.lookup fieldName m with
  | some x => x
  | none =>
    match m.find? (fun kv => EqualFold kv.1 fieldName) with
    | some kv => kv.2
    | none => .null

/-- Decoding into a `bool`: nil data leave the target as it is. -/
def decodeBool (w : Weak) (data : Value) (cur : Bool) : Except Error Bool :=
  match data with
  | .null => .ok cur
  | .bool b => .ok b
  | d => match w.toBool d with
    | some b => .ok b
    | none => .error .decode

/-- Decoding into an `int`: a Go `int` is taken as it is, a JSON number, which Go holds as a
float64, is converted with `int64(f)`. -/
def decodeInt (w : Weak) (data : Value) (cur : Int) : Except Error Int :=
  match data with
  | .null => .ok cur
  | .int n => .ok n
  | .num n => .ok (Go.int64 (Go.float64 n))
  | d => match w.toInt d with
    | some n => .ok n
    | none => .error .decode

/-- Decoding into a `string`. -/
def decodeString (w : Weak) (data : Value) (cur : String) : Except Error String :=
  match data with
  | .null => .ok cur
  | .str s => .ok s
  | d => match w.toStr d with
    | some s => .ok s
    | none => .error .decode

/-- Decoding into a `[]string`: an array is decoded element by element. -/
def decodeStrings (w : Weak) (data : Value) (cur : List String) : Except Error (List String) :=
  match data with
  | .null => .ok cur
  | .arr xs => xs.mapM (fun x => decodeString w x "")
  | d => match w.toStrings d with
    | some l => .ok l
    | none => .error .decode

/-- Decoding into a `map[string]string`. -/
def decodeTags (w : Weak) (data : Value) (cur : List (String × String)) :
    Except Error (List (String × String)) :=
  match data with
  | .null => .ok cur
  | .obj m => m.mapM (fun kv => do
      let s ← decodeString w kv.2 ""
      pure (kv.1, s))
  | d => match w.toTags d with
    | some l => .ok l
    | none => .error .decode

/-- Decoding into an `AllowedSize`. -/
def decodeAllowedSize (w : Weak) (data : Value) (cur : AllowedSize) : Except Error AllowedSize :=
  match data with
  | .null => .ok cur
  | .obj m => do
    let height ← decodeInt w (fieldData "Height" m) cur.Height
    let width ← decodeInt w (fieldData "Width" m) cur.Width
    pure { Height := height, Width := width }
  | _ => .error .decode

/-- Decoding into a `[]AllowedSize`. -/
def decodeAllowedSizes (w : Weak) (data : Value) (cur : List AllowedSize) :
    Except Error (List AllowedSize) :=
  match data with
  | .null => .ok cur
  | .arr xs => xs.mapM (fun x => decodeAllowedSize w x {})
  | d => match w.toSizes d with
    | some l => .ok l
    | none => .error .decode

/-- Decoding into an `Options`: a value of that very type is copied, a map is decoded field by
field, anything else is an error. -/
def decodeOptions (w : Weak) (data : Value) (cur : Options) : Except Error Options :=
  match data with
  | .null => .ok cur
  | .options o => .ok o
  | .obj m => do
    let enableUpload ← decodeBool w (fieldData "enable_upload" m) cur.EnableUpload
    let enableDelete ← decodeBool w (fieldData "enable_delete" m) cur.EnableDelete
    let enableStats ← decodeBool w (fieldData "enable_stats" m) cur.EnableStats
    let defaultFormat ← decodeString w (fieldData "DefaultFormat" m) cur.DefaultFormat
    let format ← decodeString w (fieldData "Format" m) cur.Format
    let quality ← decodeInt w (fieldData "Quality" m) cur.Quality
    let allowedSizes ← decodeAllowedSizes w (fieldData "allowed_sizes" m) cur.AllowedSizes
    let defaultUserAgent ← decodeString w (fieldData "default_user_agent" m) cur.DefaultUserAgent
    let mimetypeDetector ← decodeString w (fieldData "mimetype_detector" m) cur.MimetypeDetector
    pure
      { EnableUpload := enableUpload, EnableDelete := enableDelete, EnableStats := enableStats,
        DefaultFormat := defaultFormat, Format := format, Quality := quality,
        AllowedSizes := allowedSizes, DefaultUserAgent := defaultUserAgent,
        MimetypeDetector := mimetypeDetector }
  | _ => .error .decode

/-- Decoding into a `Shard`. -/
def decodeShard (w : Weak) (data : Value) (cur : Shard) : Except Error Shard :=
  match data with
  | .null => .ok cur
  | .shard s => .ok s
  | .obj m => do
    let depth ← decodeInt w (fieldData "Depth" m) cur.Depth
    let width ← decodeInt w (fieldData "Width" m) cur.Width
    let restOnly ← decodeBool w (fieldData "RestOnly" m) cur.RestOnly
    pure { Depth := depth, Width := width, RestOnly := restOnly }
  | _ => .error .decode

/-- Decoding into a `KVStore`. -/
def decodeKVStore (w : Weak) (data : Value) (cur : KVStore) : Except Error KVStore :=
  match data with
  | .null => .ok cur
  | .kvstore s => .ok s
  | .obj m => do
    let type ← decodeString w (fieldData "Type" m) cur.Type_
    let host ← decodeString w (fieldData "Host" m) cur.Host
    let port ← decodeInt w (fieldData "Port" m) cur.Port
    let password ← decodeString w (fieldData "Password" m) cur.Password
    let db ← decodeInt w (fieldData "Db" m) cur.Db
    let pre ← decodeString w (fieldData "Prefix" m) cur.Prefix
    let maxEntries ← decodeInt w (fieldData "MaxEntries" m) cur.MaxEntries
    pure
      { Type_ := type, Host := host, Port := port, Password := password, Db := db,
        Prefix := pre, MaxEntries := maxEntries }
  | _ => .error .decode

/-- Decoding into a `Storage`. -/
def decodeStorage (w : Weak) (data : Value) (cur : Storage) : Except Error Storage :=
  match data with
  | .null => .ok cur
  | .obj m => do
    let type ← decodeString w (fieldData "Type" m) cur.Type_
    let location ← decodeString w (fieldData "Location" m) cur.Location
    let baseURL ← decodeString w (fieldData "base_url" m) cur.BaseURL
    let region ← decodeString w (fieldData "Region" m) cur.Region
    let acl ← decodeString w (fieldData "ACL" m) cur.ACL
    let accessKeyID ← decodeString w (fieldData "access_key_id" m) cur.AccessKeyID
    let bucketName ← decodeString w (fieldData "bucket_name" m) cur.BucketName
    let secretAccessKey ← decodeString w (fieldData "secret_access_key" m) cur.SecretAccessKey
    pure
      { Type_ := type, Location := location, BaseURL := baseURL, Region := region, ACL := acl,
        AccessKeyID := accessKeyID, BucketName := bucketName,
        SecretAccessKey := secretAccessKey }
  | _ => .error .decode

/-- Decoding into a pointer (`decodePtr`): nil data leave the pointer as it is, other data are
decoded into a fresh element to which the pointer is set. -/
def decodePtr {α : Type} (decodeElem : Value → α → Except Error α) (zero : α)
    (data : Value) (cur : Option α) : Except Error (Option α) :=
  match data with
  | .null => .ok cur
  | d => do
    let x ← decodeElem d zero
    pure (some x)

/-- Decoding into a `Storages`. -/
def decodeStorages (w : Weak) (data : Value) (cur : Storages) : Except Error Storages :=
  match data with
  | .null => .ok cur
  | .obj m => do
    let src ← decodePtr (decodeStorage w) {} (fieldData "Src" m) cur.Src
    let dst ← decodePtr (decodeStorage w) {} (fieldData "Dst" m) cur.Dst
    pure { Src := src, Dst := dst }
  | _ => .error .decode

/-- Decoding into a `Sentry`. -/
def decodeSentry (w : Weak) (data : Value) (cur : Sentry) : Except Error Sentry :=
  match data with
  | .null => .ok cur
  | .obj m => do
    let dsn ← decodeString w (fieldData "DSN" m) cur.DSN
    let tags ← decodeTags w (fieldData "Tags" m) cur.Tags
    pure { DSN := dsn, Tags := tags }
  | _ => .error .decode

/-- Decoding into a `Logger`. -/
def decodeLogger (w : Weak) (data : Value) (cur : Logger) : Except Error Logger :=
  match data with
  | .null => .ok cur
  | .obj m => do
    let level ← decodeString w (fieldData "Level" m) cur.Level
    pure { Level := level }
  | _ => .error .decode

/-- Decoding of the merged settings into a `Config`, field by field; keys of the map that
match no field are ignored. -/
def decodeConfig (w : Weak) (m : List (String × Value)) (cur : Config) : Except Error Config := do
  let debug ← decodeBool w (fieldData "Debug" m) cur.Debug
  let sentry ← decodePtr (decodeSentry w) {} (fieldData "Sentry" m) cur.Sentry
  let secretKey ← decodeString w (fieldData "secret_key" m) cur.SecretKey
  let shard ← decodePtr (decodeShard w) {} (fieldData "Shard" m) cur.Shard
  let port ← decodeInt w (fieldData "Port" m) cur.Port
  let options ← decodePtr (decodeOptions w) {} (fieldData "Options" m) cur.Options
  let allowedOrigins ← decodeStrings w (fieldData "allowed_origins" m) cur.AllowedOrigins
  let allowedMethods ← decodeStrings w (fieldData "allowed_methods" m) cur.AllowedMethods
  let allowedHeaders ← decodeStrings w (fieldData "allowed_headers" m) cur.AllowedHeaders
  let storage ← decodePtr (decodeStorages w) {} (fieldData "Storage" m) cur.Storage
  let kvstore ← decodePtr (decodeKVStore w) {} (fieldData "KVStore" m) cur.KVStore
  let logger ← decodeLogger w (fieldData "Logger" m) cur.Logger
  pure
    { Debug := debug, Sentry := sentry, SecretKey := secretKey, Shard := shard, Port := port,
      Options := options, AllowedOrigins := allowedOrigins, AllowedMethods := allowedMethods,
      AllowedHeaders := allowedHeaders, Storage := storage, KVStore := kvstore,
      Logger := logger }

end mapstructure

namespace viper

/-- Unmarshal unmarshals the merged settings into a struct. -/
def Unmarshal (w : World) (v : Viper) (cur : config.Config) : Except Error config.Config :=
  mapstructure.decodeConfig w.weak (AllSettings w v) cur

end viper

/-! ## The load operations (`config.go`, lines 125-178) -/

namespace config

open viper

/-- What a call of `load` does: it returns the pair `(*Config, error)`, or it stops on a nil
pointer dereference. -/
inductive Outcome where
  | ret (config : Option Config) (err : Option Error)
  | fault
  deriving DecidableEq, Repr

/-- A pointer to `Options` as an untyped value. -/
def optionsValue : Option Options → Value
  | some o => .options o
  | none => .nilptr

/-- A pointer to `Shard` as an untyped value. -/
def shardValue : Option Shard → Value
  | some s => .shard s
  | none => .nilptr

/-- A pointer to `KVStore` as an untyped value. -/
def kvstoreValue : Option KVStore → Value
  | some s => .kvstore s
  | none => .nilptr

/-- Lines 128-134 of `load`: registration of the defaults and of the environment prefix. -/
def register (k : Constants) (v : Viper) : Viper :=
  let defaultConfig := DefaultConfig k
  let v := SetDefault v ["options"] (optionsValue defaultConfig.Options)
  let v := SetDefault v ["shard"] (shardValue defaultConfig.Shard)
  let v := SetDefault v ["port"] (.int defaultConfig.Port)
  let v := SetDefault v ["kvstore"] (kvstoreValue defaultConfig.KVStore)
  SetEnvPrefix v "picfit"

/-- Lines 126-157 of `load`: registration, reading of the source (a file when `isPath`, the
content itself otherwise) and decoding into a fresh `Config`.  The result is the decoded
`Config`, before the fallback step, or the error on which `load` returns. -/
def decoded (k : Constants) (w : World) (content : String) (isPath : Bool) (v : Viper) :
    Except Error Config × Viper :=
  let config : Config := {}
  let v := register k v
  if isPath = true then
    let v := SetConfigFile v content
    match ReadInConfig w v with
    | (some err, v) => (.error err, v)
    | (none, v) => (Unmarshal w v config, v)
  else
    let v := SetConfigType v "json"
    match ReadConfig w v content with
    | (some err, v) => (.error err, v)
    | (none, v) => (Unmarshal w v config, v)

/-- The function `load` (lines 125-168): after decoding, `Options.Quality` and
`Options.DefaultFormat` are replaced by those of `DefaultConfig()` when they are zero / empty.
The dereferences of `config.Options` and `defaultConfig.Options` are not guarded: a nil pointer
there is a fault (`defaultConfig.Options` is the non-nil literal of `DefaultConfig`). -/
def load (k : Constants) (w : World) (content : String) (isPath : Bool) (v : Viper) :
    Outcome × Viper :=
  let defaultConfig := DefaultConfig k
  match decoded k w content isPath v with
  | (.error err, v) => (.ret none (some err), v)
  | (.ok config, v) =>
    match config.Options, defaultConfig.Options with
    | some options, some defaultOptions =>
      let options :=
        if options.Quality = 0 then { options with Quality := defaultOptions.Quality }
        else options
      let options :=
        if options.DefaultFormat = "" then
          { options with DefaultFormat := defaultOptions.DefaultFormat }
        else options
      (.ret (some { config with Options := some options }) none, v)
    | _, _ => (.fault, v)

/-- Load creates a Config struct from a config file path. -/
def Load (k : Constants) (w : World) (path : String) (v : Viper) : Outcome × Viper :=
  load k w path true v

/-- LoadFromContent creates a Config struct from a config content. -/
def LoadFromContent (k : Constants) (w : World) (content : String) (v : Viper) :
    Outcome × Viper :=
  load k w content false v

/-- The states of the process-wide viper instance that a program using this package can be
in: the initial one, and the one left by any call of `load` from such a state, whatever the
files and the environment were at that call. -/
inductive Reachable (k : Constants) : Viper → Prop where
  | init : Reachable k New
  | step (w : World) (v : Viper) (content : String) (isPath : Bool) :
      Reachable k v → Reachable k (load k w content isPath v).2

/-- An `AllowedSize` as the source writes it. -/
def sizeValue (hw : Int × Int) : Value :=
  .obj [("height", .num hw.1), ("width", .num hw.2)]

/-- The `AllowedSize` that `sizeValue hw` is decoded to. -/
def sizeDecoded (hw : Int × Int) : AllowedSize :=
  { Height := Go.int64 (Go.float64 hw.1), Width := Go.int64 (Go.float64 hw.2) }

/-- The shard section of `c` carries the values of the source. -/
def CarriedShard (src : List (String × Value)) (c : Config) : Prop :=
  (∀ n, (searchMap src ["shard", "depth"]).asInt = some n →
    ∃ s, c.Shard = some s ∧ s.Depth = n) ∧
  (∀ n, (searchMap src ["shard", "width"]).asInt = some n →
    ∃ s, c.Shard = some s ∧ s.Width = n) ∧
  (∀ b, searchMap src ["shard", "restonly"] = .bool b →
    ∃ s, c.Shard = some s ∧ s.RestOnly = b)

/-- The options section of `c` carries the values of the source; `Quality` and
`DefaultFormat` are those of the source unless these are 0 / empty, in which case they are
the defaults. -/
def CarriedOptions (k : Constants) (src : List (String × Value)) (c : Config) : Prop :=
  (∀ b, searchMap src ["options", "enable_upload"] = .bool b →
    ∃ o, c.Options = some o ∧ o.EnableUpload = b) ∧
  (∀ b, searchMap src ["options", "enable_delete"] = .bool b →
    ∃ o, c.Options = some o ∧ o.EnableDelete = b) ∧
  (∀ b, searchMap src ["options", "enable_stats"] = .bool b →
    ∃ o, c.Options = some o ∧ o.EnableStats = b) ∧
  (∀ x, searchMap src ["options", "defaultformat"] = .str x →
    ∃ o, c.Options = some o ∧ o.DefaultFormat = if x = "" then k.DefaultFormat else x) ∧
  (∀ x, searchMap src ["options", "format"] = .str x →
    ∃ o, c.Options = some o ∧ o.Format = x) ∧
  (∀ n, (searchMap src ["options", "quality"]).asInt = some n →
    ∃ o, c.Options = some o ∧ o.Quality = if n = 0 then k.DefaultQuality else n) ∧
  (∀ sizes : List (Int × Int),
    searchMap src ["options", "allowed_sizes"] = .arr (sizes.map sizeValue) →
    ∃ o, c.Options = some o ∧ o.AllowedSizes = sizes.map sizeDecoded) ∧
  (∀ x, searchMap src ["options", "default_user_agent"] = .str x →
    ∃ o, c.Options = some o ∧ o.DefaultUserAgent = x) ∧
  (∀ x, searchMap src ["options", "mimetype_detector"] = .str x →
    ∃ o, c.Options = some o ∧ o.MimetypeDetector = x)

/-- The key/value store section of `c` carries the values of the source. -/
def CarriedKVStore (src : List (String × Value)) (c : Config) : Prop :=
  (∀ x, searchMap src ["kvstore", "type"] = .str x →
    ∃ s, c.KVStore = some s ∧ s.Type_ = x) ∧
  (∀ x, searchMap src ["kvstore", "host"] = .str x →
    ∃ s, c.KVStore = some s ∧ s.Host = x) ∧
  (∀ n, (searchMap src ["kvstore", "port"]).asInt = some n →
    ∃ s, c.KVStore = some s ∧ s.Port = n) ∧
  (∀ x, searchMap src ["kvstore", "password"] = .str x →
    ∃ s, c.KVStore = some s ∧ s.Password = x) ∧
  (∀ n, (searchMap src ["kvstore", "db"]).asInt = some n →
    ∃ s, c.KVStore = some s ∧ s.Db = n) ∧
  (∀ x, searchMap src ["kvstore", "prefix"] = .str x →
    ∃ s, c.KVStore = some s ∧ s.Prefix = x) ∧
  (∀ n, (searchMap src ["kvstore", "maxentries"]).asInt = some n →
    ∃ s, c.KVStore = some s ∧ s.MaxEntries = n)

/-- The storage `st` (the source or the destination storage of `c`) carries the values that
the source holds under `storage.name`. -/
def CarriedStorage (src : List (String × Value)) (name : String) (st : Option Storage) : Prop :=
  (∀ x, searchMap src ["storage", name, "type"] = .str x →
    ∃ s, st = some s ∧ s.Type_ = x) ∧
  (∀ x, searchMap src ["storage", name, "location"] = .str x →
    ∃ s, st = some s ∧ s.Location = x) ∧
  (∀ x, searchMap src ["storage", name, "base_url"] = .str x →
    ∃ s, st = some s ∧ s.BaseURL = x) ∧
  (∀ x, searchMap src ["storage", name, "region"] = .str x →
    ∃ s, st = some s ∧ s.Region = x) ∧
  (∀ x, searchMap src ["storage", name, "acl"] = .str x →
    ∃ s, st = some s ∧ s.ACL = x) ∧
  (∀ x, searchMap src ["storage", name, "access_key_id"] = .str x →
    ∃ s, st = some s ∧ s.AccessKeyID = x) ∧
  (∀ x, searchMap src ["storage", name, "bucket_name"] = .str x →
    ∃ s, st = some s ∧ s.BucketName = x) ∧
  (∀ x, searchMap src ["storage", name, "secret_access_key"] = .str x →
    ∃ s, st = some s ∧ s.SecretAccessKey = x)

/-- The sentry section of `c` carries the values of the source. -/
def CarriedSentry (src : List (String × Value)) (c : Config) : Prop :=
  (∀ x, searchMap src ["sentry", "dsn"] = .str x →
    ∃ s, c.Sentry = some s ∧ s.DSN = x) ∧
  (∀ tag x, searchMap src ["sentry", "tags", tag] = .str x →
    ∃ s, c.Sentry = some s ∧ (tag, x) ∈ s.Tags)

/-- The `Config` `c` carries the values of the source `src`, the configuration that viper
holds once the source is read: for every field of the configuration tree, when the source
holds at the key of the field a value of the kind of the field (a boolean, a string, a
number, an array of strings, an array of sizes), the field has that value, a number being
converted to a Go `int`.  The two fields with a fallback, `Options.Quality` and
`Options.DefaultFormat`, have the value of `DefaultConfig()` instead when the source sets
them to 0 / to the empty string. -/
def Carried (k : Constants) (src : List (String × Value)) (c : Config) : Prop :=
  (∀ b, searchMap src ["debug"] = .bool b → c.Debug = b) ∧
  (∀ x, searchMap src ["secret_key"] = .str x → c.SecretKey = x) ∧
  (∀ n, (searchMap src ["port"]).asInt = some n → c.Port = n) ∧
  (∀ xs, searchMap src ["allowed_origins"] = .arr (xs.map .str) → c.AllowedOrigins = xs) ∧
  (∀ xs, searchMap src ["allowed_methods"] = .arr (xs.map .str) → c.AllowedMethods = xs) ∧
  (∀ xs, searchMap src ["allowed_headers"] = .arr (xs.map .str) → c.AllowedHeaders = xs) ∧
  (∀ x, searchMap src ["logger", "level"] = .str x → c.Logger.Level = x) ∧
  CarriedSentry src c ∧
  CarriedShard src c ∧
  CarriedOptions k src c ∧
  CarriedKVStore src c ∧
  CarriedStorage src "src" (c.Storage.bind (·.Src)) ∧
  CarriedStorage src "dst" (c.Storage.bind (·.Dst))

/-- The invariant of the reachable states: the automatic environment is off, and the defaults
are those that `load` registers, or none yet. -/
def Inv (k : Constants) (v : Viper) : Prop :=
  v.automaticEnvApplied = false ∧
    (v.defaults = [] ∨ v.defaults = (register k New).defaults)

end config

/-! ## A concrete instance, for evaluation -/

namespace sample

open config viper

/-- A concrete choice of the constants. -/
def constants : Constants :=
  { DefaultFormat := "png"
    DefaultQuality := 95
    DefaultPort := 3001
    DefaultShardWidth := 0
    DefaultShardDepth := 0
    DefaultShardRestOnly := true
    DefaultUserAgent := "picfit"
    DefaultMimetypeDetector := "extension"
    DefaultLoggerLevel := "info"
    Version := "0.5.0" }

/-- Loop of `atoi`: decimal digits, most significant first. -/
def atoi.loop : List Char → Nat → Option Nat
  | [], acc => some acc
  | c :: cs, acc => if c.isDigit then atoi.loop cs (acc * 10 + (c.toNat - 48)) else none

/-- Reading of an unsigned decimal number. -/
def atoi (s : String) : Option Int :=
  if s = "" then none else (atoi.loop s.data 0).map Int.ofNat

/-- Weak conversions between scalars: numbers, booleans and strings to each other. -/
def weak : Weak :=
  { toBool := fun d => match d with
      | .int n => some (n != 0)
      | .num n => some (n != 0)
      | .str s =>
        if s = "true" ∨ s = "1" then some true
        else if s = "false" ∨ s = "0" ∨ s = "" then some false
        else none
      | _ => none
    toInt := fun d => match d with
      | .bool b => some (if b then 1 else 0)
      | .str s => atoi s
      | _ => none
    toStr := fun d => match d with
      | .bool b => some (if b then "1" else "0")
      | .int n => some (toString n)
      | .num n => some (toString n)
      | _ => none
    toStrings := fun d => match d with
      | .str s => some [s]
      | _ => none
    toSizes := fun _ => none
    toTags := fun _ => none }

/-- The parsers on a handful of texts: the JSON documents of the scenarios and one YAML
document; every other text is rejected. -/
def unmarshal (configType content : String) : Except String (List (String × Value)) :=
  if configType = "json" then
    if content = "" then .error "unexpected end of JSON input"
    else if content = "\x7b\x7d" then .ok []
    else if content = "\x7b\"port\":9000\x7d" then .ok [("port", .num 9000)]
    else if content = "\x7b\"port\":9000,\"options\":\x7b\"enable_upload\":true\x7d\x7d" then
      .ok [("port", .num 9000), ("options", .obj [("enable_upload", .bool true)])]
    else if content = "\x7b\"options\":\x7b\"quality\":0\x7d\x7d" then
      .ok [("options", .obj [("quality", .num 0)])]
    else if content = "\x7b\"options\":\x7b\"enable_upload\":false,\"allowed_sizes\":[]\x7d\x7d" then
      .ok [("options", .obj [("enable_upload", .bool false), ("allowed_sizes", .arr [])])]
    else .error "invalid character"
  else if configType = "yaml" then
    if content = "port: 9000" then .ok [("port", .int 9000)]
    else .error "cannot unmarshal"
  else .error "unsupported"

/-- A world with one file, `config.yaml`, and `PICFIT_PORT=8080` in the environment. -/
def world : World :=
  { Getenv := fun name => if name = "PICFIT_PORT" then "8080" else ""
    ReadFile := fun path => if path = "config.yaml" then .ok "port: 9000" else .error "no such file"
    unmarshal := unmarshal
    findConfigFile := none
    weak := weak }

/-- The same world with `PICFIT_OPTIONS_QUALITY=50` in the environment, and nothing else. -/
def qualityWorld : World :=
  { world with Getenv := fun name => if name = "PICFIT_OPTIONS_QUALITY" then "50" else "" }

end sample

/-! ## Lemmas on strings and maps -/

theorem Char.toLower_toLower (c : Char) : c.toLower.toLower = c.toLower := by
  unfold Char.toLower
  simp only []
  by_cases h : c.toNat ≥ 65 ∧ c.toNat ≤ 90
  · rw [if_pos h]
    obtain ⟨h1, h2⟩ := h
    generalize c.toNat = n at h1 h2
    interval_cases n <;> rfl
  · rw [if_neg h, if_neg h]

theorem ToLower_ToLower (s : String) : ToLower (ToLower s) = ToLower s := by
  simp [ToLower, List.map_map, Function.comp_def, Char.toLower_toLower]

namespace Value

theorem lookup_insert_self (k : String) (x : Value) (m : List (String × Value)) :
    lookup k (insert k x m) = some x := by
  induction m with
  | nil => simp [insert, lookup]
  | cons kv rest ih =>
    obtain ⟨k', x'⟩ := kv
    by_cases h : k' = k
    · simp [insert, lookup, h]
    · simp [insert, lookup, h, ih]

theorem lookup_erase_ne (k k' : String) (m : List (String × Value)) (h : k ≠ k') :
    lookup k' (erase k m) = lookup k' m := by
  induction m with
  | nil => rfl
  | cons kv rest ih =>
    obtain ⟨k'', x'⟩ := kv
    unfold erase at ih ⊢
    by_cases h1 : k'' = k
    · subst h1
      simp [List.filter, lookup, h, ih]
    · have h1' : (k'' != k) = true := by simpa using h1
      simp only [List.filter, h1', lookup]
      rw [ih]

theorem lookup_insert_ne (k k' : String) (x : Value) (m : List (String × Value)) (h : k ≠ k') :
    lookup k' (insert k x m) = lookup k' m := by
  induction m with
  | nil => simp [insert, lookup, h]
  | cons kv rest ih =>
    obtain ⟨k'', x'⟩ := kv
    by_cases h1 : k'' = k
    · subst h1
      simp [insert, lookup, h, lookup_erase_ne _ _ _ h]
    · by_cases h2 : k'' = k'
      · subst h2
        simp [insert, lookup, h1]
      · simp [insert, lookup, h1, h2, ih]

theorem mem_erase (k : String) (m : List (String × Value)) (kv : String × Value)
    (h : kv ∈ erase k m) : kv ∈ m ∧ kv.1 ≠ k := by
  unfold erase at h
  have := List.mem_filter.mp h
  exact ⟨this.1, by simpa using this.2⟩

theorem mem_insert (k : String) (x : Value) (m : List (String × Value)) (kv : String × Value)
    (h : kv ∈ insert k x m) : kv = (k, x) ∨ (kv ∈ m ∧ kv.1 ≠ k) := by
  induction m with
  | nil =>
    simp only [insert, List.mem_singleton] at h
    exact Or.inl h
  | cons kv' rest ih =>
    obtain ⟨k', x'⟩ := kv'
    by_cases h1 : k' = k
    · simp only [insert, h1, if_true, List.mem_cons] at h
      rcases h with h | h
      · exact Or.inl h
      · obtain ⟨hm, hne⟩ := mem_erase _ _ _ h
        exact Or.inr ⟨List.mem_cons_of_mem _ hm, hne⟩
    · simp only [insert, h1, if_false, List.mem_cons] at h
      rcases h with h | h
      · right
        rw [h]
        exact ⟨List.mem_cons_self _ _, h1⟩
      · rcases ih h with h' | ⟨h', hne⟩
        · exact Or.inl h'
        · exact Or.inr ⟨List.mem_cons_of_mem _ h', hne⟩

theorem mem_insert_fst (k : String) (x : Value) (m : List (String × Value)) (kv : String × Value)
    (h : kv ∈ insert k x m) : kv.1 = k ∨ kv ∈ m := by
  rcases mem_insert k x m kv h with h' | ⟨h', _⟩
  · left; rw [h']
  · exact Or.inr h'

end Value

namespace viper

/-- Writing a nested key under another top-level key leaves a top-level entry as it is. -/
theorem lookup_deepSet_of_head_ne (m : List (String × Value)) (k : String) (rest : List String)
    (value : Value) (key : String) (h : k ≠ key) :
    Value.lookup key (deepSet m (k :: rest) value) = Value.lookup key m := by
  cases rest with
  | nil => simp [deepSet, Value.lookup_insert_ne _ _ _ _ h]
  | cons r rs =>
    simp only [deepSet]
    split <;> exact Value.lookup_insert_ne _ _ _ _ h

/-- Writing a top-level key sets its entry. -/
theorem lookup_deepSet_single (m : List (String × Value)) (key : String) (value : Value) :
    Value.lookup key (deepSet m [key] value) = some value := by
  simp [deepSet, Value.lookup_insert_self]

/-- Writing a key strictly below a top-level key leaves a map under that top-level key. -/
theorem lookup_deepSet_nested (m : List (String × Value)) (key r : String) (rs : List String)
    (value : Value) :
    ∃ m', Value.lookup key (deepSet m (key :: r :: rs) value) = some (.obj m') := by
  simp only [deepSet]
  split <;> exact ⟨_, Value.lookup_insert_self _ _ _⟩

/-- The keys of a map after a nested write: the old ones and the head of the path. -/
theorem mem_deepSet_fst (m : List (String × Value)) (k : String) (rest : List String)
    (value : Value) (kv : String × Value) (h : kv ∈ deepSet m (k :: rest) value) :
    kv.1 = k ∨ kv ∈ m := by
  cases rest with
  | nil => exact Value.mem_insert_fst _ _ _ _ (by simpa [deepSet] using h)
  | cons r rs =>
    simp only [deepSet] at h
    split at h <;> exact Value.mem_insert_fst _ _ _ _ h

end viper

/-- A property that holds at the start of a left fold and that every step preserves holds at
its end. -/
theorem List.foldl_preserve {α β : Type} (f : β → α → β) (P : β → Prop) :
    ∀ (l : List α) (b : β), (∀ b x, x ∈ l → P b → P (f b x)) → P b → P (l.foldl f b) := by
  intro l
  induction l with
  | nil => intro b _ hb; simpa using hb
  | cons y ys ih =>
    intro b hp hb
    simp only [List.foldl_cons]
    exact ih _ (fun b x hx hb => hp b x (List.mem_cons_of_mem _ hx) hb)
      (hp b y (List.mem_cons_self _ _) hb)

/-- A property of a left fold that one element of the list establishes and that the steps of
the list preserve holds at the end of the fold. -/
theorem List.foldl_establish {α β : Type} (f : β → α → β) (P : β → Prop) (a : α) :
    ∀ (l : List α), a ∈ l → (∀ b, P (f b a)) → (∀ b x, x ∈ l → P b → P (f b x)) →
      ∀ b, P (l.foldl f b) := by
  intro l
  induction l with
  | nil => intro h; simp at h
  | cons x xs ih =>
    intro hmem hest hpres b
    simp only [List.foldl_cons]
    by_cases hx : a ∈ xs
    · exact ih hx hest (fun b y hy hb => hpres b y (List.mem_cons_of_mem _ hy) hb) _
    · have hax : a = x := by
        rcases List.mem_cons.mp hmem with h | h
        · exact h
        · exact absurd h hx
      subst hax
      exact List.foldl_preserve f P xs _
        (fun b y hy hb => hpres b y (List.mem_cons_of_mem _ hy) hb) (hest b)

namespace viper

/-- With the automatic environment off, a lookup reads the parsed configuration and the
defaults only. -/
theorem find_congr (w₁ w₂ : World) (v₁ v₂ : Viper) (path : List String)
    (h₁ : v₁.automaticEnvApplied = false) (h₂ : v₂.automaticEnvApplied = false)
    (hc : v₁.config = v₂.config) (hd : v₁.defaults = v₂.defaults) :
    find w₁ v₁ path = find w₂ v₂ path := by
  simp [find, h₁, h₂, hc, hd]

/-- With the automatic environment off, the merged settings are a function of the parsed
configuration and of the defaults. -/
theorem AllSettings_congr (w₁ w₂ : World) (v₁ v₂ : Viper)
    (h₁ : v₁.automaticEnvApplied = false) (h₂ : v₂.automaticEnvApplied = false)
    (hc : v₁.config = v₂.config) (hd : v₁.defaults = v₂.defaults) :
    AllSettings w₁ v₁ = AllSettings w₂ v₂ := by
  have hg : ∀ k, Get w₁ v₁ k = Get w₂ v₂ k := fun k => find_congr w₁ w₂ v₁ v₂ _ h₁ h₂ hc hd
  simp [AllSettings, AllKeys, hc, hd, hg]

/-- Unmarshal under the same conditions. -/
theorem Unmarshal_congr (w₁ w₂ : World) (v₁ v₂ : Viper) (cur : config.Config)
    (hw : w₁.weak = w₂.weak)
    (h₁ : v₁.automaticEnvApplied = false) (h₂ : v₂.automaticEnvApplied = false)
    (hc : v₁.config = v₂.config) (hd : v₁.defaults = v₂.defaults) :
    Unmarshal w₁ v₁ cur = Unmarshal w₂ v₂ cur := by
  simp [Unmarshal, hw, AllSettings_congr w₁ w₂ v₁ v₂ h₁ h₂ hc hd]

end viper

namespace config

open viper

theorem register_automaticEnvApplied (k : Constants) (v : Viper) :
    (register k v).automaticEnvApplied = v.automaticEnvApplied := rfl

theorem register_configType (k : Constants) (v : Viper) :
    (register k v).configType = v.configType := rfl

theorem register_configFile (k : Constants) (v : Viper) :
    (register k v).configFile = v.configFile := rfl

theorem register_config (k : Constants) (v : Viper) :
    (register k v).config = v.config := rfl

theorem register_defaults (k : Constants) (v : Viper) (h : Inv k v) :
    (register k v).defaults = (register k New).defaults := by
  rcases h.2 with h | h
  · show (register k { v with defaults := v.defaults }).defaults = _
    rw [h]; rfl
  · show (register k { v with defaults := v.defaults }).defaults = _
    rw [h]; rfl

theorem ReadInConfig_state (w : World) (v : Viper) :
    ∃ cf c, (ReadInConfig w v).2 = { v with configFile := cf, config := c } := by
  unfold ReadInConfig
  rcases hgf : getConfigFile w v with ⟨r, v'⟩
  have hv' : ∃ cf, v' = { v with configFile := cf } := by
    unfold getConfigFile at hgf
    split at hgf
    · split at hgf
      · simp only [Prod.mk.injEq] at hgf
        exact ⟨v.configFile, hgf.2.symm⟩
      · simp only [Prod.mk.injEq] at hgf
        exact ⟨_, hgf.2.symm⟩
    · simp only [Prod.mk.injEq] at hgf
      exact ⟨v.configFile, hgf.2.symm⟩
  obtain ⟨cf, rfl⟩ := hv'
  cases r with
  | error e => exact ⟨cf, v.config, rfl⟩
  | ok filename =>
    simp only
    split
    · exact ⟨cf, v.config, rfl⟩
    · split
      · exact ⟨cf, v.config, rfl⟩
      · split
        · exact ⟨cf, v.config, rfl⟩
        · exact ⟨cf, _, rfl⟩

theorem ReadConfig_state (w : World) (v : Viper) (content : String) :
    ∃ c, (ReadConfig w v content).2 = { v with config := c } := by
  unfold ReadConfig
  split
  · exact ⟨_, rfl⟩
  · exact ⟨_, rfl⟩

end config

namespace config

open viper

theorem load_snd (k : Constants) (w : World) (content : String) (isPath : Bool) (v : Viper) :
    (load k w content isPath v).2 = (decoded k w content isPath v).2 := by
  unfold load
  rcases decoded k w content isPath v with ⟨r, v'⟩
  cases r with
  | error e => rfl
  | ok c =>
    simp only
    split <;> rfl

theorem decoded_snd_path (k : Constants) (w : World) (content : String) (v : Viper) :
    (decoded k w content true v).2 = (ReadInConfig w (SetConfigFile (register k v) content)).2 := by
  unfold decoded
  simp only [if_true]
  rcases ReadInConfig w (SetConfigFile (register k v) content) with ⟨e, v'⟩
  cases e <;> rfl

theorem decoded_snd_content (k : Constants) (w : World) (content : String) (v : Viper) :
    (decoded k w content false v).2 =
      (ReadConfig w (SetConfigType (register k v) "json") content).2 := by
  unfold decoded
  simp only [Bool.false_eq_true, if_false]
  rcases ReadConfig w (SetConfigType (register k v) "json") content with ⟨e, v'⟩
  cases e <;> rfl

theorem SetConfigFile_fields (v : Viper) (s : String) :
    (SetConfigFile v s).automaticEnvApplied = v.automaticEnvApplied ∧
      (SetConfigFile v s).defaults = v.defaults ∧
      (SetConfigFile v s).configType = v.configType ∧
      (SetConfigFile v s).envPrefix = v.envPrefix := by
  unfold SetConfigFile
  split <;> simp

theorem SetConfigType_fields (v : Viper) :
    (SetConfigType v "json").automaticEnvApplied = v.automaticEnvApplied ∧
      (SetConfigType v "json").defaults = v.defaults ∧
      (SetConfigType v "json").configType = "json" ∧
      (SetConfigType v "json").envPrefix = v.envPrefix := by
  simp [SetConfigType]

/-- A call of `load` leaves the automatic environment as it was and leaves the defaults that
it registers. -/
theorem load_state (k : Constants) (w : World) (content : String) (isPath : Bool) (v : Viper) :
    (load k w content isPath v).2.automaticEnvApplied = v.automaticEnvApplied ∧
      (load k w content isPath v).2.defaults = (register k v).defaults := by
  rw [load_snd]
  cases isPath with
  | true =>
    rw [decoded_snd_path]
    obtain ⟨cf, c, h⟩ := ReadInConfig_state w (SetConfigFile (register k v) content)
    rw [h]
    exact ⟨(SetConfigFile_fields _ _).1, (SetConfigFile_fields _ _).2.1⟩
  | false =>
    rw [decoded_snd_content]
    obtain ⟨c, h⟩ := ReadConfig_state w (SetConfigType (register k v) "json") content
    rw [h]
    exact ⟨(SetConfigType_fields _).1, (SetConfigType_fields _).2.1⟩

/-- Every reachable state satisfies the invariant. -/
theorem Reachable.inv {k : Constants} {v : Viper} (h : Reachable k v) : Inv k v := by
  induction h with
  | init => exact ⟨rfl, Or.inl rfl⟩
  | step w v content isPath _ ih =>
    obtain ⟨h1, h2⟩ := load_state k w content isPath v
    exact ⟨h1.trans ih.1, Or.inr (h2.trans (register_defaults k v ih))⟩

end config

namespace config

open viper

/-- Content mode, step by step: the content is parsed as JSON whatever the state, and the
parsed configuration replaces the previous one. -/
theorem decoded_content_unfold (k : Constants) (w : World) (content : String) (v : Viper) :
    decoded k w content false v =
      match w.unmarshal "json" content with
      | .error e =>
        (.error (.parse e), { SetConfigType (register k v) "json" with config := [] })
      | .ok c =>
        (Unmarshal w { SetConfigType (register k v) "json" with config := insensitiviseMap c } {},
          { SetConfigType (register k v) "json" with config := insensitiviseMap c }) := by
  have hty : ToLower (getConfigType w (SetConfigType (register k v) "json")) = "json" := by
    simp [getConfigType, SetConfigType]
    rfl
  unfold decoded
  simp only [Bool.false_eq_true, if_false]
  unfold ReadConfig unmarshalReader
  rw [hty]
  cases w.unmarshal "json" content <;> rfl

/-- Path mode with a non-empty path, step by step. -/
theorem decoded_path_unfold (k : Constants) (w : World) (path : String) (v : Viper)
    (hp : path ≠ "") :
    decoded k w path true v =
      if ¬ SupportedExts.contains (getConfigType w { register k v with configFile := path }) then
        (.error (.unsupportedConfig (getConfigType w { register k v with configFile := path })),
          { register k v with configFile := path })
      else
        match w.ReadFile path with
        | .error e => (.error (.read e), { register k v with configFile := path })
        | .ok file =>
          match w.unmarshal
              (ToLower (getConfigType w { register k v with configFile := path })) file with
          | .error e => (.error (.parse e), { register k v with configFile := path })
          | .ok c =>
            (Unmarshal w { register k v with configFile := path, config := insensitiviseMap c } {},
              { register k v with configFile := path, config := insensitiviseMap c }) := by
  have hs : SetConfigFile (register k v) path = { register k v with configFile := path } := by
    simp [SetConfigFile, hp]
  have hgf : getConfigFile w { register k v with configFile := path } =
      (.ok path, { register k v with configFile := path }) := by
    simp [getConfigFile, hp]
  unfold decoded
  simp only [if_true]
  rw [hs]
  unfold ReadInConfig
  rw [hgf]
  simp only
  by_cases hsup : SupportedExts.contains
      (getConfigType w { register k v with configFile := path }) = true
  · simp only [hsup, not_true_eq_false, if_false]
    cases w.ReadFile path with
    | error e => rfl
    | ok file =>
      simp only
      unfold unmarshalReader
      cases w.unmarshal
        (ToLower (getConfigType w { register k v with configFile := path })) file <;> rfl
  · simp only [hsup, Bool.false_eq_true, not_false_eq_true, if_true]

/-- The configuration type viper uses reads the type and the file of the state only. -/
theorem getConfigType_congr (w₁ w₂ : World) (v₁ v₂ : Viper) (ht : v₁.configType = v₂.configType)
    (hf : v₁.configFile = v₂.configFile) (hne : v₁.configFile ≠ "") :
    getConfigType w₁ v₁ = getConfigType w₂ v₂ := by
  have h2 : v₂.configFile ≠ "" := hf ▸ hne
  simp [getConfigType, getConfigFile, ht, hf, h2]

end config

namespace config

open viper

/-- The outcome of `load` as a function of the result of the decoding stage. -/
theorem load_fst (k : Constants) (w : World) (content : String) (isPath : Bool) (v : Viper) :
    (load k w content isPath v).1 =
      match (decoded k w content isPath v).1 with
      | .error err => .ret none (some err)
      | .ok config =>
        match config.Options, (DefaultConfig k).Options with
        | some options, some defaultOptions =>
          let options₁ :=
            if options.Quality = 0 then { options with Quality := defaultOptions.Quality }
            else options
          let options₂ :=
            if options₁.DefaultFormat = "" then
              { options₁ with DefaultFormat := defaultOptions.DefaultFormat }
            else options₁
          .ret (some { config with Options := some options₂ }) none
        | _, _ => .fault := by
  unfold load
  rcases decoded k w content isPath v with ⟨r, v'⟩
  cases r with
  | error e => rfl
  | ok c =>
    simp only
    split <;> simp_all

/-- Outcomes of `load` agree when the decoding stages agree. -/
theorem load_fst_congr (k : Constants) (w₁ w₂ : World) (c₁ c₂ : String) (p₁ p₂ : Bool)
    (v₁ v₂ : Viper) (h : (decoded k w₁ c₁ p₁ v₁).1 = (decoded k w₂ c₂ p₂ v₂).1) :
    (load k w₁ c₁ p₁ v₁).1 = (load k w₂ c₂ p₂ v₂).1 := by
  rw [load_fst, load_fst, h]

/-- In content mode the decoding stage gives the same result from any two states satisfying
the invariant, in worlds that differ by their environment only. -/
theorem decoded_content_congr (k : Constants) (w₁ w₂ : World) (content : String) (v₁ v₂ : Viper)
    (hu : w₁.unmarshal = w₂.unmarshal) (hw : w₁.weak = w₂.weak)
    (h₁ : Inv k v₁) (h₂ : Inv k v₂) :
    (decoded k w₁ content false v₁).1 = (decoded k w₂ content false v₂).1 := by
  rw [decoded_content_unfold, decoded_content_unfold, hu]
  cases w₂.unmarshal "json" content with
  | error e => rfl
  | ok c =>
    simp only
    exact Unmarshal_congr _ _ _ _ _ hw h₁.1 h₂.1 rfl
      ((register_defaults k v₁ h₁).trans (register_defaults k v₂ h₂).symm)

/-- In path mode, with a non-empty path, the decoding stage gives the same result from any
two states satisfying the invariant that have the same configuration type. -/
theorem decoded_path_congr (k : Constants) (w₁ w₂ : World) (path : String) (v₁ v₂ : Viper)
    (hr : w₁.ReadFile = w₂.ReadFile) (hu : w₁.unmarshal = w₂.unmarshal) (hw : w₁.weak = w₂.weak)
    (h₁ : Inv k v₁) (h₂ : Inv k v₂) (ht : v₁.configType = v₂.configType) (hp : path ≠ "") :
    (decoded k w₁ path true v₁).1 = (decoded k w₂ path true v₂).1 := by
  have hty : getConfigType w₁ { register k v₁ with configFile := path } =
      getConfigType w₂ { register k v₂ with configFile := path } :=
    getConfigType_congr _ _ _ _ ht rfl hp
  rw [decoded_path_unfold _ _ _ _ hp, decoded_path_unfold _ _ _ _ hp, hty, hr, hu]
  split
  · rfl
  · cases w₂.ReadFile path with
    | error e => rfl
    | ok file =>
      simp only
      cases w₂.unmarshal
          (ToLower (getConfigType w₂ { register k v₂ with configFile := path })) file with
      | error e => rfl
      | ok c =>
        simp only
        exact Unmarshal_congr _ _ _ _ _ hw h₁.1 h₂.1 rfl
          ((register_defaults k v₁ h₁).trans (register_defaults k v₂ h₂).symm)

end config

namespace viper

/-- Flattening below a non-empty prefix adds only keys that start as the prefix does. -/
theorem flattenAndMergeValue_head (shadow : List (List String)) (fullKey : List String)
    (val : Value) :
    fullKey ≠ [] → ∀ q ∈ flattenAndMergeValue shadow fullKey val,
      q ∈ shadow ∨ q.head? = fullKey.head?.map ToLower := by
  refine flattenAndMergeValue.induct
    (fun shadow fullKey val => fullKey ≠ [] → ∀ q ∈ flattenAndMergeValue shadow fullKey val,
      q ∈ shadow ∨ q.head? = fullKey.head?.map ToLower)
    (fun shadow pre m => pre ≠ [] → ∀ q ∈ flattenAndMergeMap shadow pre m,
      q ∈ shadow ∨ q.head? = pre.head?.map ToLower)
    ?_ ?_ ?_ ?_ ?_ ?_ shadow fullKey val
  · intro shadow fullKey m2 hc _ q hq
    simp only [flattenAndMergeValue, hc, if_true] at hq
    exact Or.inl hq
  · intro shadow fullKey m2 hc ih hne q hq
    simp only [flattenAndMergeValue, hc] at hq
    exact ih hne q hq
  · intro t shadow fullKey hc hno _ q hq
    cases t with
    | obj m2 => exact absurd rfl (hno m2)
    | _ =>
      simp only [flattenAndMergeValue, hc, if_true] at hq
      exact Or.inl hq
  · intro t shadow fullKey hc hno _ q hq
    have hq' : q ∈ shadow ++ [fullKey.map ToLower] := by
      cases t with
      | obj m2 => exact absurd rfl (hno m2)
      | _ =>
        simp only [flattenAndMergeValue, hc] at hq
        simpa using hq
    rcases List.mem_append.mp hq' with h | h
    · exact Or.inl h
    · right
      rw [List.mem_singleton.mp h, List.head?_map]
  · intro shadow pre _ q hq
    simp only [flattenAndMergeMap] at hq
    exact Or.inl hq
  · intro shadow pre k' x rest ih1 ih2 hne q hq
    simp only [flattenAndMergeMap] at hq
    rcases ih2 hne q hq with h | h
    · rcases ih1 (by simp) q h with h' | h'
      · exact Or.inl h'
      · right
        rw [h']
        cases pre with
        | nil => exact absurd rfl hne
        | cons p ps => rfl
    · exact Or.inr h

/-- Flattening a map at top level adds only keys that start with a key of the map, in lower
case. -/
theorem flattenAndMergeMap_head (m : List (String × Value)) :
    ∀ (shadow : List (List String)), ∀ q ∈ flattenAndMergeMap shadow [] m,
      q ∈ shadow ∨ ∃ kv ∈ m, q.head? = some (ToLower kv.1) := by
  induction m with
  | nil =>
    intro shadow q hq
    simp only [flattenAndMergeMap] at hq
    exact Or.inl hq
  | cons kv rest ih =>
    intro shadow q hq
    obtain ⟨k', x⟩ := kv
    simp only [flattenAndMergeMap] at hq
    rcases ih _ q hq with h | ⟨kv, hkv, h⟩
    · rcases flattenAndMergeValue_head shadow ([] ++ [k']) x (by simp) q h with h' | h'
      · exact Or.inl h'
      · exact Or.inr ⟨(k', x), List.mem_cons_self _ _, by simpa using h'⟩
    · exact Or.inr ⟨kv, List.mem_cons_of_mem _ hkv, h⟩

/-- A key that a map does not hold differs from all its keys. -/
theorem ne_of_lookup_none (key : String) (m : List (String × Value))
    (h : Value.lookup key m = none) : ∀ kv ∈ m, kv.1 ≠ key := by
  induction m with
  | nil => intro kv hkv; simp at hkv
  | cons e rest ih =>
    obtain ⟨k', x⟩ := e
    intro kv hkv
    by_cases hk : k' = key
    · simp [Value.lookup, hk] at h
    · simp only [Value.lookup, hk, if_false] at h
      rcases List.mem_cons.mp hkv with h' | h'
      · rw [h']; exact hk
      · exact ih h kv h'

/-- The keys of a lower-cased map are in lower case. -/
theorem insensitiviseMap_keys (m : List (String × Value)) :
    ∀ kv ∈ insensitiviseMap m, ToLower kv.1 = kv.1 := by
  have key : ∀ (l : List String) (acc : List (String × Value)),
      (∀ kv ∈ acc, ToLower kv.1 = kv.1 ∨ kv.1 ∈ l) →
      ∀ kv ∈ l.foldl insensitiviseMap.step acc, ToLower kv.1 = kv.1 := by
    intro l
    induction l with
    | nil =>
      intro acc h kv hkv
      rcases h kv hkv with h' | h'
      · exact h'
      · simp at h'
    | cons k ks ih =>
      intro acc h kv hkv
      simp only [List.foldl_cons] at hkv
      refine ih _ ?_ kv hkv
      intro e he
      unfold insensitiviseMap.step at he
      cases hl : Value.lookup k acc with
      | none =>
        rw [hl] at he
        rcases h e he with h' | h'
        · exact Or.inl h'
        · rcases List.mem_cons.mp h' with h'' | h''
          · exact absurd h'' (ne_of_lookup_none k acc hl e he)
          · exact Or.inr h''
      | some val =>
        rw [hl] at he
        simp only at he
        split at he
        · rcases Value.mem_insert_fst _ _ _ _ he with h' | h'
          · left; rw [h']; exact ToLower_ToLower k
          · have hmem : e ∈ acc := (List.mem_filter.mp h').1
            have hne : e.1 ≠ k := by
              have := (List.mem_filter.mp h').2
              simpa using this
            rcases h e hmem with h'' | h''
            · exact Or.inl h''
            · rcases List.mem_cons.mp h'' with h3 | h3
              · exact absurd h3 hne
              · exact Or.inr h3
        · rename_i hk
          have hk' : k = ToLower k := by simpa using hk
          rcases Value.mem_insert_fst _ _ _ _ he with h' | h'
          · left; rw [h']; exact ToLower_ToLower k
          · rcases h e h' with h'' | h''
            · exact Or.inl h''
            · rcases List.mem_cons.mp h'' with h3 | h3
              · left; rw [h3]; exact hk'.symm
              · exact Or.inr h3
  unfold insensitiviseMap
  refine key _ m ?_
  intro kv hkv
  exact Or.inr (List.mem_map_of_mem Prod.fst hkv)

end viper

namespace config

open viper

/-- The defaults that `load` registers, entry by entry. -/
theorem register_New_defaults (k : Constants) :
    ∃ o s kv, (DefaultConfig k).Options = some o ∧ (DefaultConfig k).Shard = some s ∧
      (DefaultConfig k).KVStore = some kv ∧
      (register k New).defaults =
        [("options", .options o), ("shard", .shard s), ("port", .int (DefaultConfig k).Port),
          ("kvstore", .kvstore kv)] :=
  ⟨_, _, _, rfl, rfl, rfl, rfl⟩

end config

namespace viper

theorem mem_leaf_self (shadow : List (List String)) (p : List String) :
    p ∈ (if shadow.contains p then shadow else shadow ++ [p]) := by
  split
  · simpa using ‹shadow.contains p = true›
  · simp

theorem mem_leaf_of_mem (shadow : List (List String)) (p q : List String) (h : q ∈ shadow) :
    q ∈ (if shadow.contains p then shadow else shadow ++ [p]) := by
  split
  · exact h
  · simp [h]

theorem mem_leaf_inv (shadow : List (List String)) (p q : List String)
    (h : q ∈ (if shadow.contains p then shadow else shadow ++ [p])) : q ∈ shadow ∨ q = p := by
  split at h
  · exact Or.inl h
  · simpa using h

/-- The keys of a state whose defaults are four plain values: those of the parsed
configuration and the four default keys. -/
theorem AllKeys_four (v : Viper) (a b c d : Value)
    (ha : ∀ m, a ≠ .obj m) (hb : ∀ m, b ≠ .obj m) (hc : ∀ m, c ≠ .obj m) (hd : ∀ m, d ≠ .obj m)
    (h : v.defaults = [("options", a), ("shard", b), ("port", c), ("kvstore", d)]) :
    (["options"] ∈ AllKeys v ∧ ["shard"] ∈ AllKeys v ∧ ["port"] ∈ AllKeys v ∧
        ["kvstore"] ∈ AllKeys v) ∧
      ∀ q ∈ AllKeys v, q ∈ flattenAndMergeMap [] [] v.config ∨ q = ["options"] ∨ q = ["shard"] ∨
        q = ["port"] ∨ q = ["kvstore"] := by
  have leaf : ∀ (x : Value), (∀ m, x ≠ .obj m) → ∀ (S : List (List String)) (p : List String),
      flattenAndMergeValue S p x =
        if S.contains (p.map ToLower) then S else S ++ [p.map ToLower] := by
    intro x hx S p
    cases x with
    | obj m => exact absurd rfl (hx m)
    | _ => simp only [flattenAndMergeValue]
  have e1 : List.map ToLower ["options"] = ["options"] := rfl
  have e2 : List.map ToLower ["shard"] = ["shard"] := rfl
  have e3 : List.map ToLower ["port"] = ["port"] := rfl
  have e4 : List.map ToLower ["kvstore"] = ["kvstore"] := rfl
  unfold AllKeys
  rw [h]
  simp only [flattenAndMergeMap, List.nil_append, leaf a ha, leaf b hb, leaf c hc, leaf d hd,
    e1, e2, e3, e4]
  generalize flattenAndMergeMap [] [] v.config = S
  refine ⟨⟨?_, ?_, ?_, ?_⟩, ?_⟩
  · exact mem_leaf_of_mem _ _ _ (mem_leaf_of_mem _ _ _ (mem_leaf_of_mem _ _ _ (mem_leaf_self _ _)))
  · exact mem_leaf_of_mem _ _ _ (mem_leaf_of_mem _ _ _ (mem_leaf_self _ _))
  · exact mem_leaf_of_mem _ _ _ (mem_leaf_self _ _)
  · exact mem_leaf_self _ _
  · intro q hq
    rcases mem_leaf_inv _ _ _ hq with hq | hq
    · rcases mem_leaf_inv _ _ _ hq with hq | hq
      · rcases mem_leaf_inv _ _ _ hq with hq | hq
        · rcases mem_leaf_inv _ _ _ hq with hq | hq
          · exact Or.inl hq
          · exact Or.inr (Or.inl hq)
        · exact Or.inr (Or.inr (Or.inl hq))
      · exact Or.inr (Or.inr (Or.inr (Or.inl hq)))
    · exact Or.inr (Or.inr (Or.inr (Or.inr hq)))

/-- The value of a top-level key in lower case, with the automatic environment off: the one of
the parsed configuration unless it is nil, else the default. -/
theorem Get_top (w : World) (v : Viper) (key : String) (henv : v.automaticEnvApplied = false)
    (hkey : ToLower key = key) :
    Get w v [key] =
      if ((Value.lookup key v.config).getD .null).isNil then
        (if ((Value.lookup key v.defaults).getD .null).isNil then .null
          else (Value.lookup key v.defaults).getD .null)
      else (Value.lookup key v.config).getD .null := by
  simp only [Get, find, henv, List.map, hkey, searchMap, List.length_singleton]
  simp only [Bool.false_and, gt_iff_lt, lt_self_iff_false, decide_False, Bool.false_eq_true, if_false]
  by_cases h1 : ((Value.lookup key v.config).getD .null).isNil = true
  · by_cases h2 : ((Value.lookup key v.defaults).getD .null).isNil = true
    · simp [h1, h2]
    · simp [h1, h2]
  · simp [h1]

end viper

namespace Value

theorem mem_of_lookup (k : String) (x : Value) (m : List (String × Value))
    (h : lookup k m = some x) : (k, x) ∈ m := by
  induction m with
  | nil => simp [lookup] at h
  | cons e rest ih =>
    obtain ⟨k', x'⟩ := e
    by_cases hk : k' = k
    · simp only [lookup, hk, if_true, Option.some.injEq] at h
      rw [hk, h]; exact List.mem_cons_self _ _
    · simp only [lookup, hk, if_false] at h
      exact List.mem_cons_of_mem _ (ih h)

end Value

namespace mapstructure

/-- In a map whose keys are in lower case, the data of a field are the entry under the field
name in lower case. -/
theorem fieldData_lower (fieldName : String) (m : List (String × Value))
    (hm : ∀ kv ∈ m, ToLower kv.1 = kv.1) :
    fieldData fieldName m = (Value.lookup (ToLower fieldName) m).getD .null := by
  have hfind : ∀ (m : List (String × Value)), (∀ kv ∈ m, ToLower kv.1 = kv.1) →
      (match m.find? (fun kv => EqualFold kv.1 fieldName) with
        | some kv => kv.2
        | none => Value.null) = (Value.lookup (ToLower fieldName) m).getD .null := by
    intro m
    induction m with
    | nil => intro _; rfl
    | cons e rest ih =>
      intro hm
      obtain ⟨k', x⟩ := e
      have hk : ToLower k' = k' := hm (k', x) (List.mem_cons_self _ _)
      have ih' := ih (fun kv hkv => hm kv (List.mem_cons_of_mem _ hkv))
      by_cases heq : k' = ToLower fieldName
      · subst heq
        simp [List.find?, EqualFold, Value.lookup, ToLower_ToLower]
      · simp only [List.find?, EqualFold, Value.lookup, hk, heq, if_false]
        have : (k' == ToLower fieldName) = false := by simpa using heq
        rw [this]
        exact ih'
  unfold fieldData
  cases hl : Value.lookup fieldName m with
  | some x =>
    have hlow : ToLower fieldName = fieldName := hm _ (Value.mem_of_lookup _ _ _ hl)
    simp [hlow, hl]
  | none =>
    simp only
    exact hfind m hm

end mapstructure

namespace viper

/-- The top-level keys of the merged settings are in lower case. -/
theorem AllSettings_keys (w : World) (v : Viper) :
    ∀ kv ∈ AllSettings w v, ToLower kv.1 = kv.1 := by
  unfold AllSettings
  refine List.foldl_preserve _
    (fun (m : List (String × Value)) => ∀ kv ∈ m, ToLower kv.1 = kv.1) _ _ ?_ ?_
  · intro m q _ hm
    split
    · exact hm
    · cases q with
      | nil => simpa [deepSet] using hm
      | cons k rest =>
        intro kv hkv
        rcases mem_deepSet_fst _ _ _ _ _ hkv with h | h
        · rw [h]; exact ToLower_ToLower k
        · exact hm kv h
  · intro kv hkv
    simp at hkv

/-- A top-level key that is one of the keys of the state and whose value is not nil holds a
non-nil value in the merged settings. -/
theorem AllSettings_nonnil (w : World) (v : Viper) (key : String)
    (hkey : ToLower key = key) (hmem : [key] ∈ AllKeys v) (hget : (Get w v [key]).isNil = false) :
    ∃ x, Value.lookup key (AllSettings w v) = some x ∧ x.isNil = false := by
  unfold AllSettings
  refine List.foldl_establish _
    (fun m => ∃ x, Value.lookup key m = some x ∧ x.isNil = false) [key] _ hmem ?_ ?_ _
  · intro m
    simp only [hget, Bool.false_eq_true, if_false, List.map, hkey]
    exact ⟨_, lookup_deepSet_single _ _ _, hget⟩
  · intro m q _ hm
    by_cases hq : (Get w v q).isNil = true
    · simpa only [hq, if_true] using hm
    · have hq' : (Get w v q).isNil = false := by simpa using hq
      simp only [hq', Bool.false_eq_true, if_false]
      cases q with
      | nil => simpa [deepSet] using hm
      | cons a rest =>
        by_cases ha : ToLower a = key
        · cases rest with
          | nil =>
            refine ⟨_, ?_, hq'⟩
            simp only [List.map, ha]
            exact lookup_deepSet_single _ _ _
          | cons b rs =>
            simp only [List.map, ha]
            obtain ⟨m', hm'⟩ := lookup_deepSet_nested m key (ToLower b) (rs.map ToLower)
              (Get w v (a :: b :: rs))
            exact ⟨_, hm', rfl⟩
        · simp only [List.map]
          rw [lookup_deepSet_of_head_ne _ _ _ _ _ ha]
          exact hm

/-- A top-level key that no other key of the state starts with holds its own value in the
merged settings. -/
theorem AllSettings_own (w : World) (v : Viper) (key : String)
    (hkey : ToLower key = key) (hmem : [key] ∈ AllKeys v) (hget : (Get w v [key]).isNil = false)
    (hothers : ∀ q ∈ AllKeys v, q = [key] ∨ ∃ a rest, q = a :: rest ∧ ToLower a ≠ key) :
    Value.lookup key (AllSettings w v) = some (Get w v [key]) := by
  unfold AllSettings
  refine List.foldl_establish _
    (fun m => Value.lookup key m = some (Get w v [key])) [key] _ hmem ?_ ?_ _
  · intro m
    simp only [hget, Bool.false_eq_true, if_false, List.map, hkey]
    exact lookup_deepSet_single _ _ _
  · intro m q hq hm
    rcases hothers q hq with h | ⟨a, rest, h, ha⟩
    · subst h
      simp only [hget, Bool.false_eq_true, if_false, List.map, hkey]
      exact lookup_deepSet_single _ _ _
    · subst h
      split
      · exact hm
      · simp only [List.map]
        rw [lookup_deepSet_of_head_ne _ _ _ _ _ ha]
        exact hm

end viper

namespace mapstructure

open config

theorem bind_eq_ok {α β : Type} (x : Except Error α) (f : α → Except Error β) (b : β) :
    (x >>= f) = .ok b ↔ ∃ a, x = .ok a ∧ f a = .ok b := by
  cases x with
  | error e => simp [bind, Except.bind]
  | ok a => simp [bind, Except.bind]

/-- A successful decoding of the settings decoded each of the four sections with defaults. -/
theorem decodeConfig_ok (w : Weak) (m : List (String × Value)) (cur d : Config)
    (h : decodeConfig w m cur = .ok d) :
    decodePtr (decodeShard w) {} (fieldData "Shard" m) cur.Shard = .ok d.Shard ∧
      decodeInt w (fieldData "Port" m) cur.Port = .ok d.Port ∧
      decodePtr (decodeOptions w) {} (fieldData "Options" m) cur.Options = .ok d.Options ∧
      decodePtr (decodeKVStore w) {} (fieldData "KVStore" m) cur.KVStore = .ok d.KVStore := by
  unfold decodeConfig at h
  simp only [bind_eq_ok] at h
  obtain ⟨_, _, _, _, _, _, shard, hshard, port, hport, options, hoptions, _, _, _, _, _, _, _, _,
    kvstore, hkvstore, _, _, h⟩ := h
  simp only [pure, Except.pure, Except.ok.injEq] at h
  subst h
  exact ⟨hshard, hport, hoptions, hkvstore⟩

/-- Decoding non-nil data into a pointer never leaves the pointer nil. -/
theorem decodePtr_some {α : Type} (decodeElem : Value → α → Except Error α) (zero : α)
    (data : Value) (cur r : Option α) (hnn : data.isNil = false)
    (h : decodePtr decodeElem zero data cur = .ok r) :
    ∃ x, r = some x ∧ decodeElem data zero = .ok x := by
  cases data with
  | null => simp [Value.isNil] at hnn
  | _ =>
    simp only [decodePtr, bind_eq_ok] at h
    obtain ⟨x, hx, h⟩ := h
    simp only [pure, Except.pure, Except.ok.injEq] at h
    exact ⟨x, h.symm, hx⟩

end mapstructure

namespace config

open viper

theorem unmarshalReader_ok (w : World) (v : Viper) (content : String)
    (c : List (String × Value)) (h : unmarshalReader w v content = .ok c) :
    ∀ kv ∈ c, ToLower kv.1 = kv.1 := by
  unfold unmarshalReader at h
  split at h
  · simp at h
  · simp only [Except.ok.injEq] at h
    rw [← h]
    exact insensitiviseMap_keys _

/-- A successful `ReadInConfig` leaves a parsed configuration with keys in lower case, and
changes nothing but the configuration and the configuration file. -/
theorem ReadInConfig_ok (w : World) (v s : Viper) (h : ReadInConfig w v = (none, s)) :
    (∃ cf c, s = { v with configFile := cf, config := c }) ∧
      ∀ kv ∈ s.config, ToLower kv.1 = kv.1 := by
  refine ⟨?_, ?_⟩
  · obtain ⟨cf, c, hs⟩ := ReadInConfig_state w v
    rw [h] at hs
    exact ⟨cf, c, hs⟩
  · unfold ReadInConfig at h
    rcases hgf : getConfigFile w v with ⟨r, v'⟩
    rw [hgf] at h
    cases r with
    | error e => simp at h
    | ok filename =>
      simp only at h
      split at h
      · simp at h
      · split at h
        · simp at h
        · split at h
          · simp at h
          · rename_i c hc
            simp only [Prod.mk.injEq, true_and] at h
            rw [← h]
            exact unmarshalReader_ok _ _ _ _ hc

/-- A successful `ReadConfig` leaves a parsed configuration with keys in lower case, and
changes nothing but the configuration. -/
theorem ReadConfig_ok (w : World) (v s : Viper) (content : String)
    (h : ReadConfig w v content = (none, s)) :
    (∃ c, s = { v with config := c }) ∧ ∀ kv ∈ s.config, ToLower kv.1 = kv.1 := by
  refine ⟨?_, ?_⟩
  · obtain ⟨c, hs⟩ := ReadConfig_state w v content
    rw [h] at hs
    exact ⟨c, hs⟩
  · unfold ReadConfig at h
    split at h
    · simp at h
    · rename_i c hc
      simp only [Prod.mk.injEq, true_and] at h
      rw [← h]
      exact unmarshalReader_ok _ _ _ _ hc

/-- When the decoding stage succeeds, its result is the decoding of the settings of the state
it leaves, in which the automatic environment is off, the defaults are the registered ones and
the keys of the parsed configuration are in lower case. -/
theorem decoded_ok (k : Constants) (w : World) (content : String) (isPath : Bool) (v : Viper)
    (d : Config) (hv : Inv k v) (h : (decoded k w content isPath v).1 = .ok d) :
    Unmarshal w (decoded k w content isPath v).2 {} = .ok d ∧
      (decoded k w content isPath v).2.automaticEnvApplied = false ∧
      (decoded k w content isPath v).2.defaults = (register k New).defaults ∧
      ∀ kv ∈ (decoded k w content isPath v).2.config, ToLower kv.1 = kv.1 := by
  cases isPath with
  | true =>
    unfold decoded at h ⊢
    simp only [if_true] at h ⊢
    rcases hr : ReadInConfig w (SetConfigFile (register k v) content) with ⟨e, s⟩
    rw [hr] at h
    cases e with
    | some err => simp at h
    | none =>
      simp only at h ⊢
      obtain ⟨⟨cf, c, hs⟩, hlow⟩ := ReadInConfig_ok _ _ _ hr
      refine ⟨h, ?_, ?_, hlow⟩
      · rw [hs]; exact (SetConfigFile_fields _ _).1.trans hv.1
      · rw [hs]; exact (SetConfigFile_fields _ _).2.1.trans (register_defaults k v hv)
  | false =>
    unfold decoded at h ⊢
    simp only [Bool.false_eq_true, if_false] at h ⊢
    rcases hr : ReadConfig w (SetConfigType (register k v) "json") content with ⟨e, s⟩
    rw [hr] at h
    cases e with
    | some err => simp at h
    | none =>
      simp only at h ⊢
      obtain ⟨⟨c, hs⟩, hlow⟩ := ReadConfig_ok _ _ _ _ hr
      refine ⟨h, ?_, ?_, hlow⟩
      · rw [hs]; exact (SetConfigType_fields _).1.trans hv.1
      · rw [hs]; exact (SetConfigType_fields _).2.1.trans (register_defaults k v hv)

end config

namespace config

open viper mapstructure

/-- The data that the merged settings hold for the field of a section with a registered
default: never nil, and the registered default itself when the parsed configuration has no
entry for the section. -/
theorem section_data (k : Constants) (w : World) (s : Viper) (key fieldName : String) (dv : Value)
    (henv : s.automaticEnvApplied = false) (hdef : s.defaults = (register k New).defaults)
    (hfour : key = "options" ∨ key = "shard" ∨ key = "port" ∨ key = "kvstore")
    (hfn : ToLower fieldName = key)
    (hdv : Value.lookup key (register k New).defaults = some dv) (hnn : dv.isNil = false) :
    (fieldData fieldName (AllSettings w s)).isNil = false ∧
      (Value.lookup key s.config = none → (∀ kv ∈ s.config, ToLower kv.1 = kv.1) →
        fieldData fieldName (AllSettings w s) = dv) := by
  obtain ⟨o, sh, kv, _, _, _, hD⟩ := register_New_defaults k
  have hkey : ToLower key = key := by
    rcases hfour with h | h | h | h <;> subst h <;> rfl
  obtain ⟨⟨m1, m2, m3, m4⟩, hall⟩ := AllKeys_four s (.options o) (.shard sh)
    (.int (DefaultConfig k).Port) (.kvstore kv) (by intro m; simp) (by intro m; simp)
    (by intro m; simp) (by intro m; simp) (hdef.trans hD)
  have hmem : [key] ∈ AllKeys s := by
    rcases hfour with h | h | h | h <;> subst h <;> assumption
  have hget : Get w s [key] =
      if ((Value.lookup key s.config).getD .null).isNil then dv
      else (Value.lookup key s.config).getD .null := by
    rw [Get_top w s key henv hkey, hdef, hdv]
    simp [hnn]
  have hgetnn : (Get w s [key]).isNil = false := by
    rw [hget]
    split
    · exact hnn
    · simpa using ‹¬((Value.lookup key s.config).getD .null).isNil = true›
  rw [fieldData_lower _ _ (AllSettings_keys w s), hfn]
  refine ⟨?_, ?_⟩
  · obtain ⟨x, hx, hxn⟩ := AllSettings_nonnil w s key hkey hmem hgetnn
    rw [hx]; exact hxn
  · intro hnone hlow
    have hothers : ∀ q ∈ AllKeys s, q = [key] ∨ ∃ a rest, q = a :: rest ∧ ToLower a ≠ key := by
      intro q hq
      rcases hall q hq with h | h | h | h | h
      · rcases flattenAndMergeMap_head s.config [] q h with h' | ⟨e, he, h'⟩
        · simp at h'
        · right
          cases q with
          | nil => simp at h'
          | cons a rest =>
            refine ⟨a, rest, rfl, ?_⟩
            simp only [List.head?_cons, Option.some.injEq] at h'
            rw [h', ToLower_ToLower, hlow e he]
            exact ne_of_lookup_none key s.config hnone e he
      all_goals
        subst h
        rcases hfour with h | h | h | h <;> subst h <;>
          first
          | exact Or.inl rfl
          | exact Or.inr ⟨_, _, rfl, by decide⟩
    rw [AllSettings_own w s key hkey hmem hgetnn hothers, hget, hnone]
    rfl

end config

namespace config

open viper mapstructure

/-- Content mode from a reachable state, when the decoder reads the content as `tree`: the
decoding stage is the decoding of the settings made of `tree` and of the registered
defaults. -/
theorem decoded_content_tree (k : Constants) (w : World) (content : String) (v : Viper)
    (tree : List (String × Value)) (hv : Inv k v) (ht : w.unmarshal "json" content = .ok tree) :
    (decoded k w content false v).1 =
      Unmarshal w { config := insensitiviseMap tree, defaults := (register k New).defaults } {} := by
  rw [decoded_content_unfold, ht]
  exact Unmarshal_congr _ _ _ _ _ rfl hv.1 rfl rfl (register_defaults k v hv)

/-- The decoding stage does not read the environment. -/
theorem decoded_env (k : Constants) (w : World) (env : String → String) (content : String)
    (isPath : Bool) (v : Viper) (hv : Inv k v) :
    (decoded k { w with Getenv := env } content isPath v).1 = (decoded k w content isPath v).1 := by
  cases isPath with
  | true =>
    unfold decoded
    simp only [if_true]
    have hr : ReadInConfig { w with Getenv := env } (SetConfigFile (register k v) content) =
        ReadInConfig w (SetConfigFile (register k v) content) := rfl
    rw [hr]
    obtain ⟨cf, c, hs⟩ := ReadInConfig_state w (SetConfigFile (register k v) content)
    rcases hr' : ReadInConfig w (SetConfigFile (register k v) content) with ⟨e, s⟩
    rw [hr'] at hs
    simp only at hs
    cases e with
    | some err => rfl
    | none =>
      simp only
      have henv : s.automaticEnvApplied = false := by
        rw [hs]; exact (SetConfigFile_fields _ _).1.trans hv.1
      exact Unmarshal_congr _ _ _ _ _ rfl henv henv rfl rfl
  | false =>
    exact decoded_content_congr k _ _ content v v rfl rfl hv hv

end config

/-! ## The claims -/

namespace config

open viper mapstructure

/-- C8. `GetLevel` leaves the logger as it is, returns `Level` unchanged when it is not empty
and `DefaultLoggerLevel` when it is empty; `Logger{Level:"debug"}` gives `"debug"` and
`Logger{Level:""}` gives `DefaultLoggerLevel`. -/
theorem logger_getLevel_spec (k : Constants) (l : Logger) :
    (Logger.GetLevel k l).2 = l ∧
      (l.Level ≠ "" → (Logger.GetLevel k l).1 = l.Level) ∧
      (l.Level = "" → (Logger.GetLevel k l).1 = k.DefaultLoggerLevel) ∧
      (Logger.GetLevel k { Level := "debug" }).1 = "debug" ∧
      (Logger.GetLevel k { Level := "" }).1 = k.DefaultLoggerLevel := by
  refine ⟨?_, ?_, ?_, ?_, ?_⟩
  · unfold Logger.GetLevel; split <;> rfl
  · intro h; simp [Logger.GetLevel, h]
  · intro h; simp [Logger.GetLevel, h]
  · simp [Logger.GetLevel]
  · simp [Logger.GetLevel]

/-- Witness of C8: with the sample constants, a logger at level `"warn"` answers `"warn"` and
a logger without level answers `"info"`. -/
theorem logger_getLevel_spec_witness :
    (Logger.GetLevel sample.constants { Level := "warn" }).1 = "warn" ∧
      (Logger.GetLevel sample.constants { Level := "" }).1 = "info" :=
  ⟨(logger_getLevel_spec sample.constants { Level := "warn" }).2.1 (by decide),
    (logger_getLevel_spec sample.constants { Level := "" }).2.2.1 rfl⟩

/-- C9. `DefaultConfig()` has `Port = DefaultPort`, `KVStore = {Type: "dummy"}`, the default
shard, options with `Quality = DefaultQuality`, `DefaultFormat = DefaultFormat`,
`DefaultUserAgent = DefaultUserAgent + "/" + Version`, uploads and deletions disabled, no
`Storage` and no `Sentry`; any two results of it are equal. -/
theorem defaultConfig_spec (k : Constants) :
    (DefaultConfig k).Port = k.DefaultPort ∧
      (DefaultConfig k).KVStore = some { Type_ := "dummy" } ∧
      (DefaultConfig k).Shard = some
        { Width := k.DefaultShardWidth, Depth := k.DefaultShardDepth,
          RestOnly := k.DefaultShardRestOnly } ∧
      (∃ o, (DefaultConfig k).Options = some o ∧ o.Quality = k.DefaultQuality ∧
        o.DefaultFormat = k.DefaultFormat ∧
        o.DefaultUserAgent = k.DefaultUserAgent ++ "/" ++ k.Version ∧
        o.EnableUpload = false ∧ o.EnableDelete = false) ∧
      (DefaultConfig k).Storage = none ∧ (DefaultConfig k).Sentry = none ∧
      ∀ c₁ c₂, c₁ = DefaultConfig k → c₂ = DefaultConfig k → c₁ = c₂ :=
  ⟨rfl, rfl, rfl, ⟨_, rfl, rfl, rfl, rfl, rfl, rfl⟩, rfl, rfl, fun _ _ h₁ h₂ => h₁.trans h₂.symm⟩

/-- Witness of C9: two results of `DefaultConfig` for the sample constants are equal. -/
theorem defaultConfig_spec_witness :
    DefaultConfig sample.constants = DefaultConfig sample.constants :=
  (defaultConfig_spec sample.constants).2.2.2.2.2.2 _ _ rfl rfl

/-- C1. Fallback law: when `load` succeeds, the `Quality` of the result is that of
`DefaultConfig()` if the decoded quality is 0 and the decoded quality otherwise, and the
`DefaultFormat` of the result is that of `DefaultConfig()` if the decoded one is empty and the
decoded one otherwise.  A source that sets `options.quality` to 0 explicitly is loaded, from
any reachable state, with `Quality = DefaultQuality`. -/
theorem load_fallback_law (k : Constants) (w : World) :
    (∀ content isPath v c, (load k w content isPath v).1 = .ret (some c) none →
      ∃ d od oc dflt, (decoded k w content isPath v).1 = .ok d ∧ d.Options = some od ∧
        c.Options = some oc ∧ (DefaultConfig k).Options = some dflt ∧
        oc.Quality = (if od.Quality = 0 then dflt.Quality else od.Quality) ∧
        oc.DefaultFormat =
          (if od.DefaultFormat = "" then dflt.DefaultFormat else od.DefaultFormat)) ∧
    (∀ v content, Reachable k v →
      w.unmarshal "json" content = .ok [("options", .obj [("quality", .num 0)])] →
      ∃ c oc, (LoadFromContent k w content v).1 = .ret (some c) none ∧
        c.Options = some oc ∧ oc.Quality = k.DefaultQuality) := by
  refine ⟨?_, ?_⟩
  · intro content isPath v c h
    rw [load_fst] at h
    cases hd : (decoded k w content isPath v).1 with
    | error e => rw [hd] at h; simp at h
    | ok d =>
      rw [hd] at h
      simp only at h
      split at h
      · rename_i od dflt hod hdflt
        simp only [Outcome.ret.injEq, Option.some.injEq, and_true] at h
        refine ⟨d, od, _, dflt, rfl, hod, by rw [← h], hdflt, ?_, ?_⟩
        · split <;> split <;> simp_all
        · split <;> split <;> simp_all
      · simp at h
  · intro v content hv ht
    have hd := decoded_content_tree k w content v _ hv.inv ht
    have hs : AllSettings w
        { config := insensitiviseMap [("options", .obj [("quality", .num 0)])],
          defaults := (register k New).defaults } =
        [("options", .obj [("quality", .num 0)]), ("shard", shardValue (DefaultConfig k).Shard),
          ("port", .int k.DefaultPort), ("kvstore", kvstoreValue (DefaultConfig k).KVStore)] :=
      rfl
    have hu : Unmarshal w
        { config := insensitiviseMap [("options", .obj [("quality", .num 0)])],
          defaults := (register k New).defaults } {} =
        .ok { Port := k.DefaultPort, Options := some {}, Shard := (DefaultConfig k).Shard,
              KVStore := (DefaultConfig k).KVStore } := by
      unfold Unmarshal
      rw [hs]
      rfl
    rw [hu] at hd
    unfold LoadFromContent
    rw [load_fst, hd]
    exact ⟨_, _, rfl, rfl, rfl⟩

/-- Witness of C1: the content `{"options":{"quality":0}}` is loaded with quality 95, the
sample default, the decoded quality being 0. -/
theorem load_fallback_law_witness :
    ∃ d od oc dflt,
      (decoded sample.constants sample.world
        "\x7b\"options\":\x7b\"quality\":0\x7d\x7d" false New).1 = .ok d ∧
      d.Options = some od ∧
      (some { EnableUpload := false, DefaultFormat := "png", Quality := 95 } : Option Options)
        = some oc ∧
      (DefaultConfig sample.constants).Options = some dflt ∧
      oc.Quality = (if od.Quality = 0 then dflt.Quality else od.Quality) ∧
      oc.DefaultFormat = (if od.DefaultFormat = "" then dflt.DefaultFormat else od.DefaultFormat) :=
  (load_fallback_law sample.constants sample.world).1
    "\x7b\"options\":\x7b\"quality\":0\x7d\x7d" false New
    { DefaultConfig sample.constants with
      Options := some { EnableUpload := false, DefaultFormat := "png", Quality := 95 } }
    (by decide)

end config

namespace config

open viper mapstructure

/-- C2. When the JSON decoder rejects the content (the empty string, malformed JSON),
`LoadFromContent` returns the parse error and a nil `Config`; and whenever a load operation
returns an error, the `Config` it returns with it is nil. -/
theorem loadFromContent_parse_error (k : Constants) (w : World) (content : String) (v : Viper)
    (e : String) (h : w.unmarshal "json" content = .error e) :
    (LoadFromContent k w content v).1 = .ret none (some (.parse e)) ∧
      ∀ content' isPath v' cfg err,
        (load k w content' isPath v').1 = .ret cfg (some err) → cfg = none := by
  refine ⟨?_, ?_⟩
  · unfold LoadFromContent
    rw [load_fst, decoded_content_unfold, h]
  · intro content' isPath v' cfg err hl
    rw [load_fst] at hl
    cases hd : (decoded k w content' isPath v').1 with
    | error e' =>
      rw [hd] at hl
      simp only [Outcome.ret.injEq] at hl
      exact hl.1.symm
    | ok d =>
      rw [hd] at hl
      simp only at hl
      split at hl <;> simp at hl

/-- Witness of C2: the empty content, which the sample JSON decoder rejects, gives the parse
error and no `Config`. -/
theorem loadFromContent_parse_error_witness :
    (LoadFromContent sample.constants sample.world "" New).1 =
      .ret none (some (.parse "unexpected end of JSON input")) :=
  (loadFromContent_parse_error sample.constants sample.world "" New
    "unexpected end of JSON input" rfl).1

/-- C7. Narrow allow-list: the `Config` that `load` returns is the decoded one, except for
its options, and its options are the decoded ones, except for `Quality` and `DefaultFormat`.
A source whose options section only disables uploads and empties the allowed sizes is loaded
with `EnableUpload = false`, no allowed size, and an empty `DefaultUserAgent` and
`MimetypeDetector`: these are not filled from `DefaultConfig()`. -/
theorem load_normalization_frame (k : Constants) (w : World) (content : String) (isPath : Bool)
    (v : Viper) (hv : Reachable k v) :
    (∀ d c, (decoded k w content isPath v).1 = .ok d →
      (load k w content isPath v).1 = .ret (some c) none →
      ∃ od oc, d.Options = some od ∧ c.Options = some oc ∧ c = { d with Options := some oc } ∧
        oc = { od with Quality := oc.Quality, DefaultFormat := oc.DefaultFormat }) ∧
    (w.unmarshal "json" content =
        .ok [("options", .obj [("enable_upload", .bool false), ("allowed_sizes", .arr [])])] →
      (LoadFromContent k w content v).1 =
        .ret (some { DefaultConfig k with
          Options := some
            { EnableUpload := false, AllowedSizes := [], DefaultUserAgent := "",
              MimetypeDetector := "", Quality := k.DefaultQuality,
              DefaultFormat := k.DefaultFormat } }) none) := by
  refine ⟨?_, ?_⟩
  · intro d c hd hl
    rw [load_fst, hd] at hl
    simp only at hl
    split at hl
    · rename_i od dflt hod hdflt
      simp only [Outcome.ret.injEq, Option.some.injEq, and_true] at hl
      subst hl
      refine ⟨od, _, hod, rfl, rfl, ?_⟩
      split <;> split <;> rfl
    · simp at hl
  · intro ht
    have hd := decoded_content_tree k w content v _ hv.inv ht
    have hs : AllSettings w
        { config := insensitiviseMap
            [("options", .obj [("enable_upload", .bool false), ("allowed_sizes", .arr [])])],
          defaults := (register k New).defaults } =
        [("options", .obj [("enable_upload", .bool false), ("allowed_sizes", .arr [])]),
          ("shard", shardValue (DefaultConfig k).Shard),
          ("port", .int k.DefaultPort), ("kvstore", kvstoreValue (DefaultConfig k).KVStore)] :=
      rfl
    have hu : Unmarshal w
        { config := insensitiviseMap
            [("options", .obj [("enable_upload", .bool false), ("allowed_sizes", .arr [])])],
          defaults := (register k New).defaults } {} =
        .ok { Port := k.DefaultPort, Options := some {}, Shard := (DefaultConfig k).Shard,
              KVStore := (DefaultConfig k).KVStore } := by
      unfold Unmarshal
      rw [hs]
      rfl
    rw [hu] at hd
    unfold LoadFromContent
    rw [load_fst, hd]
    rfl

/-- Witness of C7: the content `{"options":{"enable_upload":false,"allowed_sizes":[]}}` is
loaded from the initial state with an empty user agent and an empty mimetype detector. -/
theorem load_normalization_frame_witness :
    (LoadFromContent sample.constants sample.world
        "\x7b\"options\":\x7b\"enable_upload\":false,\"allowed_sizes\":[]\x7d\x7d" New).1 =
      .ret (some { DefaultConfig sample.constants with
        Options := some
          { EnableUpload := false, AllowedSizes := [], DefaultUserAgent := "",
            MimetypeDetector := "", Quality := 95, DefaultFormat := "png" } }) none :=
  (load_normalization_frame sample.constants sample.world
    "\x7b\"options\":\x7b\"enable_upload\":false,\"allowed_sizes\":[]\x7d\x7d" false New
    Reachable.init).2 rfl

/-- C3 (evaluation at the failing input). With `PICFIT_PORT=8080` in the environment and a
source `{}` that does not set the port, `LoadFromContent` returns the default configuration,
whose port is 3001: the environment is not consulted.  It is once `AutomaticEnv` has been
called, which `load` never does: the same call then returns port 8080. -/
theorem load_ignores_environment :
    sample.world.Getenv "PICFIT_PORT" = "8080" ∧
      (LoadFromContent sample.constants sample.world "\x7b\x7d" New).1 =
        .ret (some (DefaultConfig sample.constants)) none ∧
      (DefaultConfig sample.constants).Port = 3001 ∧
      (LoadFromContent sample.constants sample.world "\x7b\x7d" (AutomaticEnv New)).1 =
        .ret (some { DefaultConfig sample.constants with Port := 8080 }) none := by
  decide

end config

namespace config

open viper mapstructure

/-- The four sections with defaults in a decoded `Config`: the three pointers are not nil, and
a section for which the parsed configuration has no entry is the one of `DefaultConfig()`. -/
theorem decoded_sections (k : Constants) (w : World) (content : String) (isPath : Bool)
    (v : Viper) (d : Config) (hv : Inv k v) (hd : (decoded k w content isPath v).1 = .ok d) :
    (d.Options ≠ none ∧ d.Shard ≠ none ∧ d.KVStore ≠ none) ∧
      (Value.lookup "options" (decoded k w content isPath v).2.config = none →
        d.Options = (DefaultConfig k).Options) ∧
      (Value.lookup "shard" (decoded k w content isPath v).2.config = none →
        d.Shard = (DefaultConfig k).Shard) ∧
      (Value.lookup "port" (decoded k w content isPath v).2.config = none →
        d.Port = (DefaultConfig k).Port) ∧
      (Value.lookup "kvstore" (decoded k w content isPath v).2.config = none →
        d.KVStore = (DefaultConfig k).KVStore) := by
  obtain ⟨hu, henv, hdef, hlow⟩ := decoded_ok k w content isPath v d hv hd
  generalize (decoded k w content isPath v).2 = s at hu henv hdef hlow ⊢
  obtain ⟨hshard, hport, hoptions, hkvstore⟩ := decodeConfig_ok _ _ _ _ hu
  obtain ⟨o, sh, kv, ho, hsh, hkv, hD⟩ := register_New_defaults k
  have dO := section_data k w s "options" "Options" (.options o) henv hdef (Or.inl rfl) rfl
    (by rw [hD]; rfl) rfl
  have dS := section_data k w s "shard" "Shard" (.shard sh) henv hdef (Or.inr (Or.inl rfl)) rfl
    (by rw [hD]; rfl) rfl
  have dP := section_data k w s "port" "Port" (.int (DefaultConfig k).Port) henv hdef
    (Or.inr (Or.inr (Or.inl rfl))) rfl (by rw [hD]; rfl) rfl
  have dK := section_data k w s "kvstore" "KVStore" (.kvstore kv) henv hdef
    (Or.inr (Or.inr (Or.inr rfl))) rfl (by rw [hD]; rfl) rfl
  refine ⟨⟨?_, ?_, ?_⟩, ?_, ?_, ?_, ?_⟩
  · obtain ⟨x, hx, _⟩ := decodePtr_some _ _ _ _ _ dO.1 hoptions
    rw [hx]; simp
  · obtain ⟨x, hx, _⟩ := decodePtr_some _ _ _ _ _ dS.1 hshard
    rw [hx]; simp
  · obtain ⟨x, hx, _⟩ := decodePtr_some _ _ _ _ _ dK.1 hkvstore
    rw [hx]; simp
  · intro hnone
    rw [dO.2 hnone hlow] at hoptions
    simp only [decodePtr, decodeOptions, bind, Except.bind, pure, Except.pure,
      Except.ok.injEq] at hoptions
    rw [← hoptions, ho]
  · intro hnone
    rw [dS.2 hnone hlow] at hshard
    simp only [decodePtr, decodeShard, bind, Except.bind, pure, Except.pure,
      Except.ok.injEq] at hshard
    rw [← hshard, hsh]
  · intro hnone
    rw [dP.2 hnone hlow] at hport
    simp only [decodeInt, Except.ok.injEq] at hport
    exact hport.symm
  · intro hnone
    rw [dK.2 hnone hlow] at hkvstore
    simp only [decodePtr, decodeKVStore, bind, Except.bind, pure, Except.pure,
      Except.ok.injEq] at hkvstore
    rw [← hkvstore, hkv]

/-- C6. Non-null invariant: from a reachable state `load` never stops on a nil dereference;
whenever the source is read and decoded, the decoded `Config` has non-nil `Options`, `Shard`
and `KVStore`, and `load` returns a `Config` that has them too. -/
theorem load_sections_non_nil (k : Constants) (w : World) (content : String) (isPath : Bool)
    (v : Viper) (hv : Reachable k v) :
    (load k w content isPath v).1 ≠ .fault ∧
      ∀ d, (decoded k w content isPath v).1 = .ok d →
        (d.Options ≠ none ∧ d.Shard ≠ none ∧ d.KVStore ≠ none) ∧
        ∃ c, (load k w content isPath v).1 = .ret (some c) none ∧
          c.Options ≠ none ∧ c.Shard ≠ none ∧ c.KVStore ≠ none := by
  have key : ∀ d, (decoded k w content isPath v).1 = .ok d →
      (d.Options ≠ none ∧ d.Shard ≠ none ∧ d.KVStore ≠ none) ∧
      ∃ c, (load k w content isPath v).1 = .ret (some c) none ∧
        c.Options ≠ none ∧ c.Shard ≠ none ∧ c.KVStore ≠ none := by
    intro d hd
    obtain ⟨⟨h1, h2, h3⟩, _⟩ := decoded_sections k w content isPath v d hv.inv hd
    refine ⟨⟨h1, h2, h3⟩, ?_⟩
    obtain ⟨od, hod⟩ := Option.ne_none_iff_exists'.mp h1
    obtain ⟨o, _, _, ho, _, _, _⟩ := register_New_defaults k
    rw [load_fst, hd]
    simp only [hod, ho]
    exact ⟨_, rfl, by simp, h2, h3⟩
  refine ⟨?_, key⟩
  cases hd : (decoded k w content isPath v).1 with
  | error e => rw [load_fst, hd]; simp
  | ok d =>
    obtain ⟨_, c, hc, _⟩ := key d hd
    rw [hc]; simp

/-- Witness of C6: loading `{}` from the initial state returns a `Config` with the three
sections. -/
theorem load_sections_non_nil_witness :
    ∃ c, (load sample.constants sample.world "\x7b\x7d" false New).1 = .ret (some c) none ∧
      c.Options ≠ none ∧ c.Shard ≠ none ∧ c.KVStore ≠ none :=
  ((load_sections_non_nil sample.constants sample.world "\x7b\x7d" false New
    Reachable.init).2 (DefaultConfig sample.constants) rfl).2

/-- C5. Default floor: when a load from a reachable state succeeds and the configuration read
from the source (the parsed source, keys in lower case, that viper holds after the call) has no
entry `options` (`shard`, `port`, `kvstore`), the field `Options` (`Shard`, `Port`, `KVStore`)
of the result is that of `DefaultConfig()`.  Scenario B: the
source `{"port":9000,"options":{"enable_upload":true}}` is loaded with `Port = 9000`,
`Options.EnableUpload = true`, `Options.Quality = DefaultQuality` and the default shard. -/
theorem load_default_floor (k : Constants) (w : World) (content : String) (isPath : Bool)
    (v : Viper) (hv : Reachable k v) :
    (∀ c, (load k w content isPath v).1 = .ret (some c) none →
      (Value.lookup "options" (load k w content isPath v).2.config = none →
        c.Options = (DefaultConfig k).Options) ∧
      (Value.lookup "shard" (load k w content isPath v).2.config = none →
        c.Shard = (DefaultConfig k).Shard) ∧
      (Value.lookup "port" (load k w content isPath v).2.config = none →
        c.Port = (DefaultConfig k).Port) ∧
      (Value.lookup "kvstore" (load k w content isPath v).2.config = none →
        c.KVStore = (DefaultConfig k).KVStore)) ∧
    (∀ tree, w.unmarshal "json" content = .ok tree →
      (LoadFromContent k w content v).2.config = insensitiviseMap tree) ∧
    (w.unmarshal "json" content =
        .ok [("port", .num 9000), ("options", .obj [("enable_upload", .bool true)])] →
      ∃ c o, (LoadFromContent k w content v).1 = .ret (some c) none ∧ c.Port = 9000 ∧
        c.Options = some o ∧ o.EnableUpload = true ∧ o.Quality = k.DefaultQuality ∧
        c.Shard = (DefaultConfig k).Shard) := by
  refine ⟨?_, ?_, ?_⟩
  · intro c hl
    rw [load_snd]
    rw [load_fst] at hl
    cases hd : (decoded k w content isPath v).1 with
    | error e => rw [hd] at hl; simp at hl
    | ok d =>
      rw [hd] at hl
      obtain ⟨_, hO, hS, hP, hK⟩ := decoded_sections k w content isPath v d hv.inv hd
      simp only at hl
      split at hl
      · rename_i od dflt hod hdflt
        simp only [Outcome.ret.injEq, Option.some.injEq, and_true] at hl
        subst hl
        refine ⟨?_, hS, hP, hK⟩
        intro hnone
        have hod' : od = dflt := by
          have := hO hnone
          rw [hod, hdflt] at this
          exact Option.some.inj this
        subst hod'
        simp only [hdflt, Option.some.injEq]
        split <;> split <;> rfl
      · simp at hl
  · intro tree ht
    unfold LoadFromContent
    rw [load_snd, decoded_content_unfold, ht]
  · intro ht
    have hd := decoded_content_tree k w content v _ hv.inv ht
    have hs : AllSettings w
        { config := insensitiviseMap
            [("port", .num 9000), ("options", .obj [("enable_upload", .bool true)])],
          defaults := (register k New).defaults } =
        [("port", .num 9000), ("options", .obj [("enable_upload", .bool true)]),
          ("shard", shardValue (DefaultConfig k).Shard),
          ("kvstore", kvstoreValue (DefaultConfig k).KVStore)] :=
      rfl
    have hu : Unmarshal w
        { config := insensitiviseMap
            [("port", .num 9000), ("options", .obj [("enable_upload", .bool true)])],
          defaults := (register k New).defaults } {} =
        .ok { Port := 9000, Options := some { EnableUpload := true },
              Shard := (DefaultConfig k).Shard, KVStore := (DefaultConfig k).KVStore } := by
      unfold Unmarshal
      rw [hs]
      rfl
    rw [hu] at hd
    unfold LoadFromContent
    rw [load_fst, hd]
    exact ⟨_, _, rfl, rfl, rfl, rfl, rfl, rfl⟩

/-- Witness of C5 (scenario B): the content `{"port":9000,"options":{"enable_upload":true}}`
is loaded from the initial state with port 9000, uploads enabled, the default quality and the
default shard. -/
theorem load_default_floor_witness :
    ∃ c o, (LoadFromContent sample.constants sample.world
        "\x7b\"port\":9000,\"options\":\x7b\"enable_upload\":true\x7d\x7d" New).1 =
        .ret (some c) none ∧ c.Port = 9000 ∧
      c.Options = some o ∧ o.EnableUpload = true ∧ o.Quality = sample.constants.DefaultQuality ∧
      c.Shard = (DefaultConfig sample.constants).Shard :=
  (load_default_floor sample.constants sample.world
    "\x7b\"port\":9000,\"options\":\x7b\"enable_upload\":true\x7d\x7d" false New
    Reachable.init).2.2 rfl

end config

namespace config

open viper mapstructure

/-- C10 (counterexample). `Load("config.yaml")` returns the configuration of the file, with
port 9000, in the initial state, and a parse error in the state left by an earlier call
`LoadFromContent("{}")`, both states being reachable and the files and the environment being
the same: the earlier call has set viper's configuration type to `"json"`, and the YAML file
is then parsed as JSON. -/
theorem load_depends_on_earlier_calls :
    Reachable sample.constants New ∧
      Reachable sample.constants (LoadFromContent sample.constants sample.world "\x7b\x7d" New).2 ∧
      (Load sample.constants sample.world "config.yaml" New).1 =
        .ret (some { DefaultConfig sample.constants with Port := 9000 }) none ∧
      (Load sample.constants sample.world "config.yaml"
          (LoadFromContent sample.constants sample.world "\x7b\x7d" New).2).1 =
        .ret none (some (.parse "invalid character")) :=
  ⟨Reachable.init, Reachable.step _ _ _ _ Reachable.init, by decide, by decide⟩

/-- C10 (amended). With the files and the environment fixed, `LoadFromContent(content)`
returns the same result from any two reachable states, and `Load(path)`, for a non-empty
path, returns the same result from any two reachable states that have the same configuration
type, that is, both before or both after the first call of `LoadFromContent`. -/
theorem load_deterministic_for_config_type (k : Constants) (w : World) (content path : String)
    (v₁ v₂ : Viper) (h₁ : Reachable k v₁) (h₂ : Reachable k v₂) :
    (LoadFromContent k w content v₁).1 = (LoadFromContent k w content v₂).1 ∧
      (v₁.configType = v₂.configType → path ≠ "" →
        (Load k w path v₁).1 = (Load k w path v₂).1) :=
  ⟨load_fst_congr k _ _ _ _ _ _ _ _
      (decoded_content_congr k w w content v₁ v₂ rfl rfl h₁.inv h₂.inv),
    fun ht hp => load_fst_congr k _ _ _ _ _ _ _ _
      (decoded_path_congr k w w path v₁ v₂ rfl rfl rfl h₁.inv h₂.inv ht hp)⟩

/-- Witness of C10 (amended): `Load("config.yaml")` gives the same result in the initial
state and in the state left by an earlier `Load("config.yaml")`. -/
theorem load_deterministic_for_config_type_witness :
    (Load sample.constants sample.world "config.yaml" New).1 =
      (Load sample.constants sample.world "config.yaml"
        (Load sample.constants sample.world "config.yaml" New).2).1 :=
  (load_deterministic_for_config_type sample.constants sample.world "" "config.yaml" New
    (Load sample.constants sample.world "config.yaml" New).2 Reachable.init
    (Reachable.step _ _ _ _ Reachable.init)).2 (by decide) (by decide)

end config

/-! ## Lower-case keys at every level -/

namespace Value

theorem lowerKeysMap_iff (m : List (String × Value)) :
    lowerKeysMap m ↔ ∀ kv ∈ m, ToLower kv.1 = kv.1 ∧ lowerKeys kv.2 := by
  induction m with
  | nil => simp [lowerKeysMap]
  | cons e rest ih =>
    obtain ⟨k, x⟩ := e
    simp only [lowerKeysMap, ih, List.mem_cons, forall_eq_or_imp]
    tauto

theorem lowerKeysMap_insert (k : String) (x : Value) (m : List (String × Value))
    (hk : ToLower k = k) (hx : lowerKeys x) (hm : lowerKeysMap m) :
    lowerKeysMap (insert k x m) := by
  rw [lowerKeysMap_iff] at hm ⊢
  intro kv hkv
  rcases mem_insert k x m kv hkv with h | ⟨h, _⟩
  · rw [h]; exact ⟨hk, hx⟩
  · exact hm kv h

theorem lowerKeysMap_erase (k : String) (m : List (String × Value)) (hm : lowerKeysMap m) :
    lowerKeysMap (erase k m) := by
  rw [lowerKeysMap_iff] at hm ⊢
  intro kv hkv
  exact hm kv (mem_erase k m kv hkv).1

theorem lowerKeys_of_lookup (k : String) (x : Value) (m : List (String × Value))
    (hm : lowerKeysMap m) (h : lookup k m = some x) : ToLower k = k ∧ lowerKeys x :=
  (lowerKeysMap_iff m).mp hm (k, x) (mem_of_lookup k x m h)

theorem lowerKeysMap_top (m : List (String × Value)) (hm : lowerKeysMap m) :
    ∀ kv ∈ m, ToLower kv.1 = kv.1 :=
  fun kv hkv => ((lowerKeysMap_iff m).mp hm kv hkv).1

end Value

namespace viper

/-- A lower-cased copy has its keys in lower case at every level. -/
theorem insensitiviseValue_lowerKeys (x : Value) : (insensitiviseValue x).lowerKeys := by
  refine insensitiviseValue.induct
    (fun x => (insensitiviseValue x).lowerKeys)
    (fun nm m => Value.lowerKeysMap nm → Value.lowerKeysMap (copyAndInsensitiviseMap nm m))
    ?_ ?_ ?_ ?_ x
  · intro m ih
    simp only [insensitiviseValue, Value.lowerKeys]
    exact ih (by simp [Value.lowerKeysMap])
  · intro x hx
    cases x with
    | obj m => exact absurd rfl (hx m)
    | _ => simp [insensitiviseValue, Value.lowerKeys]
  · intro nm h
    simpa [copyAndInsensitiviseMap] using h
  · intro nm key val rest ih1 ih2 h
    simp only [copyAndInsensitiviseMap]
    exact ih2 (Value.lowerKeysMap_insert _ _ _ (ToLower_ToLower key) ih1 h)

/-- The map that `insensitiviseMap` leaves has its keys in lower case at every level. -/
theorem insensitiviseMap_lowerKeys (m : List (String × Value)) :
    Value.lowerKeysMap (insensitiviseMap m) := by
  have key : ∀ (l : List String) (acc : List (String × Value)),
      (∀ kv ∈ acc, (ToLower kv.1 = kv.1 ∧ kv.2.lowerKeys) ∨ kv.1 ∈ l) →
      ∀ kv ∈ l.foldl insensitiviseMap.step acc, ToLower kv.1 = kv.1 ∧ kv.2.lowerKeys := by
    intro l
    induction l with
    | nil =>
      intro acc h kv hkv
      rcases h kv hkv with h' | h'
      · exact h'
      · simp at h'
    | cons k ks ih =>
      intro acc h kv hkv
      simp only [List.foldl_cons] at hkv
      refine ih _ ?_ kv hkv
      intro e he
      unfold insensitiviseMap.step at he
      cases hl : Value.lookup k acc with
      | none =>
        rw [hl] at he
        rcases h e he with h' | h'
        · exact Or.inl h'
        · rcases List.mem_cons.mp h' with h'' | h''
          · exact absurd h'' (ne_of_lookup_none k acc hl e he)
          · exact Or.inr h''
      | some val =>
        rw [hl] at he
        simp only at he
        split at he
        · rcases Value.mem_insert _ _ _ _ he with h' | ⟨h', _⟩
          · left; rw [h']; exact ⟨ToLower_ToLower k, insensitiviseValue_lowerKeys val⟩
          · obtain ⟨hmem, hne⟩ := Value.mem_erase _ _ _ h'
            rcases h e hmem with h'' | h''
            · exact Or.inl h''
            · rcases List.mem_cons.mp h'' with h3 | h3
              · exact absurd h3 hne
              · exact Or.inr h3
        · rename_i hk
          have hk' : k = ToLower k := by simpa using hk
          rcases Value.mem_insert _ _ _ _ he with h' | ⟨h', hne⟩
          · left; rw [h']; exact ⟨ToLower_ToLower k, insensitiviseValue_lowerKeys val⟩
          · rcases h e h' with h'' | h''
            · exact Or.inl h''
            · rcases List.mem_cons.mp h'' with h3 | h3
              · rw [← hk'] at hne; exact absurd h3 hne
              · exact Or.inr h3
  rw [Value.lowerKeysMap_iff]
  unfold insensitiviseMap
  refine key _ m ?_
  intro kv hkv
  exact Or.inr (List.mem_map_of_mem Prod.fst hkv)

end viper

/-! ## Reading and writing nested keys -/

namespace viper

theorem searchMap_single (m : List (String × Value)) (k : String) :
    searchMap m [k] = (Value.lookup k m).getD .null := by
  simp [searchMap]

theorem searchMap_cons_cons (m : List (String × Value)) (k r : String) (rs : List String) :
    searchMap m (k :: r :: rs) =
      match Value.lookup k m with
      | some (.obj next) => searchMap next (r :: rs)
      | _ => .null := by
  cases h : Value.lookup k m with
  | none => simp [searchMap, h]
  | some v => cases v <;> simp [searchMap, h]

/-- Reading below a key goes through the entry of that key only. -/
theorem searchMap_congr_lookup (m m' : List (String × Value)) (a : String) (ps : List String)
    (h : Value.lookup a m = Value.lookup a m') :
    searchMap m (a :: ps) = searchMap m' (a :: ps) := by
  cases ps with
  | nil => simp [searchMap_single, h]
  | cons r rs => simp [searchMap_cons_cons, h]

theorem searchMap_nil_map (p : List String) (hp : p ≠ []) : searchMap [] p = .null := by
  cases p with
  | nil => exact absurd rfl hp
  | cons a ps =>
    cases ps with
    | nil => simp [searchMap_single, Value.lookup]
    | cons r rs => simp [searchMap_cons_cons, Value.lookup]

/-- A non-nil value read at a top-level key is the entry of that key. -/
theorem lookup_of_searchMap_single (m : List (String × Value)) (k : String) (x : Value)
    (h : searchMap m [k] = x) (hx : x.isNil = false) : Value.lookup k m = some x := by
  rw [searchMap_single] at h
  cases hl : Value.lookup k m with
  | none => rw [hl] at h; simp at h; rw [← h] at hx; simp [Value.isNil] at hx
  | some y => rw [hl] at h; simp at h; rw [h]

/-- A non-nil value read below a key is read in the map that the key holds. -/
theorem lookup_of_searchMap_cons (m : List (String × Value)) (k r : String) (rs : List String)
    (x : Value) (h : searchMap m (k :: r :: rs) = x) (hx : x.isNil = false) :
    ∃ sub, Value.lookup k m = some (.obj sub) ∧ searchMap sub (r :: rs) = x := by
  rw [searchMap_cons_cons] at h
  split at h
  · rename_i next hl
    exact ⟨next, hl, h⟩
  · rw [← h] at hx; simp [Value.isNil] at hx

/-- A non-nil value read at `q ++ r` is read at `r` in the map that `q` holds. -/
theorem searchMap_append (q : List String) :
    ∀ (m : List (String × Value)) (r : List String) (x : Value), q ≠ [] → r ≠ [] →
      searchMap m (q ++ r) = x → x.isNil = false →
      ∃ sub, searchMap m q = .obj sub ∧ searchMap sub r = x := by
  induction q with
  | nil => intro m r x hq; exact absurd rfl hq
  | cons a qs ih =>
    intro m r x _ hr h hx
    cases r with
    | nil => exact absurd rfl hr
    | cons b rs =>
      cases qs with
      | nil =>
        obtain ⟨sub, hl, hs⟩ := lookup_of_searchMap_cons m a b rs x h hx
        exact ⟨sub, by simp [searchMap_single, hl], hs⟩
      | cons a2 qs2 =>
        obtain ⟨sub, hl, hs⟩ := lookup_of_searchMap_cons m a a2 (qs2 ++ b :: rs) x h hx
        obtain ⟨sub2, h1, h2⟩ := ih sub (b :: rs) x (by simp) (by simp) hs hx
        exact ⟨sub2, by rw [searchMap_cons_cons, hl]; exact h1, h2⟩

/-- Below a key that holds a plain value nothing is read. -/
theorem searchMap_below_leaf (p : List String) :
    ∀ (m : List (String × Value)) (r : List String) (x : Value), p ≠ [] → r ≠ [] →
      searchMap m p = x → (∀ sub, x ≠ .obj sub) → searchMap m (p ++ r) = .null := by
  induction p with
  | nil => intro m r x hp; exact absurd rfl hp
  | cons a ps ih =>
    intro m r x _ hr h hx
    cases r with
    | nil => exact absurd rfl hr
    | cons b rs =>
      cases ps with
      | nil =>
        rw [searchMap_single] at h
        show searchMap m (a :: b :: rs) = .null
        rw [searchMap_cons_cons]
        split
        · rename_i next hl
          rw [hl] at h
          simp at h
          exact absurd h.symm (hx next)
        · rfl
      | cons a2 ps2 =>
        rw [searchMap_cons_cons] at h
        show searchMap m (a :: a2 :: (ps2 ++ b :: rs)) = .null
        rw [searchMap_cons_cons]
        split
        · rename_i next hl
          rw [hl] at h
          exact ih next (b :: rs) x (by simp) (by simp) h hx
        · rfl

/-- A non-nil value read in a map with lower-case keys is read at a lower-case path, and has
lower-case keys. -/
theorem searchMap_lower (p : List String) :
    ∀ (m : List (String × Value)) (x : Value), Value.lowerKeysMap m → p ≠ [] →
      searchMap m p = x → x.isNil = false → p.map ToLower = p ∧ x.lowerKeys := by
  induction p with
  | nil => intro m x _ hp; exact absurd rfl hp
  | cons a ps ih =>
    intro m x hm _ h hx
    cases ps with
    | nil =>
      have hl := lookup_of_searchMap_single m a x h hx
      obtain ⟨h1, h2⟩ := Value.lowerKeys_of_lookup a x m hm hl
      exact ⟨by simp [h1], h2⟩
    | cons b rs =>
      obtain ⟨sub, hl, hs⟩ := lookup_of_searchMap_cons m a b rs x h hx
      obtain ⟨h1, h2⟩ := Value.lowerKeys_of_lookup a _ m hm hl
      obtain ⟨h3, h4⟩ := ih sub x (by simpa [Value.lowerKeys] using h2) (by simp) hs hx
      refine ⟨?_, h4⟩
      simp only [List.map_cons, h1] at h3 ⊢
      rw [h3]

/-- A value written at a path is read at that path. -/
theorem searchMap_deepSet_self (p : List String) :
    ∀ (m : List (String × Value)) (val : Value), p ≠ [] →
      searchMap (deepSet m p val) p = val := by
  induction p with
  | nil => intro m val hp; exact absurd rfl hp
  | cons a ps ih =>
    intro m val _
    cases ps with
    | nil => simp [deepSet, searchMap_single, Value.lookup_insert_self]
    | cons b rs =>
      simp only [deepSet]
      split <;>
        (rw [searchMap_cons_cons, Value.lookup_insert_self]
         exact ih _ val (by simp))

/-- A map written at a path is read through at the longer paths. -/
theorem searchMap_deepSet_below (q : List String) :
    ∀ (m : List (String × Value)) (r : List String) (sub : List (String × Value)),
      q ≠ [] → r ≠ [] → searchMap (deepSet m q (.obj sub)) (q ++ r) = searchMap sub r := by
  induction q with
  | nil => intro m r sub hq; exact absurd rfl hq
  | cons a qs ih =>
    intro m r sub _ hr
    cases r with
    | nil => exact absurd rfl hr
    | cons b rs =>
      cases qs with
      | nil =>
        show searchMap (deepSet m [a] (.obj sub)) (a :: b :: rs) = _
        simp [deepSet, searchMap_cons_cons, Value.lookup_insert_self]
      | cons a2 qs2 =>
        show searchMap (deepSet m (a :: a2 :: qs2) (.obj sub)) (a :: a2 :: (qs2 ++ b :: rs)) = _
        simp only [deepSet]
        split <;>
          (rw [searchMap_cons_cons, Value.lookup_insert_self]
           exact ih _ (b :: rs) sub (by simp) (by simp))

/-- A write at a path leaves what is read at a path that neither starts nor continues
it. -/
theorem searchMap_deepSet_other (p : List String) :
    ∀ (q : List String) (m : List (String × Value)) (val : Value),
      ¬ q <+: p → ¬ p <+: q → searchMap (deepSet m q val) p = searchMap m p := by
  induction p with
  | nil => intro q m val _ h; exact absurd List.nil_prefix h
  | cons a ps ih =>
    intro q m val hqp hpq
    cases q with
    | nil => exact absurd List.nil_prefix hqp
    | cons b qs =>
      by_cases hab : b = a
      · subst hab
        have hqs : ¬ qs <+: ps := fun h => hqp ((List.prefix_cons_inj b).mpr h)
        have hps : ¬ ps <+: qs := fun h => hpq ((List.prefix_cons_inj b).mpr h)
        cases ps with
        | nil => exact absurd List.nil_prefix hps
        | cons a2 ps2 =>
          cases qs with
          | nil => exact absurd List.nil_prefix hqs
          | cons b2 qs2 =>
            simp only [deepSet]
            split
            · rename_i m3 hl
              rw [searchMap_cons_cons, Value.lookup_insert_self, searchMap_cons_cons, hl]
              show searchMap (deepSet m3 (b2 :: qs2) val) (a2 :: ps2) = _
              exact ih _ _ _ hqs hps
            · rename_i hno
              rw [searchMap_cons_cons, Value.lookup_insert_self]
              show searchMap (deepSet [] (b2 :: qs2) val) (a2 :: ps2) = _
              rw [ih _ _ _ hqs hps, searchMap_nil_map _ (by simp), searchMap_cons_cons]
              split
              · rename_i next hl
                exact absurd hl (hno next)
              · rfl
      · apply searchMap_congr_lookup
        exact lookup_deepSet_of_head_ne m b qs val a hab

end viper

/-! ## The keys of the parsed configuration -/

namespace viper

/-- Flattening only adds keys. -/
theorem flattenAndMergeValue_mono (shadow : List (List String)) (fullKey : List String)
    (val : Value) : ∀ q ∈ shadow, q ∈ flattenAndMergeValue shadow fullKey val := by
  refine flattenAndMergeValue.induct
    (fun shadow fullKey val => ∀ q ∈ shadow, q ∈ flattenAndMergeValue shadow fullKey val)
    (fun shadow pre m => ∀ q ∈ shadow, q ∈ flattenAndMergeMap shadow pre m)
    ?_ ?_ ?_ ?_ ?_ ?_ shadow fullKey val
  · intro shadow fullKey m2 hc q hq
    simpa only [flattenAndMergeValue, hc, if_true] using hq
  · intro shadow fullKey m2 hc ih q hq
    simp only [flattenAndMergeValue, hc]
    exact ih q hq
  · intro t shadow fullKey hc hno q hq
    cases t with
    | obj m2 => exact absurd rfl (hno m2)
    | _ => simpa only [flattenAndMergeValue, hc, if_true] using hq
  · intro t shadow fullKey hc hno q hq
    cases t with
    | obj m2 => exact absurd rfl (hno m2)
    | _ =>
      simp only [flattenAndMergeValue, hc]
      simp [hq]
  · intro shadow pre q hq
    simpa only [flattenAndMergeMap] using hq
  · intro shadow pre k' x rest ih1 ih2 q hq
    simp only [flattenAndMergeMap]
    exact ih2 q (ih1 q hq)

theorem flattenAndMergeMap_mono (shadow : List (List String)) (pre : List String)
    (m : List (String × Value)) : ∀ q ∈ shadow, q ∈ flattenAndMergeMap shadow pre m := by
  induction m generalizing shadow with
  | nil => intro q hq; simpa only [flattenAndMergeMap] using hq
  | cons e rest ih =>
    obtain ⟨k', x⟩ := e
    intro q hq
    simp only [flattenAndMergeMap]
    exact ih _ q (flattenAndMergeValue_mono shadow _ x q hq)

/-- A plain value is flattened to its key. -/
theorem flattenAndMergeValue_leaf (shadow : List (List String)) (fullKey : List String)
    (val : Value) (hval : ∀ m, val ≠ .obj m) (hlow : fullKey.map ToLower = fullKey) :
    fullKey ∈ flattenAndMergeValue shadow fullKey val := by
  have h : flattenAndMergeValue shadow fullKey val =
      if shadow.contains (fullKey.map ToLower) then shadow
      else shadow ++ [fullKey.map ToLower] := by
    cases val with
    | obj m => exact absurd rfl (hval m)
    | _ => simp only [flattenAndMergeValue]
  rw [h, hlow]
  exact mem_leaf_self shadow fullKey

/-- Every path at which a map with lower-case keys holds a plain non-nil value has a
beginning among the keys that flattening gives, below the prefix. -/
theorem flattenAndMergeMap_complete (shadow : List (List String)) (pre : List String)
    (m : List (String × Value)) :
    pre.map ToLower = pre → Value.lowerKeysMap m →
      ∀ p x, p ≠ [] → searchMap m p = x → x.isNil = false → (∀ sub, x ≠ .obj sub) →
        ∃ p', p' ≠ [] ∧ p' <+: p ∧ pre ++ p' ∈ flattenAndMergeMap shadow pre m := by
  refine flattenAndMergeMap.induct
    (fun shadow fullKey val => fullKey.map ToLower = fullKey → val.lowerKeys →
      ∀ m2 p x, val = .obj m2 → p ≠ [] → searchMap m2 p = x → x.isNil = false →
        (∀ sub, x ≠ .obj sub) →
        ∃ p', p' <+: p ∧ fullKey ++ p' ∈ flattenAndMergeValue shadow fullKey val)
    (fun shadow pre m => pre.map ToLower = pre → Value.lowerKeysMap m →
      ∀ p x, p ≠ [] → searchMap m p = x → x.isNil = false → (∀ sub, x ≠ .obj sub) →
        ∃ p', p' ≠ [] ∧ p' <+: p ∧ pre ++ p' ∈ flattenAndMergeMap shadow pre m)
    ?_ ?_ ?_ ?_ ?_ ?_ shadow pre m
  · intro shadow fullKey m2 hc _ _ m2' p x _ _ _ _ _
    refine ⟨[], List.nil_prefix, ?_⟩
    simp only [flattenAndMergeValue, hc, if_true, List.append_nil]
    simpa using hc
  · intro shadow fullKey m2 hc ih hlow hval m2' p x hm hp hs hx hleaf
    simp only [Value.obj.injEq] at hm
    subst hm
    obtain ⟨p', _, h2, h3⟩ := ih hlow (by simpa [Value.lowerKeys] using hval) p x hp hs hx hleaf
    refine ⟨p', h2, ?_⟩
    simpa only [flattenAndMergeValue, hc] using h3
  · intro t shadow fullKey _ hno _ _ m2 p x hm
    exact absurd hm (hno m2)
  · intro t shadow fullKey _ hno _ _ m2 p x hm
    exact absurd hm (hno m2)
  · intro shadow pre _ _ p x hp hs hx _
    rw [searchMap_nil_map p hp] at hs
    rw [← hs] at hx
    simp [Value.isNil] at hx
  · intro shadow pre k' v rest ih1 ih2 hpre hm p x hp hs hx hleaf
    simp only [Value.lowerKeysMap] at hm
    obtain ⟨hk, hv, hrest⟩ := hm
    have hfull : (pre ++ [k']).map ToLower = pre ++ [k'] := by
      simp [hpre, hk]
    simp only [flattenAndMergeMap]
    cases p with
    | nil => exact absurd rfl hp
    | cons a ps =>
      by_cases hka : k' = a
      · subst hka
        cases ps with
        | nil =>
          have hl := lookup_of_searchMap_single _ k' x hs hx
          simp only [Value.lookup, if_true, Option.some.injEq] at hl
          subst hl
          refine ⟨[k'], by simp, List.prefix_refl _, ?_⟩
          exact flattenAndMergeMap_mono _ _ _ _
            (flattenAndMergeValue_leaf shadow _ v hleaf hfull)
        | cons b rs =>
          obtain ⟨sub, hl, hs'⟩ := lookup_of_searchMap_cons _ k' b rs x hs hx
          simp only [Value.lookup, if_true, Option.some.injEq] at hl
          obtain ⟨p', h1, h2⟩ := ih1 hfull hv sub (b :: rs) x hl (by simp) hs' hx hleaf
          refine ⟨k' :: p', by simp, (List.prefix_cons_inj k').mpr h1, ?_⟩
          have : pre ++ k' :: p' = pre ++ [k'] ++ p' := by simp
          rw [this]
          exact flattenAndMergeMap_mono _ _ _ _ h2
      · have hs' : searchMap rest (a :: ps) = x := by
          rw [← hs]
          apply searchMap_congr_lookup
          simp [Value.lookup, hka]
        exact ih2 hpre hrest (a :: ps) x (by simp) hs' hx hleaf

end viper

/-! ## The merged settings carry the values of the parsed configuration -/

namespace viper

/-- With the automatic environment off, a non-nil value of the parsed configuration is the
value of the key. -/
theorem find_config (w : World) (v : Viper) (path : List String)
    (henv : v.automaticEnvApplied = false) (h : (searchMap v.config path).isNil = false) :
    find w v path = searchMap v.config path := by
  simp [find, henv, h]

/-- With the automatic environment off, a key that neither the parsed configuration nor the
defaults hold has no value. -/
theorem find_nil (w : World) (v : Viper) (path : List String)
    (henv : v.automaticEnvApplied = false) (hc : searchMap v.config path = .null)
    (hd : searchMap v.defaults path = .null) : find w v path = .null := by
  simp [find, henv, hc, hd, Value.isNil]

end viper

namespace config

open viper

/-- The registered defaults hold plain values: nothing is read below their keys. -/
theorem searchMap_defaults_nested (k : Constants) (a b : String) (rest : List String) :
    searchMap (register k New).defaults (a :: b :: rest) = .null := by
  obtain ⟨o, sh, kv, _, _, _, hD⟩ := register_New_defaults k
  rw [hD, searchMap_cons_cons]
  split
  · rename_i next hl
    simp only [Value.lookup] at hl
    repeat' split at hl
    all_goals simp at hl
  · rfl

/-- Every path at which the parsed configuration holds a plain non-nil value holds that
value in the merged settings. -/
theorem AllSettings_leaf (k : Constants) (w : World) (s : Viper) (p : List String) (x : Value)
    (henv : s.automaticEnvApplied = false) (hdef : s.defaults = (register k New).defaults)
    (hlow : Value.lowerKeysMap s.config) (hp : p ≠ []) (hs : searchMap s.config p = x)
    (hx : x.isNil = false) (hleaf : ∀ sub, x ≠ .obj sub) :
    searchMap (AllSettings w s) p = x := by
  have hplow : p.map ToLower = p := (searchMap_lower p s.config x hlow hp hs hx).1
  -- a beginning of the path is among the keys
  obtain ⟨q₀, hq₀ne, hq₀p, hq₀mem⟩ :=
    flattenAndMergeMap_complete [] [] s.config rfl hlow p x hp hs hx hleaf
  have hq₀keys : q₀ ∈ AllKeys s := by
    unfold AllKeys
    exact flattenAndMergeMap_mono _ _ _ _ (by simpa using hq₀mem)
  have hq₀low : q₀.map ToLower = q₀ := by
    obtain ⟨t, ht⟩ := hq₀p
    rw [← ht, List.map_append] at hplow
    exact (List.append_inj hplow (by simp)).1
  -- a step at a beginning of the path writes the value
  have hest : ∀ (q' : List String) (m : List (String × Value)), q' ≠ [] → q' <+: p →
      (find w s q').isNil = false ∧ searchMap (deepSet m q' (find w s q')) p = x := by
    intro q' m hq'ne hq'p
    obtain ⟨r, hr⟩ := hq'p
    by_cases hrnil : r = []
    · subst hrnil
      simp only [List.append_nil] at hr
      subst hr
      have hf : find w s q' = x := by
        rw [find_config w s q' henv (by rw [hs]; exact hx), hs]
      rw [hf]
      exact ⟨hx, searchMap_deepSet_self q' m x hp⟩
    · subst hr
      obtain ⟨sub, h1, h2⟩ := searchMap_append q' s.config r x hq'ne hrnil hs hx
      have hf : find w s q' = .obj sub := by
        rw [find_config w s q' henv (by rw [h1]; rfl), h1]
      rw [hf]
      exact ⟨rfl, by rw [searchMap_deepSet_below q' m r sub hq'ne hrnil, h2]⟩
  unfold AllSettings
  refine List.foldl_establish _ (fun m => searchMap m p = x) q₀ _ hq₀keys ?_ ?_ _
  · intro m
    simp only [Get, hq₀low]
    obtain ⟨h1, h2⟩ := hest q₀ m hq₀ne hq₀p
    simp only [h1, Bool.false_eq_true, if_false]
    exact h2
  · intro m q _ hm
    simp only [Get]
    generalize q.map ToLower = q'
    by_cases hnil : (find w s q').isNil = true
    · simpa only [hnil, if_true] using hm
    · have hnil' : (find w s q').isNil = false := by simpa using hnil
      simp only [hnil', Bool.false_eq_true, if_false]
      by_cases hq'ne : q' = []
      · subst hq'ne
        simpa [deepSet] using hm
      · by_cases hqp : q' <+: p
        · exact (hest q' m hq'ne hqp).2
        · by_cases hpq : p <+: q'
          · -- the key lies below the plain value: it has no value
            exfalso
            obtain ⟨r, hr⟩ := hpq
            have hrne : r ≠ [] := by
              intro h
              subst h
              simp only [List.append_nil] at hr
              exact hqp (hr ▸ List.prefix_refl _)
            subst hr
            have hc := searchMap_below_leaf p s.config r x hp hrne hs hleaf
            have hd : searchMap s.defaults (p ++ r) = .null := by
              rw [hdef]
              cases p with
              | nil => exact absurd rfl hp
              | cons a ps =>
                cases ps with
                | nil =>
                  cases r with
                  | nil => exact absurd rfl hrne
                  | cons b rs => exact searchMap_defaults_nested k a b rs
                | cons a2 ps2 => exact searchMap_defaults_nested k a a2 (ps2 ++ r)
            rw [find_nil w s _ henv hc hd] at hnil'
            simp [Value.isNil] at hnil'
          · rw [searchMap_deepSet_other p q' m _ hqp hpq]
            exact hm

end config

namespace viper

/-- What is read in a map with lower-case keys has lower-case keys. -/
theorem searchMap_lowerKeys (m : List (String × Value)) (p : List String)
    (hm : Value.lowerKeysMap m) : (searchMap m p).lowerKeys := by
  by_cases hp : p = []
  · subst hp
    simpa [searchMap, Value.lowerKeys] using hm
  · by_cases hx : (searchMap m p).isNil = true
    · cases h : searchMap m p with
      | obj sub => rw [h] at hx; simp [Value.isNil] at hx
      | _ => simp [Value.lowerKeys]
    · exact (searchMap_lower p m _ hm hp rfl (by simpa using hx)).2

/-- A write of a value with lower-case keys at a lower-case path keeps the keys of a map in
lower case. -/
theorem deepSet_lowerKeys (p : List String) :
    ∀ (m : List (String × Value)) (val : Value), (∀ a ∈ p, ToLower a = a) → val.lowerKeys →
      Value.lowerKeysMap m → Value.lowerKeysMap (deepSet m p val) := by
  induction p with
  | nil => intro m val _ _ hm; simpa [deepSet] using hm
  | cons a ps ih =>
    intro m val hp hval hm
    have ha : ToLower a = a := hp a (List.mem_cons_self _ _)
    have hps : ∀ b ∈ ps, ToLower b = b := fun b hb => hp b (List.mem_cons_of_mem _ hb)
    cases ps with
    | nil =>
      simp only [deepSet]
      exact Value.lowerKeysMap_insert _ _ _ ha hval hm
    | cons b rs =>
      simp only [deepSet]
      split
      · rename_i m3 hl
        have hm3 := (Value.lowerKeys_of_lookup a _ m hm hl).2
        refine Value.lowerKeysMap_insert _ _ _ ha ?_ hm
        simp only [Value.lowerKeys]
        exact ih m3 val hps hval (by simpa [Value.lowerKeys] using hm3)
      · refine Value.lowerKeysMap_insert _ _ _ ha ?_ hm
        simp only [Value.lowerKeys]
        exact ih [] val hps hval (by simp [Value.lowerKeysMap])

/-- With the automatic environment off, the value of a key has lower-case keys when the
parsed configuration and the defaults have. -/
theorem find_lowerKeys (w : World) (v : Viper) (path : List String)
    (henv : v.automaticEnvApplied = false) (hc : Value.lowerKeysMap v.config)
    (hd : Value.lowerKeysMap v.defaults) : (find w v path).lowerKeys := by
  simp only [find, henv, Bool.false_and, Bool.false_eq_true, if_false]
  split
  · exact searchMap_lowerKeys _ _ hc
  · split
    · simp [Value.lowerKeys]
    · split
      · exact searchMap_lowerKeys _ _ hd
      · simp [Value.lowerKeys]

/-- The merged settings have lower-case keys at every level. -/
theorem AllSettings_lowerKeys (w : World) (v : Viper)
    (henv : v.automaticEnvApplied = false) (hc : Value.lowerKeysMap v.config)
    (hd : Value.lowerKeysMap v.defaults) : Value.lowerKeysMap (AllSettings w v) := by
  unfold AllSettings
  refine List.foldl_preserve _ (fun m => Value.lowerKeysMap m) _ _ ?_ ?_
  · intro m q _ hm
    split
    · exact hm
    · refine deepSet_lowerKeys _ m _ ?_ (find_lowerKeys w v _ henv hc hd) hm
      intro a ha
      obtain ⟨b, _, hb⟩ := List.mem_map.mp ha
      rw [← hb]
      exact ToLower_ToLower b
  · simp [Value.lowerKeysMap]

end viper

namespace config

open viper

theorem register_New_defaults_lowerKeys (k : Constants) :
    Value.lowerKeysMap (register k New).defaults := by
  obtain ⟨o, sh, kv, _, _, _, hD⟩ := register_New_defaults k
  rw [hD, Value.lowerKeysMap_iff]
  intro e he
  simp only [List.mem_cons, List.mem_singleton, List.not_mem_nil, or_false] at he
  rcases he with h | h | h | h <;> subst h <;> exact ⟨rfl, by simp [Value.lowerKeys]⟩

end config

namespace Value

theorem asInt_some (x : Value) (n : Int) (h : x.asInt = some n) :
    x.isNil = false ∧ ∀ sub, x ≠ .obj sub := by
  cases x <;> simp [asInt] at h <;> simp [isNil]

end Value

namespace mapstructure

open config viper

/-- In a map with lower-case keys, the data of a field are the entry under the field name in
lower case. -/
theorem fieldData_eq (m : List (String × Value)) (fieldName key : String) (x : Value)
    (hm : Value.lowerKeysMap m) (hname : ToLower fieldName = key)
    (hl : searchMap m [key] = x) (hx : x.isNil = false) : fieldData fieldName m = x := by
  rw [fieldData_lower fieldName m (Value.lowerKeysMap_top m hm), hname,
    lookup_of_searchMap_single m key x hl hx]
  rfl

theorem field_bool (w : Weak) (m : List (String × Value)) (fieldName key : String) (b cur r : Bool)
    (hm : Value.lowerKeysMap m) (hname : ToLower fieldName = key)
    (hl : searchMap m [key] = .bool b) (h : decodeBool w (fieldData fieldName m) cur = .ok r) :
    r = b := by
  rw [fieldData_eq m fieldName key _ hm hname hl rfl] at h
  simp only [decodeBool, Except.ok.injEq] at h
  exact h.symm

theorem field_str (w : Weak) (m : List (String × Value)) (fieldName key : String)
    (x cur r : String) (hm : Value.lowerKeysMap m) (hname : ToLower fieldName = key)
    (hl : searchMap m [key] = .str x) (h : decodeString w (fieldData fieldName m) cur = .ok r) :
    r = x := by
  rw [fieldData_eq m fieldName key _ hm hname hl rfl] at h
  simp only [decodeString, Except.ok.injEq] at h
  exact h.symm

theorem field_int (w : Weak) (m : List (String × Value)) (fieldName key : String)
    (n cur r : Int) (hm : Value.lowerKeysMap m) (hname : ToLower fieldName = key)
    (hl : (searchMap m [key]).asInt = some n)
    (h : decodeInt w (fieldData fieldName m) cur = .ok r) : r = n := by
  rw [fieldData_eq m fieldName key _ hm hname rfl (Value.asInt_some _ _ hl).1] at h
  cases hx : searchMap m [key] with
  | num a =>
    rw [hx] at h hl
    simp only [decodeInt, Except.ok.injEq] at h
    simp only [Value.asInt, Option.some.injEq] at hl
    rw [← h, hl]
  | int a =>
    rw [hx] at h hl
    simp only [decodeInt, Except.ok.injEq] at h
    simp only [Value.asInt, Option.some.injEq] at hl
    rw [← h, hl]
  | _ => rw [hx] at hl; simp [Value.asInt] at hl

theorem mapM_str (w : Weak) (xs : List String) :
    (xs.map Value.str).mapM (fun x => decodeString w x "") = .ok xs := by
  induction xs with
  | nil => rfl
  | cons x rest ih =>
    rw [List.map_cons, List.mapM_cons, ih]
    rfl

theorem field_strs (w : Weak) (m : List (String × Value)) (fieldName key : String)
    (xs cur r : List String) (hm : Value.lowerKeysMap m) (hname : ToLower fieldName = key)
    (hl : searchMap m [key] = .arr (xs.map .str))
    (h : decodeStrings w (fieldData fieldName m) cur = .ok r) : r = xs := by
  rw [fieldData_eq m fieldName key _ hm hname hl rfl] at h
  simp only [decodeStrings, mapM_str, Except.ok.injEq] at h
  exact h.symm

theorem decodeAllowedSize_sizeValue (w : Weak) (hw : Int × Int) :
    decodeAllowedSize w (sizeValue hw) {} = .ok (sizeDecoded hw) := rfl

theorem mapM_sizes (w : Weak) (sizes : List (Int × Int)) :
    (sizes.map sizeValue).mapM (fun x => decodeAllowedSize w x {}) =
      .ok (sizes.map sizeDecoded) := by
  induction sizes with
  | nil => rfl
  | cons x rest ih =>
    rw [List.map_cons, List.mapM_cons, ih, decodeAllowedSize_sizeValue]
    rfl

theorem field_sizes (w : Weak) (m : List (String × Value)) (fieldName key : String)
    (sizes : List (Int × Int)) (cur r : List AllowedSize) (hm : Value.lowerKeysMap m)
    (hname : ToLower fieldName = key)
    (hl : searchMap m [key] = .arr (sizes.map sizeValue))
    (h : decodeAllowedSizes w (fieldData fieldName m) cur = .ok r) :
    r = sizes.map sizeDecoded := by
  rw [fieldData_eq m fieldName key _ hm hname hl rfl] at h
  simp only [decodeAllowedSizes, mapM_sizes, Except.ok.injEq] at h
  exact h.symm

/-- A section decoded into a pointer, read through a non-nil value below its key: the pointer
is set to the decoding of the map that the key holds. -/
theorem ptr_section {α : Type} (dec : Value → α → Except Error α) (zero : α)
    (m : List (String × Value)) (fieldName sec key : String) (rest : List String) (x : Value)
    (r : Option α) (hm : Value.lowerKeysMap m) (hname : ToLower fieldName = sec)
    (hdec : decodePtr dec zero (fieldData fieldName m) none = .ok r)
    (hs : searchMap m (sec :: key :: rest) = x) (hx : x.isNil = false) :
    ∃ s m1, r = some s ∧ dec (.obj m1) zero = .ok s ∧ Value.lowerKeysMap m1 ∧
      searchMap m1 (key :: rest) = x := by
  obtain ⟨m1, hl, hs1⟩ := lookup_of_searchMap_cons m sec key rest x hs hx
  have hm1 := (Value.lowerKeys_of_lookup sec _ m hm hl).2
  have hfd : fieldData fieldName m = .obj m1 :=
    fieldData_eq m fieldName sec _ hm hname (by simp [searchMap_single, hl]) rfl
  rw [hfd] at hdec
  obtain ⟨s, hs', hd⟩ := decodePtr_some dec zero (.obj m1) none r rfl hdec
  exact ⟨s, m1, hs', hd, by simpa [Value.lowerKeys] using hm1, hs1⟩

end mapstructure

namespace mapstructure

open config viper
/-- A successful decoding into a `Shard` decoded each of its fields. -/
theorem decodeShard_fields (w : Weak) (m : List (String × Value)) (cur r : Shard)
    (h : decodeShard w (.obj m) cur = .ok r) :
    decodeInt w (fieldData "Depth" m) cur.Depth = .ok r.Depth ∧
      decodeInt w (fieldData "Width" m) cur.Width = .ok r.Width ∧
      decodeBool w (fieldData "RestOnly" m) cur.RestOnly = .ok r.RestOnly := by
  simp only [decodeShard, bind_eq_ok] at h
  obtain ⟨_, h0, _, h1, _, h2, h⟩ := h
  simp only [pure, Except.pure, Except.ok.injEq] at h
  subst h
  exact ⟨h0, h1, h2⟩
/-- A successful decoding into a `Options` decoded each of its fields. -/
theorem decodeOptions_fields (w : Weak) (m : List (String × Value)) (cur r : Options)
    (h : decodeOptions w (.obj m) cur = .ok r) :
    decodeBool w (fieldData "enable_upload" m) cur.EnableUpload = .ok r.EnableUpload ∧
      decodeBool w (fieldData "enable_delete" m) cur.EnableDelete = .ok r.EnableDelete ∧
      decodeBool w (fieldData "enable_stats" m) cur.EnableStats = .ok r.EnableStats ∧
      decodeString w (fieldData "DefaultFormat" m) cur.DefaultFormat = .ok r.DefaultFormat ∧
      decodeString w (fieldData "Format" m) cur.Format = .ok r.Format ∧
      decodeInt w (fieldData "Quality" m) cur.Quality = .ok r.Quality ∧
      decodeAllowedSizes w (fieldData "allowed_sizes" m) cur.AllowedSizes = .ok r.AllowedSizes ∧
      decodeString w (fieldData "default_user_agent" m) cur.DefaultUserAgent = .ok r.DefaultUserAgent ∧
      decodeString w (fieldData "mimetype_detector" m) cur.MimetypeDetector = .ok r.MimetypeDetector := by
  simp only [decodeOptions, bind_eq_ok] at h
  obtain ⟨_, h0, _, h1, _, h2, _, h3, _, h4, _, h5, _, h6, _, h7, _, h8, h⟩ := h
  simp only [pure, Except.pure, Except.ok.injEq] at h
  subst h
  exact ⟨h0, h1, h2, h3, h4, h5, h6, h7, h8⟩
/-- A successful decoding into a `KVStore` decoded each of its fields. -/
theorem decodeKVStore_fields (w : Weak) (m : List (String × Value)) (cur r : KVStore)
    (h : decodeKVStore w (.obj m) cur = .ok r) :
    decodeString w (fieldData "Type" m) cur.Type_ = .ok r.Type_ ∧
      decodeString w (fieldData "Host" m) cur.Host = .ok r.Host ∧
      decodeInt w (fieldData "Port" m) cur.Port = .ok r.Port ∧
      decodeString w (fieldData "Password" m) cur.Password = .ok r.Password ∧
      decodeInt w (fieldData "Db" m) cur.Db = .ok r.Db ∧
      decodeString w (fieldData "Prefix" m) cur.Prefix = .ok r.Prefix ∧
      decodeInt w (fieldData "MaxEntries" m) cur.MaxEntries = .ok r.MaxEntries := by
  simp only [decodeKVStore, bind_eq_ok] at h
  obtain ⟨_, h0, _, h1, _, h2, _, h3, _, h4, _, h5, _, h6, h⟩ := h
  simp only [pure, Except.pure, Except.ok.injEq] at h
  subst h
  exact ⟨h0, h1, h2, h3, h4, h5, h6⟩
/-- A successful decoding into a `Storage` decoded each of its fields. -/
theorem decodeStorage_fields (w : Weak) (m : List (String × Value)) (cur r : Storage)
    (h : decodeStorage w (.obj m) cur = .ok r) :
    decodeString w (fieldData "Type" m) cur.Type_ = .ok r.Type_ ∧
      decodeString w (fieldData "Location" m) cur.Location = .ok r.Location ∧
      decodeString w (fieldData "base_url" m) cur.BaseURL = .ok r.BaseURL ∧
      decodeString w (fieldData "Region" m) cur.Region = .ok r.Region ∧
      decodeString w (fieldData "ACL" m) cur.ACL = .ok r.ACL ∧
      decodeString w (fieldData "access_key_id" m) cur.AccessKeyID = .ok r.AccessKeyID ∧
      decodeString w (fieldData "bucket_name" m) cur.BucketName = .ok r.BucketName ∧
      decodeString w (fieldData "secret_access_key" m) cur.SecretAccessKey = .ok r.SecretAccessKey := by
  simp only [decodeStorage, bind_eq_ok] at h
  obtain ⟨_, h0, _, h1, _, h2, _, h3, _, h4, _, h5, _, h6, _, h7, h⟩ := h
  simp only [pure, Except.pure, Except.ok.injEq] at h
  subst h
  exact ⟨h0, h1, h2, h3, h4, h5, h6, h7⟩
/-- A successful decoding into a `Storages` decoded each of its fields. -/
theorem decodeStorages_fields (w : Weak) (m : List (String × Value)) (cur r : Storages)
    (h : decodeStorages w (.obj m) cur = .ok r) :
    decodePtr (decodeStorage w) {} (fieldData "Src" m) cur.Src = .ok r.Src ∧
      decodePtr (decodeStorage w) {} (fieldData "Dst" m) cur.Dst = .ok r.Dst := by
  simp only [decodeStorages, bind_eq_ok] at h
  obtain ⟨_, h0, _, h1, h⟩ := h
  simp only [pure, Except.pure, Except.ok.injEq] at h
  subst h
  exact ⟨h0, h1⟩
/-- A successful decoding into a `Sentry` decoded each of its fields. -/
theorem decodeSentry_fields (w : Weak) (m : List (String × Value)) (cur r : Sentry)
    (h : decodeSentry w (.obj m) cur = .ok r) :
    decodeString w (fieldData "DSN" m) cur.DSN = .ok r.DSN ∧
      decodeTags w (fieldData "Tags" m) cur.Tags = .ok r.Tags := by
  simp only [decodeSentry, bind_eq_ok] at h
  obtain ⟨_, h0, _, h1, h⟩ := h
  simp only [pure, Except.pure, Except.ok.injEq] at h
  subst h
  exact ⟨h0, h1⟩
/-- A successful decoding into a `Logger` decoded each of its fields. -/
theorem decodeLogger_fields (w : Weak) (m : List (String × Value)) (cur r : Logger)
    (h : decodeLogger w (.obj m) cur = .ok r) :
    decodeString w (fieldData "Level" m) cur.Level = .ok r.Level := by
  simp only [decodeLogger, bind_eq_ok] at h
  obtain ⟨_, h0, h⟩ := h
  simp only [pure, Except.pure, Except.ok.injEq] at h
  subst h
  exact h0
/-- A successful decoding into a `Config` decoded each of its fields. -/
theorem decodeConfig_fields (w : Weak) (m : List (String × Value)) (cur r : Config)
    (h : decodeConfig w m cur = .ok r) :
    decodeBool w (fieldData "Debug" m) cur.Debug = .ok r.Debug ∧
      decodePtr (decodeSentry w) {} (fieldData "Sentry" m) cur.Sentry = .ok r.Sentry ∧
      decodeString w (fieldData "secret_key" m) cur.SecretKey = .ok r.SecretKey ∧
      decodePtr (decodeShard w) {} (fieldData "Shard" m) cur.Shard = .ok r.Shard ∧
      decodeInt w (fieldData "Port" m) cur.Port = .ok r.Port ∧
      decodePtr (decodeOptions w) {} (fieldData "Options" m) cur.Options = .ok r.Options ∧
      decodeStrings w (fieldData "allowed_origins" m) cur.AllowedOrigins = .ok r.AllowedOrigins ∧
      decodeStrings w (fieldData "allowed_methods" m) cur.AllowedMethods = .ok r.AllowedMethods ∧
      decodeStrings w (fieldData "allowed_headers" m) cur.AllowedHeaders = .ok r.AllowedHeaders ∧
      decodePtr (decodeStorages w) {} (fieldData "Storage" m) cur.Storage = .ok r.Storage ∧
      decodePtr (decodeKVStore w) {} (fieldData "KVStore" m) cur.KVStore = .ok r.KVStore ∧
      decodeLogger w (fieldData "Logger" m) cur.Logger = .ok r.Logger := by
  simp only [decodeConfig, bind_eq_ok] at h
  obtain ⟨_, h0, _, h1, _, h2, _, h3, _, h4, _, h5, _, h6, _, h7, _, h8, _, h9, _, h10, _, h11, h⟩ := h
  simp only [pure, Except.pure, Except.ok.injEq] at h
  subst h
  exact ⟨h0, h1, h2, h3, h4, h5, h6, h7, h8, h9, h10, h11⟩
/-- An entry of a map of strings is decoded to an entry of the result. -/
theorem decodeTags_mem (w : Weak) (m : List (String × Value)) (cur r : List (String × String))
    (tag x : String) (h : decodeTags w (.obj m) cur = .ok r) (hmem : (tag, Value.str x) ∈ m) :
    (tag, x) ∈ r := by
  simp only [decodeTags] at h
  have key : ∀ (m : List (String × Value)) (r : List (String × String)),
      m.mapM (fun kv => do
        let s ← decodeString w kv.2 ""
        pure (kv.1, s)) = .ok r → (tag, Value.str x) ∈ m → (tag, x) ∈ r := by
    intro m
    induction m with
    | nil => intro r _ hm; simp at hm
    | cons e rest ih =>
      intro r h hm
      rw [List.mapM_cons] at h
      simp only [bind_eq_ok] at h
      obtain ⟨e', he', r', hr', h⟩ := h
      simp only [pure, Except.pure, Except.ok.injEq] at h
      subst h
      rcases List.mem_cons.mp hm with h1 | h1
      · subst h1
        obtain ⟨s, hs, he'⟩ := he'
        simp only [decodeString, Except.ok.injEq] at hs
        simp only [pure, Except.pure, Except.ok.injEq] at he'
        rw [← he', ← hs]
        exact List.mem_cons_self _ _
      · exact List.mem_cons_of_mem _ (ih r' hr' h1)
  exact key m r h hmem

end mapstructure

namespace config

open viper mapstructure

/-- A `Config` decoded from settings that hold the plain values of the source, with the two
fallback fields of its options then replaced, carries the values of the source. -/
theorem carried_of_decoded (k : Constants) (w : World) (S src : List (String × Value))
    (d c : Config) (od oc : Options) (hS : Value.lowerKeysMap S)
    (hG : ∀ p x, p ≠ [] → searchMap src p = x → x.isNil = false → (∀ sub, x ≠ .obj sub) →
      searchMap S p = x)
    (hdec : decodeConfig w.weak S {} = .ok d) (hod : d.Options = some od)
    (hc : c = { d with Options := some oc })
    (hoc : oc = { od with
      Quality := if od.Quality = 0 then k.DefaultQuality else od.Quality,
      DefaultFormat := if od.DefaultFormat = "" then k.DefaultFormat else od.DefaultFormat }) :
    Carried k src c := by
  have hcfg := decodeConfig_fields w.weak S {} d hdec
  have hcDebug : c.Debug = d.Debug := by rw [hc]
  have hcSentry : c.Sentry = d.Sentry := by rw [hc]
  have hcSecretKey : c.SecretKey = d.SecretKey := by rw [hc]
  have hcShard : c.Shard = d.Shard := by rw [hc]
  have hcPort : c.Port = d.Port := by rw [hc]
  have hcOptions : c.Options = some oc := by rw [hc]
  have hcAllowedOrigins : c.AllowedOrigins = d.AllowedOrigins := by rw [hc]
  have hcAllowedMethods : c.AllowedMethods = d.AllowedMethods := by rw [hc]
  have hcAllowedHeaders : c.AllowedHeaders = d.AllowedHeaders := by rw [hc]
  have hcStorage : c.Storage = d.Storage := by rw [hc]
  have hcKVStore : c.KVStore = d.KVStore := by rw [hc]
  have hcLogger : c.Logger = d.Logger := by rw [hc]
  refine ⟨?_, ?_, ?_, ?_, ?_, ?_, ?_, ⟨?_, ?_⟩, ⟨?_, ?_, ?_⟩,
    ⟨?_, ?_, ?_, ?_, ?_, ?_, ?_, ?_, ?_⟩, ⟨?_, ?_, ?_, ?_, ?_, ?_, ?_⟩,
    ⟨?_, ?_, ?_, ?_, ?_, ?_, ?_, ?_⟩, ⟨?_, ?_, ?_, ?_, ?_, ?_, ?_, ?_⟩⟩
  · intro y hy
    have e := hG ["debug"] _ (by simp) hy rfl (by intro sub; simp)
    rw [hcDebug]
    exact field_bool w.weak S "Debug" "debug" y _ _ hS rfl e hcfg.1
  · intro y hy
    have e := hG ["secret_key"] _ (by simp) hy rfl (by intro sub; simp)
    rw [hcSecretKey]
    exact field_str w.weak S "secret_key" "secret_key" y _ _ hS rfl e hcfg.2.2.1
  · intro n hn
    have hx := Value.asInt_some _ _ hn
    have e := hG ["port"] _ (by simp) rfl hx.1 hx.2
    rw [hcPort]
    exact field_int w.weak S "Port" "port" n _ _ hS rfl (by rw [e]; exact hn) hcfg.2.2.2.2.1
  · intro y hy
    have e := hG ["allowed_origins"] _ (by simp) hy rfl (by intro sub; simp)
    rw [hcAllowedOrigins]
    exact field_strs w.weak S "allowed_origins" "allowed_origins" y _ _ hS rfl e hcfg.2.2.2.2.2.2.1
  · intro y hy
    have e := hG ["allowed_methods"] _ (by simp) hy rfl (by intro sub; simp)
    rw [hcAllowedMethods]
    exact field_strs w.weak S "allowed_methods" "allowed_methods" y _ _ hS rfl e hcfg.2.2.2.2.2.2.2.1
  · intro y hy
    have e := hG ["allowed_headers"] _ (by simp) hy rfl (by intro sub; simp)
    rw [hcAllowedHeaders]
    exact field_strs w.weak S "allowed_headers" "allowed_headers" y _ _ hS rfl e hcfg.2.2.2.2.2.2.2.2.1
  · intro y hy
    have e := hG ["logger", "level"] _ (by simp) hy rfl (by intro sub; simp)
    obtain ⟨m1, hl, hs1⟩ := lookup_of_searchMap_cons S "logger" "level" [] _ e rfl
    have hm1 := (Value.lowerKeys_of_lookup "logger" _ S hS hl).2
    have hfd : fieldData "Logger" S = .obj m1 :=
      fieldData_eq S "Logger" "logger" _ hS rfl (by simp [searchMap_single, hl]) rfl
    have h := hcfg.2.2.2.2.2.2.2.2.2.2.2
    rw [hfd] at h
    rw [hcLogger]
    exact field_str w.weak m1 "Level" "level" y _ _ (by simpa [Value.lowerKeys] using hm1) rfl hs1
      (decodeLogger_fields w.weak m1 _ _ h)
  · intro y hy
    have e := hG ["sentry", "dsn"] _ (by simp) hy rfl (by intro sub; simp)
    obtain ⟨s, m1, hs, hd, hm1, hs1⟩ := ptr_section (decodeSentry w.weak) {} S "Sentry" "sentry"
      "dsn" [] _ _ hS rfl hcfg.2.1 e rfl
    have hfield := field_str w.weak m1 "DSN" "dsn" y _ _ hm1 rfl hs1
      (decodeSentry_fields w.weak m1 _ s hd).1
    exact ⟨s, by rw [hcSentry]; exact hs, hfield⟩
  · intro tag y hy
    have e := hG ["sentry", "tags", tag] _ (by simp) hy rfl (by intro sub; simp)
    obtain ⟨s, m1, hs, hd, hm1, hs1⟩ := ptr_section (decodeSentry w.weak) {} S "Sentry" "sentry"
      "tags" [tag] _ _ hS rfl hcfg.2.1 e rfl
    obtain ⟨m2, hl2, hs2⟩ := lookup_of_searchMap_cons m1 "tags" tag [] _ hs1 rfl
    have hl3 := lookup_of_searchMap_single m2 tag _ hs2 rfl
    have hfd : fieldData "Tags" m1 = .obj m2 :=
      fieldData_eq m1 "Tags" "tags" _ hm1 rfl (by simp [searchMap_single, hl2]) rfl
    have ht := (decodeSentry_fields w.weak m1 _ s hd).2
    rw [hfd] at ht
    exact ⟨s, by rw [hcSentry]; exact hs,
      decodeTags_mem w.weak m2 _ _ tag y ht (Value.mem_of_lookup _ _ _ hl3)⟩
  · intro n hn
    have hx := Value.asInt_some _ _ hn
    have e := hG ["shard", "depth"] _ (by simp) rfl hx.1 hx.2
    obtain ⟨s, m1, hs, hd, hm1, hs1⟩ := ptr_section (decodeShard w.weak) {} S "Shard" "shard"
      "depth" [] _ _ hS rfl hcfg.2.2.2.1 e hx.1
    have hfield := field_int w.weak m1 "Depth" "depth" n _ _ hm1 rfl (by rw [hs1]; exact hn)
      (decodeShard_fields w.weak m1 _ s hd).1
    exact ⟨s, by rw [hcShard]; exact hs, hfield⟩
  · intro n hn
    have hx := Value.asInt_some _ _ hn
    have e := hG ["shard", "width"] _ (by simp) rfl hx.1 hx.2
    obtain ⟨s, m1, hs, hd, hm1, hs1⟩ := ptr_section (decodeShard w.weak) {} S "Shard" "shard"
      "width" [] _ _ hS rfl hcfg.2.2.2.1 e hx.1
    have hfield := field_int w.weak m1 "Width" "width" n _ _ hm1 rfl (by rw [hs1]; exact hn)
      (decodeShard_fields w.weak m1 _ s hd).2.1
    exact ⟨s, by rw [hcShard]; exact hs, hfield⟩
  · intro y hy
    have e := hG ["shard", "restonly"] _ (by simp) hy rfl (by intro sub; simp)
    obtain ⟨s, m1, hs, hd, hm1, hs1⟩ := ptr_section (decodeShard w.weak) {} S "Shard" "shard"
      "restonly" [] _ _ hS rfl hcfg.2.2.2.1 e rfl
    have hfield := field_bool w.weak m1 "RestOnly" "restonly" y _ _ hm1 rfl hs1
      (decodeShard_fields w.weak m1 _ s hd).2.2
    exact ⟨s, by rw [hcShard]; exact hs, hfield⟩
  · intro y hy
    have e := hG ["options", "enable_upload"] _ (by simp) hy rfl (by intro sub; simp)
    obtain ⟨s, m1, hs, hd, hm1, hs1⟩ := ptr_section (decodeOptions w.weak) {} S "Options" "options"
      "enable_upload" [] _ _ hS rfl hcfg.2.2.2.2.2.1 e rfl
    have hfield := field_bool w.weak m1 "enable_upload" "enable_upload" y _ _ hm1 rfl hs1
      (decodeOptions_fields w.weak m1 _ s hd).1
    have hso : s = od := Option.some.inj (hs.symm.trans hod)
    subst hso
    refine ⟨oc, hcOptions, ?_⟩
    rw [hoc]
    exact hfield
  · intro y hy
    have e := hG ["options", "enable_delete"] _ (by simp) hy rfl (by intro sub; simp)
    obtain ⟨s, m1, hs, hd, hm1, hs1⟩ := ptr_section (decodeOptions w.weak) {} S "Options" "options"
      "enable_delete" [] _ _ hS rfl hcfg.2.2.2.2.2.1 e rfl
    have hfield := field_bool w.weak m1 "enable_delete" "enable_delete" y _ _ hm1 rfl hs1
      (decodeOptions_fields w.weak m1 _ s hd).2.1
    have hso : s = od := Option.some.inj (hs.symm.trans hod)
    subst hso
    refine ⟨oc, hcOptions, ?_⟩
    rw [hoc]
    exact hfield
  · intro y hy
    have e := hG ["options", "enable_stats"] _ (by simp) hy rfl (by intro sub; simp)
    obtain ⟨s, m1, hs, hd, hm1, hs1⟩ := ptr_section (decodeOptions w.weak) {} S "Options" "options"
      "enable_stats" [] _ _ hS rfl hcfg.2.2.2.2.2.1 e rfl
    have hfield := field_bool w.weak m1 "enable_stats" "enable_stats" y _ _ hm1 rfl hs1
      (decodeOptions_fields w.weak m1 _ s hd).2.2.1
    have hso : s = od := Option.some.inj (hs.symm.trans hod)
    subst hso
    refine ⟨oc, hcOptions, ?_⟩
    rw [hoc]
    exact hfield
  · intro y hy
    have e := hG ["options", "defaultformat"] _ (by simp) hy rfl (by intro sub; simp)
    obtain ⟨s, m1, hs, hd, hm1, hs1⟩ := ptr_section (decodeOptions w.weak) {} S "Options" "options"
      "defaultformat" [] _ _ hS rfl hcfg.2.2.2.2.2.1 e rfl
    have hfield := field_str w.weak m1 "DefaultFormat" "defaultformat" y _ _ hm1 rfl hs1
      (decodeOptions_fields w.weak m1 _ s hd).2.2.2.1
    have hso : s = od := Option.some.inj (hs.symm.trans hod)
    subst hso
    refine ⟨oc, hcOptions, ?_⟩
    rw [hoc]
    show (if s.DefaultFormat = "" then k.DefaultFormat else s.DefaultFormat) = _
    rw [hfield]
  · intro y hy
    have e := hG ["options", "format"] _ (by simp) hy rfl (by intro sub; simp)
    obtain ⟨s, m1, hs, hd, hm1, hs1⟩ := ptr_section (decodeOptions w.weak) {} S "Options" "options"
      "format" [] _ _ hS rfl hcfg.2.2.2.2.2.1 e rfl
    have hfield := field_str w.weak m1 "Format" "format" y _ _ hm1 rfl hs1
      (decodeOptions_fields w.weak m1 _ s hd).2.2.2.2.1
    have hso : s = od := Option.some.inj (hs.symm.trans hod)
    subst hso
    refine ⟨oc, hcOptions, ?_⟩
    rw [hoc]
    exact hfield
  · intro n hn
    have hx := Value.asInt_some _ _ hn
    have e := hG ["options", "quality"] _ (by simp) rfl hx.1 hx.2
    obtain ⟨s, m1, hs, hd, hm1, hs1⟩ := ptr_section (decodeOptions w.weak) {} S "Options" "options"
      "quality" [] _ _ hS rfl hcfg.2.2.2.2.2.1 e hx.1
    have hfield := field_int w.weak m1 "Quality" "quality" n _ _ hm1 rfl (by rw [hs1]; exact hn)
      (decodeOptions_fields w.weak m1 _ s hd).2.2.2.2.2.1
    have hso : s = od := Option.some.inj (hs.symm.trans hod)
    subst hso
    refine ⟨oc, hcOptions, ?_⟩
    rw [hoc]
    show (if s.Quality = 0 then k.DefaultQuality else s.Quality) = _
    rw [hfield]
  · intro y hy
    have e := hG ["options", "allowed_sizes"] _ (by simp) hy rfl (by intro sub; simp)
    obtain ⟨s, m1, hs, hd, hm1, hs1⟩ := ptr_section (decodeOptions w.weak) {} S "Options" "options"
      "allowed_sizes" [] _ _ hS rfl hcfg.2.2.2.2.2.1 e rfl
    have hfield := field_sizes w.weak m1 "allowed_sizes" "allowed_sizes" y _ _ hm1 rfl hs1
      (decodeOptions_fields w.weak m1 _ s hd).2.2.2.2.2.2.1
    have hso : s = od := Option.some.inj (hs.symm.trans hod)
    subst hso
    refine ⟨oc, hcOptions, ?_⟩
    rw [hoc]
    exact hfield
  · intro y hy
    have e := hG ["options", "default_user_agent"] _ (by simp) hy rfl (by intro sub; simp)
    obtain ⟨s, m1, hs, hd, hm1, hs1⟩ := ptr_section (decodeOptions w.weak) {} S "Options" "options"
      "default_user_agent" [] _ _ hS rfl hcfg.2.2.2.2.2.1 e rfl
    have hfield := field_str w.weak m1 "default_user_agent" "default_user_agent" y _ _ hm1 rfl hs1
      (decodeOptions_fields w.weak m1 _ s hd).2.2.2.2.2.2.2.1
    have hso : s = od := Option.some.inj (hs.symm.trans hod)
    subst hso
    refine ⟨oc, hcOptions, ?_⟩
    rw [hoc]
    exact hfield
  · intro y hy
    have e := hG ["options", "mimetype_detector"] _ (by simp) hy rfl (by intro sub; simp)
    obtain ⟨s, m1, hs, hd, hm1, hs1⟩ := ptr_section (decodeOptions w.weak) {} S "Options" "options"
      "mimetype_detector" [] _ _ hS rfl hcfg.2.2.2.2.2.1 e rfl
    have hfield := field_str w.weak m1 "mimetype_detector" "mimetype_detector" y _ _ hm1 rfl hs1
      (decodeOptions_fields w.weak m1 _ s hd).2.2.2.2.2.2.2.2
    have hso : s = od := Option.some.inj (hs.symm.trans hod)
    subst hso
    refine ⟨oc, hcOptions, ?_⟩
    rw [hoc]
    exact hfield
  · intro y hy
    have e := hG ["kvstore", "type"] _ (by simp) hy rfl (by intro sub; simp)
    obtain ⟨s, m1, hs, hd, hm1, hs1⟩ := ptr_section (decodeKVStore w.weak) {} S "KVStore" "kvstore"
      "type" [] _ _ hS rfl hcfg.2.2.2.2.2.2.2.2.2.2.1 e rfl
    have hfield := field_str w.weak m1 "Type" "type" y _ _ hm1 rfl hs1
      (decodeKVStore_fields w.weak m1 _ s hd).1
    exact ⟨s, by rw [hcKVStore]; exact hs, hfield⟩
  · intro y hy
    have e := hG ["kvstore", "host"] _ (by simp) hy rfl (by intro sub; simp)
    obtain ⟨s, m1, hs, hd, hm1, hs1⟩ := ptr_section (decodeKVStore w.weak) {} S "KVStore" "kvstore"
      "host" [] _ _ hS rfl hcfg.2.2.2.2.2.2.2.2.2.2.1 e rfl
    have hfield := field_str w.weak m1 "Host" "host" y _ _ hm1 rfl hs1
      (decodeKVStore_fields w.weak m1 _ s hd).2.1
    exact ⟨s, by rw [hcKVStore]; exact hs, hfield⟩
  · intro n hn
    have hx := Value.asInt_some _ _ hn
    have e := hG ["kvstore", "port"] _ (by simp) rfl hx.1 hx.2
    obtain ⟨s, m1, hs, hd, hm1, hs1⟩ := ptr_section (decodeKVStore w.weak) {} S "KVStore" "kvstore"
      "port" [] _ _ hS rfl hcfg.2.2.2.2.2.2.2.2.2.2.1 e hx.1
    have hfield := field_int w.weak m1 "Port" "port" n _ _ hm1 rfl (by rw [hs1]; exact hn)
      (decodeKVStore_fields w.weak m1 _ s hd).2.2.1
    exact ⟨s, by rw [hcKVStore]; exact hs, hfield⟩
  · intro y hy
    have e := hG ["kvstore", "password"] _ (by simp) hy rfl (by intro sub; simp)
    obtain ⟨s, m1, hs, hd, hm1, hs1⟩ := ptr_section (decodeKVStore w.weak) {} S "KVStore" "kvstore"
      "password" [] _ _ hS rfl hcfg.2.2.2.2.2.2.2.2.2.2.1 e rfl
    have hfield := field_str w.weak m1 "Password" "password" y _ _ hm1 rfl hs1
      (decodeKVStore_fields w.weak m1 _ s hd).2.2.2.1
    exact ⟨s, by rw [hcKVStore]; exact hs, hfield⟩
  · intro n hn
    have hx := Value.asInt_some _ _ hn
    have e := hG ["kvstore", "db"] _ (by simp) rfl hx.1 hx.2
    obtain ⟨s, m1, hs, hd, hm1, hs1⟩ := ptr_section (decodeKVStore w.weak) {} S "KVStore" "kvstore"
      "db" [] _ _ hS rfl hcfg.2.2.2.2.2.2.2.2.2.2.1 e hx.1
    have hfield := field_int w.weak m1 "Db" "db" n _ _ hm1 rfl (by rw [hs1]; exact hn)
      (decodeKVStore_fields w.weak m1 _ s hd).2.2.2.2.1
    exact ⟨s, by rw [hcKVStore]; exact hs, hfield⟩
  · intro y hy
    have e := hG ["kvstore", "prefix"] _ (by simp) hy rfl (by intro sub; simp)
    obtain ⟨s, m1, hs, hd, hm1, hs1⟩ := ptr_section (decodeKVStore w.weak) {} S "KVStore" "kvstore"
      "prefix" [] _ _ hS rfl hcfg.2.2.2.2.2.2.2.2.2.2.1 e rfl
    have hfield := field_str w.weak m1 "Prefix" "prefix" y _ _ hm1 rfl hs1
      (decodeKVStore_fields w.weak m1 _ s hd).2.2.2.2.2.1
    exact ⟨s, by rw [hcKVStore]; exact hs, hfield⟩
  · intro n hn
    have hx := Value.asInt_some _ _ hn
    have e := hG ["kvstore", "maxentries"] _ (by simp) rfl hx.1 hx.2
    obtain ⟨s, m1, hs, hd, hm1, hs1⟩ := ptr_section (decodeKVStore w.weak) {} S "KVStore" "kvstore"
      "maxentries" [] _ _ hS rfl hcfg.2.2.2.2.2.2.2.2.2.2.1 e hx.1
    have hfield := field_int w.weak m1 "MaxEntries" "maxentries" n _ _ hm1 rfl (by rw [hs1]; exact hn)
      (decodeKVStore_fields w.weak m1 _ s hd).2.2.2.2.2.2
    exact ⟨s, by rw [hcKVStore]; exact hs, hfield⟩
  · intro y hy
    have e := hG ["storage", "src", "type"] _ (by simp) hy rfl (by intro sub; simp)
    obtain ⟨st, m1, hst, hd1, hm1, hs1⟩ := ptr_section (decodeStorages w.weak) {} S "Storage"
      "storage" "src" ["type"] _ _ hS rfl hcfg.2.2.2.2.2.2.2.2.2.1 e rfl
    obtain ⟨s, m2, hs, hd2, hm2, hs2⟩ := ptr_section (decodeStorage w.weak) {} m1 "Src"
      "src" "type" [] _ _ hm1 rfl (decodeStorages_fields w.weak m1 _ st hd1).1 hs1 rfl
    refine ⟨s, ?_, field_str w.weak m2 "Type" "type" y _ _ hm2 rfl hs2
      (decodeStorage_fields w.weak m2 _ s hd2).1⟩
    rw [hcStorage, hst]
    exact hs
  · intro y hy
    have e := hG ["storage", "src", "location"] _ (by simp) hy rfl (by intro sub; simp)
    obtain ⟨st, m1, hst, hd1, hm1, hs1⟩ := ptr_section (decodeStorages w.weak) {} S "Storage"
      "storage" "src" ["location"] _ _ hS rfl hcfg.2.2.2.2.2.2.2.2.2.1 e rfl
    obtain ⟨s, m2, hs, hd2, hm2, hs2⟩ := ptr_section (decodeStorage w.weak) {} m1 "Src"
      "src" "location" [] _ _ hm1 rfl (decodeStorages_fields w.weak m1 _ st hd1).1 hs1 rfl
    refine ⟨s, ?_, field_str w.weak m2 "Location" "location" y _ _ hm2 rfl hs2
      (decodeStorage_fields w.weak m2 _ s hd2).2.1⟩
    rw [hcStorage, hst]
    exact hs
  · intro y hy
    have e := hG ["storage", "src", "base_url"] _ (by simp) hy rfl (by intro sub; simp)
    obtain ⟨st, m1, hst, hd1, hm1, hs1⟩ := ptr_section (decodeStorages w.weak) {} S "Storage"
      "storage" "src" ["base_url"] _ _ hS rfl hcfg.2.2.2.2.2.2.2.2.2.1 e rfl
    obtain ⟨s, m2, hs, hd2, hm2, hs2⟩ := ptr_section (decodeStorage w.weak) {} m1 "Src"
      "src" "base_url" [] _ _ hm1 rfl (decodeStorages_fields w.weak m1 _ st hd1).1 hs1 rfl
    refine ⟨s, ?_, field_str w.weak m2 "base_url" "base_url" y _ _ hm2 rfl hs2
      (decodeStorage_fields w.weak m2 _ s hd2).2.2.1⟩
    rw [hcStorage, hst]
    exact hs
  · intro y hy
    have e := hG ["storage", "src", "region"] _ (by simp) hy rfl (by intro sub; simp)
    obtain ⟨st, m1, hst, hd1, hm1, hs1⟩ := ptr_section (decodeStorages w.weak) {} S "Storage"
      "storage" "src" ["region"] _ _ hS rfl hcfg.2.2.2.2.2.2.2.2.2.1 e rfl
    obtain ⟨s, m2, hs, hd2, hm2, hs2⟩ := ptr_section (decodeStorage w.weak) {} m1 "Src"
      "src" "region" [] _ _ hm1 rfl (decodeStorages_fields w.weak m1 _ st hd1).1 hs1 rfl
    refine ⟨s, ?_, field_str w.weak m2 "Region" "region" y _ _ hm2 rfl hs2
      (decodeStorage_fields w.weak m2 _ s hd2).2.2.2.1⟩
    rw [hcStorage, hst]
    exact hs
  · intro y hy
    have e := hG ["storage", "src", "acl"] _ (by simp) hy rfl (by intro sub; simp)
    obtain ⟨st, m1, hst, hd1, hm1, hs1⟩ := ptr_section (decodeStorages w.weak) {} S "Storage"
      "storage" "src" ["acl"] _ _ hS rfl hcfg.2.2.2.2.2.2.2.2.2.1 e rfl
    obtain ⟨s, m2, hs, hd2, hm2, hs2⟩ := ptr_section (decodeStorage w.weak) {} m1 "Src"
      "src" "acl" [] _ _ hm1 rfl (decodeStorages_fields w.weak m1 _ st hd1).1 hs1 rfl
    refine ⟨s, ?_, field_str w.weak m2 "ACL" "acl" y _ _ hm2 rfl hs2
      (decodeStorage_fields w.weak m2 _ s hd2).2.2.2.2.1⟩
    rw [hcStorage, hst]
    exact hs
  · intro y hy
    have e := hG ["storage", "src", "access_key_id"] _ (by simp) hy rfl (by intro sub; simp)
    obtain ⟨st, m1, hst, hd1, hm1, hs1⟩ := ptr_section (decodeStorages w.weak) {} S "Storage"
      "storage" "src" ["access_key_id"] _ _ hS rfl hcfg.2.2.2.2.2.2.2.2.2.1 e rfl
    obtain ⟨s, m2, hs, hd2, hm2, hs2⟩ := ptr_section (decodeStorage w.weak) {} m1 "Src"
      "src" "access_key_id" [] _ _ hm1 rfl (decodeStorages_fields w.weak m1 _ st hd1).1 hs1 rfl
    refine ⟨s, ?_, field_str w.weak m2 "access_key_id" "access_key_id" y _ _ hm2 rfl hs2
      (decodeStorage_fields w.weak m2 _ s hd2).2.2.2.2.2.1⟩
    rw [hcStorage, hst]
    exact hs
  · intro y hy
    have e := hG ["storage", "src", "bucket_name"] _ (by simp) hy rfl (by intro sub; simp)
    obtain ⟨st, m1, hst, hd1, hm1, hs1⟩ := ptr_section (decodeStorages w.weak) {} S "Storage"
      "storage" "src" ["bucket_name"] _ _ hS rfl hcfg.2.2.2.2.2.2.2.2.2.1 e rfl
    obtain ⟨s, m2, hs, hd2, hm2, hs2⟩ := ptr_section (decodeStorage w.weak) {} m1 "Src"
      "src" "bucket_name" [] _ _ hm1 rfl (decodeStorages_fields w.weak m1 _ st hd1).1 hs1 rfl
    refine ⟨s, ?_, field_str w.weak m2 "bucket_name" "bucket_name" y _ _ hm2 rfl hs2
      (decodeStorage_fields w.weak m2 _ s hd2).2.2.2.2.2.2.1⟩
    rw [hcStorage, hst]
    exact hs
  · intro y hy
    have e := hG ["storage", "src", "secret_access_key"] _ (by simp) hy rfl (by intro sub; simp)
    obtain ⟨st, m1, hst, hd1, hm1, hs1⟩ := ptr_section (decodeStorages w.weak) {} S "Storage"
      "storage" "src" ["secret_access_key"] _ _ hS rfl hcfg.2.2.2.2.2.2.2.2.2.1 e rfl
    obtain ⟨s, m2, hs, hd2, hm2, hs2⟩ := ptr_section (decodeStorage w.weak) {} m1 "Src"
      "src" "secret_access_key" [] _ _ hm1 rfl (decodeStorages_fields w.weak m1 _ st hd1).1 hs1 rfl
    refine ⟨s, ?_, field_str w.weak m2 "secret_access_key" "secret_access_key" y _ _ hm2 rfl hs2
      (decodeStorage_fields w.weak m2 _ s hd2).2.2.2.2.2.2.2⟩
    rw [hcStorage, hst]
    exact hs
  · intro y hy
    have e := hG ["storage", "dst", "type"] _ (by simp) hy rfl (by intro sub; simp)
    obtain ⟨st, m1, hst, hd1, hm1, hs1⟩ := ptr_section (decodeStorages w.weak) {} S "Storage"
      "storage" "dst" ["type"] _ _ hS rfl hcfg.2.2.2.2.2.2.2.2.2.1 e rfl
    obtain ⟨s, m2, hs, hd2, hm2, hs2⟩ := ptr_section (decodeStorage w.weak) {} m1 "Dst"
      "dst" "type" [] _ _ hm1 rfl (decodeStorages_fields w.weak m1 _ st hd1).2 hs1 rfl
    refine ⟨s, ?_, field_str w.weak m2 "Type" "type" y _ _ hm2 rfl hs2
      (decodeStorage_fields w.weak m2 _ s hd2).1⟩
    rw [hcStorage, hst]
    exact hs
  · intro y hy
    have e := hG ["storage", "dst", "location"] _ (by simp) hy rfl (by intro sub; simp)
    obtain ⟨st, m1, hst, hd1, hm1, hs1⟩ := ptr_section (decodeStorages w.weak) {} S "Storage"
      "storage" "dst" ["location"] _ _ hS rfl hcfg.2.2.2.2.2.2.2.2.2.1 e rfl
    obtain ⟨s, m2, hs, hd2, hm2, hs2⟩ := ptr_section (decodeStorage w.weak) {} m1 "Dst"
      "dst" "location" [] _ _ hm1 rfl (decodeStorages_fields w.weak m1 _ st hd1).2 hs1 rfl
    refine ⟨s, ?_, field_str w.weak m2 "Location" "location" y _ _ hm2 rfl hs2
      (decodeStorage_fields w.weak m2 _ s hd2).2.1⟩
    rw [hcStorage, hst]
    exact hs
  · intro y hy
    have e := hG ["storage", "dst", "base_url"] _ (by simp) hy rfl (by intro sub; simp)
    obtain ⟨st, m1, hst, hd1, hm1, hs1⟩ := ptr_section (decodeStorages w.weak) {} S "Storage"
      "storage" "dst" ["base_url"] _ _ hS rfl hcfg.2.2.2.2.2.2.2.2.2.1 e rfl
    obtain ⟨s, m2, hs, hd2, hm2, hs2⟩ := ptr_section (decodeStorage w.weak) {} m1 "Dst"
      "dst" "base_url" [] _ _ hm1 rfl (decodeStorages_fields w.weak m1 _ st hd1).2 hs1 rfl
    refine ⟨s, ?_, field_str w.weak m2 "base_url" "base_url" y _ _ hm2 rfl hs2
      (decodeStorage_fields w.weak m2 _ s hd2).2.2.1⟩
    rw [hcStorage, hst]
    exact hs
  · intro y hy
    have e := hG ["storage", "dst", "region"] _ (by simp) hy rfl (by intro sub; simp)
    obtain ⟨st, m1, hst, hd1, hm1, hs1⟩ := ptr_section (decodeStorages w.weak) {} S "Storage"
      "storage" "dst" ["region"] _ _ hS rfl hcfg.2.2.2.2.2.2.2.2.2.1 e rfl
    obtain ⟨s, m2, hs, hd2, hm2, hs2⟩ := ptr_section (decodeStorage w.weak) {} m1 "Dst"
      "dst" "region" [] _ _ hm1 rfl (decodeStorages_fields w.weak m1 _ st hd1).2 hs1 rfl
    refine ⟨s, ?_, field_str w.weak m2 "Region" "region" y _ _ hm2 rfl hs2
      (decodeStorage_fields w.weak m2 _ s hd2).2.2.2.1⟩
    rw [hcStorage, hst]
    exact hs
  · intro y hy
    have e := hG ["storage", "dst", "acl"] _ (by simp) hy rfl (by intro sub; simp)
    obtain ⟨st, m1, hst, hd1, hm1, hs1⟩ := ptr_section (decodeStorages w.weak) {} S "Storage"
      "storage" "dst" ["acl"] _ _ hS rfl hcfg.2.2.2.2.2.2.2.2.2.1 e rfl
    obtain ⟨s, m2, hs, hd2, hm2, hs2⟩ := ptr_section (decodeStorage w.weak) {} m1 "Dst"
      "dst" "acl" [] _ _ hm1 rfl (decodeStorages_fields w.weak m1 _ st hd1).2 hs1 rfl
    refine ⟨s, ?_, field_str w.weak m2 "ACL" "acl" y _ _ hm2 rfl hs2
      (decodeStorage_fields w.weak m2 _ s hd2).2.2.2.2.1⟩
    rw [hcStorage, hst]
    exact hs
  · intro y hy
    have e := hG ["storage", "dst", "access_key_id"] _ (by simp) hy rfl (by intro sub; simp)
    obtain ⟨st, m1, hst, hd1, hm1, hs1⟩ := ptr_section (decodeStorages w.weak) {} S "Storage"
      "storage" "dst" ["access_key_id"] _ _ hS rfl hcfg.2.2.2.2.2.2.2.2.2.1 e rfl
    obtain ⟨s, m2, hs, hd2, hm2, hs2⟩ := ptr_section (decodeStorage w.weak) {} m1 "Dst"
      "dst" "access_key_id" [] _ _ hm1 rfl (decodeStorages_fields w.weak m1 _ st hd1).2 hs1 rfl
    refine ⟨s, ?_, field_str w.weak m2 "access_key_id" "access_key_id" y _ _ hm2 rfl hs2
      (decodeStorage_fields w.weak m2 _ s hd2).2.2.2.2.2.1⟩
    rw [hcStorage, hst]
    exact hs
  · intro y hy
    have e := hG ["storage", "dst", "bucket_name"] _ (by simp) hy rfl (by intro sub; simp)
    obtain ⟨st, m1, hst, hd1, hm1, hs1⟩ := ptr_section (decodeStorages w.weak) {} S "Storage"
      "storage" "dst" ["bucket_name"] _ _ hS rfl hcfg.2.2.2.2.2.2.2.2.2.1 e rfl
    obtain ⟨s, m2, hs, hd2, hm2, hs2⟩ := ptr_section (decodeStorage w.weak) {} m1 "Dst"
      "dst" "bucket_name" [] _ _ hm1 rfl (decodeStorages_fields w.weak m1 _ st hd1).2 hs1 rfl
    refine ⟨s, ?_, field_str w.weak m2 "bucket_name" "bucket_name" y _ _ hm2 rfl hs2
      (decodeStorage_fields w.weak m2 _ s hd2).2.2.2.2.2.2.1⟩
    rw [hcStorage, hst]
    exact hs
  · intro y hy
    have e := hG ["storage", "dst", "secret_access_key"] _ (by simp) hy rfl (by intro sub; simp)
    obtain ⟨st, m1, hst, hd1, hm1, hs1⟩ := ptr_section (decodeStorages w.weak) {} S "Storage"
      "storage" "dst" ["secret_access_key"] _ _ hS rfl hcfg.2.2.2.2.2.2.2.2.2.1 e rfl
    obtain ⟨s, m2, hs, hd2, hm2, hs2⟩ := ptr_section (decodeStorage w.weak) {} m1 "Dst"
      "dst" "secret_access_key" [] _ _ hm1 rfl (decodeStorages_fields w.weak m1 _ st hd1).2 hs1 rfl
    refine ⟨s, ?_, field_str w.weak m2 "secret_access_key" "secret_access_key" y _ _ hm2 rfl hs2
      (decodeStorage_fields w.weak m2 _ s hd2).2.2.2.2.2.2.2⟩
    rw [hcStorage, hst]
    exact hs

end config

namespace config

open viper mapstructure

theorem unmarshalReader_lowerKeys (w : World) (v : Viper) (content : String)
    (c : List (String × Value)) (h : unmarshalReader w v content = .ok c) :
    Value.lowerKeysMap c := by
  unfold unmarshalReader at h
  split at h
  · simp at h
  · simp only [Except.ok.injEq] at h
    rw [← h]
    exact insensitiviseMap_lowerKeys _

theorem ReadInConfig_lowerKeys (w : World) (v s : Viper) (h : ReadInConfig w v = (none, s)) :
    Value.lowerKeysMap s.config := by
  unfold ReadInConfig at h
  rcases hgf : getConfigFile w v with ⟨r, v'⟩
  rw [hgf] at h
  cases r with
  | error e => simp at h
  | ok filename =>
    simp only at h
    split at h
    · simp at h
    · split at h
      · simp at h
      · split at h
        · simp at h
        · rename_i c hc
          simp only [Prod.mk.injEq, true_and] at h
          rw [← h]
          exact unmarshalReader_lowerKeys _ _ _ _ hc

theorem ReadConfig_lowerKeys (w : World) (v s : Viper) (content : String)
    (h : ReadConfig w v content = (none, s)) : Value.lowerKeysMap s.config := by
  unfold ReadConfig at h
  split at h
  · simp at h
  · rename_i c hc
    simp only [Prod.mk.injEq, true_and] at h
    rw [← h]
    exact unmarshalReader_lowerKeys _ _ _ _ hc

/-- When the decoding stage succeeds, the parsed configuration it leaves has lower-case keys
at every level. -/
theorem decoded_lowerKeys (k : Constants) (w : World) (content : String) (isPath : Bool)
    (v : Viper) (d : Config) (h : (decoded k w content isPath v).1 = .ok d) :
    Value.lowerKeysMap (decoded k w content isPath v).2.config := by
  cases isPath with
  | true =>
    unfold decoded at h ⊢
    simp only [if_true] at h ⊢
    rcases hr : ReadInConfig w (SetConfigFile (register k v) content) with ⟨e, s⟩
    rw [hr] at h
    cases e with
    | some err => simp at h
    | none => exact ReadInConfig_lowerKeys _ _ _ hr
  | false =>
    unfold decoded at h ⊢
    simp only [Bool.false_eq_true, if_false] at h ⊢
    rcases hr : ReadConfig w (SetConfigType (register k v) "json") content with ⟨e, s⟩
    rw [hr] at h
    cases e with
    | some err => simp at h
    | none => exact ReadConfig_lowerKeys _ _ _ _ hr

/-- C4 (counterexample). The key `options.quality` is set in the environment
(`PICFIT_OPTIONS_QUALITY=50`) and in the source, which gives it the value 0: the loaded
`Config` has neither, but the default quality 95.  (And the order of viper's layers is not
source over environment: once `AutomaticEnv` has been called, which `load` never does, the
source `{"port":9000}` is loaded with the port 8080 of the environment.) -/
theorem load_source_value_replaced :
    sample.qualityWorld.Getenv "PICFIT_OPTIONS_QUALITY" = "50" ∧
      (searchMap (LoadFromContent sample.constants sample.qualityWorld
        "\x7b\"options\":\x7b\"quality\":0\x7d\x7d" New).2.config
        ["options", "quality"]).asInt = some 0 ∧
      (∃ c o, (LoadFromContent sample.constants sample.qualityWorld
          "\x7b\"options\":\x7b\"quality\":0\x7d\x7d" New).1 = .ret (some c) none ∧
        c.Options = some o ∧ o.Quality = 95 ∧ o.Quality ≠ 0) ∧
      (LoadFromContent sample.constants sample.world "\x7b\"port\":9000\x7d"
          (AutomaticEnv New)).1 =
        .ret (some { DefaultConfig sample.constants with Port := 8080 }) none :=
  ⟨by decide, by decide,
    ⟨{ DefaultConfig sample.constants with
        Options := some { DefaultFormat := "png", Quality := 95 } },
      { DefaultFormat := "png", Quality := 95 }, by decide, rfl, rfl, by decide⟩,
    by decide⟩

/-- C4 (amended). Source over environment, from every reachable state and whatever the
environment holds: the outcome of `load` is the same as without environment; when `load`
succeeds, the `Config` carries, for every key of the configuration tree at which the source
holds a value of the kind of the field, the value decoded from the source (`Carried`), with
the default instead of a quality 0 or of an empty default format; in content mode the source
is the decoded content with keys in lower case; and the source `{"port": n}` is loaded with
`Port` the Go `int` of `n`. -/
theorem load_carries_source (k : Constants) (w : World) (env : String → String)
    (content : String) (isPath : Bool) (v : Viper) (hv : Reachable k v) :
    (load k { w with Getenv := env } content isPath v).1 = (load k w content isPath v).1 ∧
      (∀ c, (load k { w with Getenv := env } content isPath v).1 = .ret (some c) none →
        Carried k (load k { w with Getenv := env } content isPath v).2.config c) ∧
      (∀ tree, w.unmarshal "json" content = .ok tree →
        (LoadFromContent k { w with Getenv := env } content v).2.config =
          insensitiviseMap tree) ∧
      (∀ n : Int, w.unmarshal "json" content = .ok [("port", .num n)] →
        ∃ c, (LoadFromContent k { w with Getenv := env } content v).1 = .ret (some c) none ∧
          c.Port = Go.int64 (Go.float64 n)) := by
  have henv : ∀ p, (load k { w with Getenv := env } content p v).1 = (load k w content p v).1 :=
    fun p => load_fst_congr k _ _ _ _ _ _ _ _ (decoded_env k w env content p v hv.inv)
  refine ⟨henv isPath, ?_, ?_, ?_⟩
  · intro c hl
    rw [load_snd]
    rw [load_fst] at hl
    cases hd : (decoded k { w with Getenv := env } content isPath v).1 with
    | error e => rw [hd] at hl; simp at hl
    | ok d =>
      rw [hd] at hl
      obtain ⟨hu, hoff, hdef, _⟩ := decoded_ok k _ content isPath v d hv.inv hd
      have hlow := decoded_lowerKeys k _ content isPath v d hd
      simp only at hl
      split at hl
      · rename_i od dflt hod hdflt
        simp only [Outcome.ret.injEq, Option.some.injEq, and_true] at hl
        have hdflt' : dflt.Quality = k.DefaultQuality ∧ dflt.DefaultFormat = k.DefaultFormat := by
          have : (DefaultConfig k).Options = some
              { EnableDelete := false, EnableUpload := false, DefaultFormat := k.DefaultFormat,
                Quality := k.DefaultQuality, Format := "",
                DefaultUserAgent := k.DefaultUserAgent ++ "/" ++ k.Version,
                MimetypeDetector := k.DefaultMimetypeDetector } := rfl
          rw [this] at hdflt
          simp only [Option.some.injEq] at hdflt
          rw [← hdflt]
          exact ⟨rfl, rfl⟩
        refine carried_of_decoded k { w with Getenv := env }
          (AllSettings { w with Getenv := env }
            (decoded k { w with Getenv := env } content isPath v).2)
          _ d c od _
          (AllSettings_lowerKeys _ _ hoff hlow (hdef ▸ register_New_defaults_lowerKeys k))
          (fun p x hp hs hx hleaf => AllSettings_leaf k _ _ p x hoff hdef hlow hp hs hx hleaf)
          hu hod hl.symm ?_
        rw [hdflt'.1, hdflt'.2]
        split <;> split <;> simp_all
      · simp at hl
  · intro tree ht
    unfold LoadFromContent
    rw [load_snd, decoded_content_unfold]
    simp only [ht]
  · intro n ht
    have hd := decoded_content_tree k w content v _ hv.inv ht
    have hs : AllSettings w
        { config := insensitiviseMap [("port", .num n)],
          defaults := (register k New).defaults } =
        [("port", .num n), ("options", optionsValue (DefaultConfig k).Options),
          ("shard", shardValue (DefaultConfig k).Shard),
          ("kvstore", kvstoreValue (DefaultConfig k).KVStore)] :=
      rfl
    have hu : Unmarshal w
        { config := insensitiviseMap [("port", .num n)],
          defaults := (register k New).defaults } {} =
        .ok { DefaultConfig k with Port := Go.int64 (Go.float64 n) } := by
      unfold Unmarshal
      rw [hs]
      rfl
    rw [hu] at hd
    unfold LoadFromContent
    rw [henv false, load_fst, hd]
    refine ⟨{ DefaultConfig k with Port := Go.int64 (Go.float64 n) }, ?_, rfl⟩
    by_cases h1 : k.DefaultQuality = 0 <;> by_cases h2 : k.DefaultFormat = "" <;>
      simp [DefaultConfig, h1, h2]

/-- Witness of C4 (amended), scenario C: with `PICFIT_PORT=8080` in the environment, the
content `{"port":9000}` is loaded with port 9000, and the loaded `Config` carries the values
of the source. -/
theorem load_carries_source_witness :
    (∃ c, (LoadFromContent sample.constants
        { sample.world with Getenv := fun name => if name = "PICFIT_PORT" then "8080" else "" }
        "\x7b\"port\":9000\x7d" New).1 = .ret (some c) none ∧ c.Port = 9000) ∧
      Carried sample.constants
        (load sample.constants
          { sample.world with Getenv := fun name => if name = "PICFIT_PORT" then "8080" else "" }
          "\x7b\"port\":9000\x7d" false New).2.config
        { DefaultConfig sample.constants with Port := 9000 } :=
  ⟨(load_carries_source sample.constants sample.world
      (fun name => if name = "PICFIT_PORT" then "8080" else "")
      "\x7b\"port\":9000\x7d" false New Reachable.init).2.2.2 9000 rfl,
    (load_carries_source sample.constants sample.world
      (fun name => if name = "PICFIT_PORT" then "8080" else "")
      "\x7b\"port\":9000\x7d" false New Reachable.init).2.1
      { DefaultConfig sample.constants with Port := 9000 } (by decide)⟩

end config

/-! ## The library model on some inputs -/

/-- A JSON number beyond `2 ^ 53` is held rounded to 53 binary digits. -/
theorem Go.float64_rounds : Go.float64 9007199254740993 = 9007199254740992 := by
  decide

set_option maxRecDepth 8000 in
/-- A JSON number that does not fit in 64 bits is decoded into the least `int`. -/
theorem mapstructure.decodeInt_overflow (w : Weak) :
    mapstructure.decodeInt w (.num (10 ^ 30)) 0 = .ok (-9223372036854775808) := by
  have h : Go.int64 (Go.float64 (10 ^ 30)) = -9223372036854775808 := by decide
  simp only [mapstructure.decodeInt, h]

/-- An entry whose key is not in lower case replaces the entry of the same key in lower
case, whatever their order. -/
theorem viper.insensitiviseMap_upper_wins :
    viper.insensitiviseMap [("port", .num 1), ("PORT", .num 2)] = [("port", .num 2)] ∧
      viper.insensitiviseMap [("PORT", .num 2), ("port", .num 1)] = [("port", .num 2)] :=
  ⟨rfl, rfl⟩

/-- The source `{"port":1,"PORT":2}` is loaded with port 2. -/
theorem config.load_upper_key (k : config.Constants) (w : World) (content : String)
    (h : w.unmarshal "json" content = .ok [("port", .num 1), ("PORT", .num 2)]) :
    ∃ c, (config.LoadFromContent k w content viper.New).1 = .ret (some c) none ∧ c.Port = 2 := by
  have hd := config.decoded_content_tree k w content viper.New _ config.Reachable.init.inv h
  have hs : viper.AllSettings w
      { config := viper.insensitiviseMap [("port", .num 1), ("PORT", .num 2)],
        defaults := (config.register k viper.New).defaults } =
      [("port", .num 2), ("options", config.optionsValue (config.DefaultConfig k).Options),
        ("shard", config.shardValue (config.DefaultConfig k).Shard),
        ("kvstore", config.kvstoreValue (config.DefaultConfig k).KVStore)] :=
    rfl
  have hu : viper.Unmarshal w
      { config := viper.insensitiviseMap [("port", .num 1), ("PORT", .num 2)],
        defaults := (config.register k viper.New).defaults } {} =
      .ok { config.DefaultConfig k with Port := 2 } := by
    unfold viper.Unmarshal
    rw [hs]
    rfl
  rw [hu] at hd
  unfold config.LoadFromContent
  rw [config.load_fst, hd]
  refine ⟨{ config.DefaultConfig k with Port := 2 }, ?_, rfl⟩
  by_cases h1 : k.DefaultQuality = 0 <;> by_cases h2 : k.DefaultFormat = "" <;>
    simp [config.DefaultConfig, h1, h2]
